import Mathlib

/-!
# RollHighOrDie: the update section of the game loop and the level generator

Shallow embedding of `src/main.cpp`.

* Every `float` of the program is a rational number.  A float operation is the
  exact rational operation followed by the rounding function `rnd` of the float
  format, which is a parameter of every definition.  Two roundings are provided:
  `exact` (no rounding, real arithmetic) and `f32` (IEEE-754 binary32, round to
  nearest, ties to even, finite values only).  Statements that quantify over
  `rnd` hold for both.
* Literals of the source that are small dyadic numbers (`0`, `1.0f`, `7.0f`,
  `10.5f`, `13.0f`, `-5`, ...) are representable in every binary format and are
  written as themselves; `0.4f` is `rnd (2/5)`.
* The library calls are inputs: the keys read in a frame are an `Intents`
  record, `GetFrameTime()` is the argument `dt`, and the values returned by
  `GetRandomValue` are the draw functions given to the generator.
* Camera and drawing code read the state and never write it; they are left out.
-/

namespace RollHighOrDie

/-! ## Float arithmetic -/

/-- Float addition `a + b`: the exact sum, rounded. -/
def fadd (rnd : ℚ → ℚ) (a b : ℚ) : ℚ := rnd (a + b)

/-- Float subtraction `a - b`: the exact difference, rounded. -/
def fsub (rnd : ℚ → ℚ) (a b : ℚ) : ℚ := rnd (a - b)

/-- Float multiplication `a * b`: the exact product, rounded. -/
def fmul (rnd : ℚ → ℚ) (a b : ℚ) : ℚ := rnd (a * b)

/-- Float division `a / b`: the exact quotient, rounded. -/
def fdiv (rnd : ℚ → ℚ) (a b : ℚ) : ℚ := rnd (a / b)

/-- Real arithmetic: nothing is rounded. -/
def exact : ℚ → ℚ := fun q => q

/-- Bit length of `n` (`0` for `0`), by halving; `fuel` bounds the number of halvings. -/
def bitLen : Nat → Nat → Nat
  | 0, _ => 0
  | fuel + 1, n => if n = 0 then 0 else bitLen fuel (n / 2) + 1

/-- Integer part of the binary logarithm of `n / d`, for positive `n` and `d`. -/
def floorLog2 (n d : Nat) : Int :=
  let e : Int := (bitLen n n : Int) - (bitLen d d : Int)
  if (if 0 ≤ e then n < d * 2 ^ e.toNat else n * 2 ^ (-e).toNat < d) then e - 1 else e

/-- Nearest natural number to `n / d`, a tie going to the even neighbour. -/
def roundNE (n d : Nat) : Nat :=
  if 2 * (n % d) > d ∨ (2 * (n % d) = d ∧ (n / d) % 2 = 1) then n / d + 1 else n / d

/-- IEEE-754 binary32 rounding of a rational, round to nearest with ties to even:
24 significant bits, least exponent `-126` (below it the spacing stays `2^-149`).
Overflow to infinity is not modelled: the exponent is unbounded above. -/
def f32 (q : ℚ) : ℚ :=
  if q = 0 then 0 else
    let n := q.num.natAbs
    let d := q.den
    let u : Int := max (floorLog2 n d) (-126) - 23
    let r : ℚ :=
      if 0 ≤ u then (roundNE n (d * 2 ^ u.toNat) : ℚ) * 2 ^ u.toNat
      else (roundNE (n * 2 ^ (-u).toNat) d : ℚ) / 2 ^ (-u).toNat
    if q < 0 then -r else r

/-- Conversion of a float to `int` as C does it: the fraction is dropped (towards zero). -/
def toInt (q : ℚ) : Int :=
  if 0 ≤ q then q.num / (q.den : Int) else -((-q.num) / (q.den : Int))

/-! ## Data model -/

/-- Raylib `Vector3`. -/
structure Vector3 where
  x : ℚ
  y : ℚ
  z : ℚ
  deriving DecidableEq, Repr

/-- The `Platform` struct of `main`. -/
structure Platform where
  platformWidth : ℚ
  platformHeight : ℚ
  platformLength : ℚ
  platformCenter : Vector3
  deriving DecidableEq, Repr

namespace Platform

/-- Source: `Left() = platformCenter.x - platformWidth/2`. -/
def Left (rnd : ℚ → ℚ) (p : Platform) : ℚ :=
  fsub rnd p.platformCenter.x (fdiv rnd p.platformWidth 2)

/-- Source: `Right() = platformCenter.x + platformWidth/2`. -/
def Right (rnd : ℚ → ℚ) (p : Platform) : ℚ :=
  fadd rnd p.platformCenter.x (fdiv rnd p.platformWidth 2)

/-- Source: `Back() = platformCenter.z - platformLength/2`. -/
def Back (rnd : ℚ → ℚ) (p : Platform) : ℚ :=
  fsub rnd p.platformCenter.z (fdiv rnd p.platformLength 2)

/-- Source: `Front() = platformCenter.z + platformLength/2`. -/
def Front (rnd : ℚ → ℚ) (p : Platform) : ℚ :=
  fadd rnd p.platformCenter.z (fdiv rnd p.platformLength 2)

/-- Source: `Top() = platformCenter.y + platformHeight/2`. -/
def Top (rnd : ℚ → ℚ) (p : Platform) : ℚ :=
  fadd rnd p.platformCenter.y (fdiv rnd p.platformHeight 2)

/-- Source: `ContainsXZ(spherePos, sphereRadius)`; the radius argument is not used by the body. -/
def ContainsXZ (rnd : ℚ → ℚ) (p : Platform) (spherePos : Vector3) (_sphereRadius : ℚ) : Bool :=
  decide (spherePos.x ≥ p.Left rnd) &&
  decide (spherePos.x ≤ p.Right rnd) &&
  decide (spherePos.z ≥ p.Back rnd) &&
  decide (spherePos.z ≤ p.Front rnd)

end Platform

/-- Source: `planeCenter = {0,0,0}`. -/
def planeCenter : Vector3 := ⟨0, 0, 0⟩

/-- Source: `speed = 7.0f`. -/
def speed : ℚ := 7

/-- Source: `sphereRadius = 1.0f`. -/
def sphereRadius : ℚ := 1

/-- Source: `gravity = 13.0f`. -/
def gravity : ℚ := 13

/-- Source: `jumpForce = 10.5f`. -/
def jumpForce : ℚ := 21 / 2

/-- Source: `platformCount = 200`. -/
def platformCount : Nat := 200

/-- The variables of `main` that the update section of the game loop reads and writes. -/
structure Game where
  spherePos : Vector3
  VelocityY : ℚ
  onGround : Bool
  rotationX : ℚ
  rotationZ : ℚ
  isDead : Bool
  deathTimer : ℚ
  currentScore : ℚ
  lastScore : ℚ
  deriving DecidableEq, Repr

/-- The keys read in one frame: `IsKeyPressed(KEY_SPACE)` and `IsKeyDown` of the four arrows. -/
structure Intents where
  keySpace : Bool
  keyUp : Bool
  keyDown : Bool
  keyLeft : Bool
  keyRight : Bool
  deriving DecidableEq, Repr

/-- No key is down. -/
def noKeys : Intents := ⟨false, false, false, false, false⟩

/-! ## Level generation (lines 67-93) -/

/-- Source: `platforms[0] = {2.5f, 1.0f, 2.5f, planeCenter}`. -/
def platform0 : Platform := ⟨5 / 2, 1, 5 / 2, planeCenter⟩

/-- Source: `difficulty = i / 40.f`. -/
def difficulty (rnd : ℚ → ℚ) (i : Nat) : ℚ := fdiv rnd (i : ℚ) 40

/-- Source: `minGap = 6.0f + difficulty * 2.0f`. -/
def minGap (rnd : ℚ → ℚ) (i : Nat) : ℚ := fadd rnd 6 (fmul rnd (difficulty rnd i) 2)

/-- Source: `maxGap = 12.0f + difficulty * 3.0f`. -/
def maxGap (rnd : ℚ → ℚ) (i : Nat) : ℚ := fadd rnd 12 (fmul rnd (difficulty rnd i) 3)

/-- First argument of `GetRandomValue(minGap * 100, maxGap * 100)` after its conversion to `int`. -/
def gapLo (rnd : ℚ → ℚ) (i : Nat) : Int := toInt (fmul rnd (minGap rnd i) 100)

/-- Second argument of `GetRandomValue(minGap * 100, maxGap * 100)` after its conversion to `int`. -/
def gapHi (rnd : ℚ → ℚ) (i : Nat) : Int := toInt (fmul rnd (maxGap rnd i) 100)

/-- First argument of `GetRandomValue(minX * 100, maxX * 100)` with `minX = -4.0f`, as an `int`. -/
def offLo (rnd : ℚ → ℚ) : Int := toInt (fmul rnd (-4) 100)

/-- Second argument of `GetRandomValue(minX * 100, maxX * 100)` with `maxX = 4.0f`, as an `int`. -/
def offHi (rnd : ℚ → ℚ) : Int := toInt (fmul rnd 4 100)

/-- Body of the generation loop for index `i`: `prev` is `platforms[i-1]`, `g` and `o` are the
values returned by the two `GetRandomValue` calls of this iteration. -/
def genPlatform (rnd : ℚ → ℚ) (prev : Platform) (g o : Int) : Platform :=
  let gap := fdiv rnd (g : ℚ) 100
  let offsetX := fdiv rnd (o : ℚ) 100
  { platformWidth := 3
    platformHeight := 1
    platformLength := 3
    platformCenter := ⟨offsetX, 1, fadd rnd prev.platformCenter.z gap⟩ }

/-- The iterations `i, i+1, ..., i+n-1` of the generation loop, `prev` being `platforms[i-1]`. -/
def genFrom (rnd : ℚ → ℚ) (gapDraw offDraw : Nat → Int) : Nat → Nat → Platform → List Platform
  | 0, _, _ => []
  | n + 1, i, prev =>
    let p := genPlatform rnd prev (gapDraw i) (offDraw i)
    p :: genFrom rnd gapDraw offDraw n (i + 1) p

/-- The array `platforms` after the generation loop: `platforms[0]` is the spawn platform and
`gapDraw i`, `offDraw i` are the two random values drawn in iteration `i`. -/
def generate (rnd : ℚ → ℚ) (gapDraw offDraw : Nat → Int) : List Platform :=
  platform0 :: genFrom rnd gapDraw offDraw (platformCount - 1) 1 platform0

/-- The draws are values `GetRandomValue` can return: each lies between the two `int` arguments
of its call. -/
def ValidDraws (rnd : ℚ → ℚ) (gapDraw offDraw : Nat → Int) : Prop :=
  ∀ i, i < platformCount → 1 ≤ i →
    (gapLo rnd i ≤ gapDraw i ∧ gapDraw i ≤ gapHi rnd i) ∧
    (offLo rnd ≤ offDraw i ∧ offDraw i ≤ offHi rnd)

instance (rnd : ℚ → ℚ) (gapDraw offDraw : Nat → Int) :
    Decidable (ValidDraws rnd gapDraw offDraw) := by
  unfold ValidDraws; infer_instance

/-- Entry `platforms[i]` of the array. -/
def platformAt (platforms : List Platform) (i : Nat) : Platform := platforms.getD i platform0

/-- Forward coordinate `platforms[i].platformCenter.z`. -/
def centerZ (platforms : List Platform) (i : Nat) : ℚ := (platformAt platforms i).platformCenter.z

/-- Entry `platforms[0]` of the array; the array of the program has `platformCount` entries, so
the fallback for an empty list is never taken on a generated level. -/
def spawnPlatform (platforms : List Platform) : Platform := platforms.headD platform0

/-! ## One frame of the game loop (lines 117-211) -/

/-- Source, line 125: `currentScore = spherePos.z`. -/
def scoreStep (s : Game) : Game := { s with currentScore := s.spherePos.z }

/-- Source, lines 128-132: the jump. -/
def jumpStep (inp : Intents) (s : Game) : Game :=
  if inp.keySpace && s.onGround then { s with VelocityY := jumpForce, onGround := false } else s

/-- Source, lines 134-139: `KEY_UP`. -/
def keyUpStep (rnd : ℚ → ℚ) (inp : Intents) (dt : ℚ) (s : Game) : Game :=
  if inp.keyUp then
    let moveZ := fmul rnd speed dt
    { s with spherePos := { s.spherePos with z := fadd rnd s.spherePos.z moveZ }
             rotationX := fadd rnd s.rotationX (fdiv rnd moveZ sphereRadius) }
  else s

/-- Source, lines 141-146: `KEY_DOWN`. -/
def keyDownStep (rnd : ℚ → ℚ) (inp : Intents) (dt : ℚ) (s : Game) : Game :=
  if inp.keyDown then
    let moveZ := fmul rnd speed dt
    { s with spherePos := { s.spherePos with z := fsub rnd s.spherePos.z moveZ }
             rotationX := fsub rnd s.rotationX (fdiv rnd moveZ sphereRadius) }
  else s

/-- Source, lines 148-153: `KEY_LEFT`. -/
def keyLeftStep (rnd : ℚ → ℚ) (inp : Intents) (dt : ℚ) (s : Game) : Game :=
  if inp.keyLeft then
    let moveX := fmul rnd speed dt
    { s with spherePos := { s.spherePos with x := fadd rnd s.spherePos.x moveX }
             rotationZ := fadd rnd s.rotationZ (fdiv rnd moveX sphereRadius) }
  else s

/-- Source, lines 155-160: `KEY_RIGHT`. -/
def keyRightStep (rnd : ℚ → ℚ) (inp : Intents) (dt : ℚ) (s : Game) : Game :=
  if inp.keyRight then
    let moveX := fmul rnd speed dt
    { s with spherePos := { s.spherePos with x := fsub rnd s.spherePos.x moveX }
             rotationZ := fsub rnd s.rotationZ (fdiv rnd moveX sphereRadius) }
  else s

/-- Source, lines 163-164: `VelocityY -= gravity * dt; spherePos.y += VelocityY * dt`. -/
def gravityStep (rnd : ℚ → ℚ) (dt : ℚ) (s : Game) : Game :=
  let v := fsub rnd s.VelocityY (fmul rnd gravity dt)
  { s with VelocityY := v
           spherePos := { s.spherePos with y := fadd rnd s.spherePos.y (fmul rnd v dt) } }

/-- Lines 125-164 in order: score, jump, the four arrow keys, gravity.  The result holds the
velocity and position on which the collision loop works. -/
def integrate (rnd : ℚ → ℚ) (inp : Intents) (dt : ℚ) (s : Game) : Game :=
  gravityStep rnd dt
    (keyRightStep rnd inp dt
      (keyLeftStep rnd inp dt
        (keyDownStep rnd inp dt
          (keyUpStep rnd inp dt
            (jumpStep inp (scoreStep s))))))

/-- Condition of the `if` in the collision loop (lines 171-179) for platform `p`. -/
def landingTest (rnd : ℚ → ℚ) (s : Game) (p : Platform) : Bool :=
  let top := p.Top rnd
  let bottom := fsub rnd s.spherePos.y sphereRadius
  decide (s.VelocityY ≤ 0) &&
  p.ContainsXZ rnd s.spherePos sphereRadius &&
  decide (bottom ≤ top) &&
  decide (bottom ≥ fsub rnd top (rnd (2 / 5)))

/-- The `for` loop of lines 169-186 over the platforms not yet visited: the first platform that
passes the test snaps the sphere and ends the loop (`break`). -/
def collisionLoop (rnd : ℚ → ℚ) : List Platform → Game → Game
  | [], s => s
  | p :: rest, s =>
    if landingTest rnd s p then
      { s with spherePos := { s.spherePos with y := fadd rnd (p.Top rnd) sphereRadius }
               VelocityY := 0
               onGround := true }
    else collisionLoop rnd rest s

/-- Body of `if (!isDead)` (lines 125-186): integration, `onGround = false`, collision loop. -/
def aliveUpdate (rnd : ℚ → ℚ) (platforms : List Platform) (inp : Intents) (dt : ℚ)
    (s : Game) : Game :=
  collisionLoop rnd platforms { integrate rnd inp dt s with onGround := false }

/-- Lines 123-187: the alive block runs only when `isDead` is false. -/
def aliveBlock (rnd : ℚ → ℚ) (platforms : List Platform) (inp : Intents) (dt : ℚ)
    (s : Game) : Game :=
  if !s.isDead then aliveUpdate rnd platforms inp dt s else s

/-- Condition of the death `if` (line 190): `spherePos.y <= -5 && !isDead`. -/
def deathFires (s : Game) : Bool := decide (s.spherePos.y ≤ -5) && !s.isDead

/-- Source, lines 190-195: the death block. -/
def deathStep (s : Game) : Game :=
  if deathFires s then { s with isDead := true, deathTimer := 0, lastScore := s.currentScore }
  else s

/-- Condition of the respawn `if` (lines 197-201) seen from the state before the timer is
advanced: `isDead` holds and the advanced timer exceeds `1.0f`. -/
def respawnFires (rnd : ℚ → ℚ) (dt : ℚ) (s : Game) : Bool :=
  s.isDead && decide (fadd rnd s.deathTimer dt > 1)

/-- Source, lines 197-211: the timer and the respawn. -/
def respawnStep (rnd : ℚ → ℚ) (platforms : List Platform) (dt : ℚ) (s : Game) : Game :=
  if s.isDead then
    let s1 := { s with deathTimer := fadd rnd s.deathTimer dt }
    if s1.deathTimer > 1 then
      { s1 with
        spherePos :=
          ⟨(spawnPlatform platforms).platformCenter.x,
           fadd rnd ((spawnPlatform platforms).Top rnd) sphereRadius,
           (spawnPlatform platforms).platformCenter.z⟩
        VelocityY := 0
        onGround := true
        isDead := false
        currentScore := 0 }
    else s1
  else s

/-- One pass through the update section of the game loop (lines 117-211) with frame time `dt`. -/
def tick (rnd : ℚ → ℚ) (platforms : List Platform) (inp : Intents) (dt : ℚ) (s : Game) : Game :=
  respawnStep rnd platforms dt (deathStep (aliveBlock rnd platforms inp dt s))

/-- The frames of a run in order, each with its keys and its frame time. -/
def run (rnd : ℚ → ℚ) (platforms : List Platform) : List (Intents × ℚ) → Game → Game
  | [], s => s
  | (inp, dt) :: rest, s => run rnd platforms rest (tick rnd platforms inp dt s)

/-- The variables as `main` initialises them before the loop (lines 22-30 and 96-110). -/
def initial (rnd : ℚ → ℚ) (platforms : List Platform) : Game :=
  { spherePos := ⟨0, fadd rnd ((spawnPlatform platforms).Top rnd) sphereRadius, 0⟩
    VelocityY := 0
    onGround := true
    rotationX := 0
    rotationZ := 0
    isDead := false
    deathTimer := 0
    currentScore := 0
    lastScore := 0 }

/-! ## The landing test in the words of the specification -/

/-- Landing test of the specification for vertical velocity `v`, sphere position `pos` and
platform `p`: the sphere is not rising, its x and z lie within the platform bounds (inclusive)
and its bottom `pos.y - radius` lies in the band `[Top - 0.4, Top]`. -/
def SpecLanding (rnd : ℚ → ℚ) (v : ℚ) (pos : Vector3) (p : Platform) : Prop :=
  v ≤ 0 ∧
  (p.Left rnd ≤ pos.x ∧ pos.x ≤ p.Right rnd) ∧
  (p.Back rnd ≤ pos.z ∧ pos.z ≤ p.Front rnd) ∧
  (fsub rnd (p.Top rnd) (rnd (2 / 5)) ≤ fsub rnd pos.y sphereRadius ∧
    fsub rnd pos.y sphereRadius ≤ p.Top rnd)

instance (rnd : ℚ → ℚ) (v : ℚ) (pos : Vector3) (p : Platform) :
    Decidable (SpecLanding rnd v pos p) := by
  unfold SpecLanding; infer_instance

/-! ## The respawn delay as an accumulated timer -/

/-- Value of `deathTimer` after the given frames of a dead run whose timer starts at `t`: every
frame adds its frame time (line 199). -/
def timerAfter (rnd : ℚ → ℚ) (t : ℚ) : List (Intents × ℚ) → ℚ
  | [] => t
  | (_, dt) :: rest => timerAfter rnd (fadd rnd t dt) rest

/-- The timer, started at `t`, is at most `1.0` at the end of each of the given frames. -/
def withinDelay (rnd : ℚ → ℚ) (t : ℚ) : List (Intents × ℚ) → Prop
  | [] => True
  | (_, dt) :: rest => fadd rnd t dt ≤ 1 ∧ withinDelay rnd (fadd rnd t dt) rest

/-! ## Concrete levels and states used in the evaluations -/

/-- Gap draws at the exact lower bound `100 * (6 + i/20)` of every iteration. -/
def sampleGap (i : Nat) : Int := 600 + 5 * (i : Int)

/-- Lateral draws, all zero. -/
def sampleOff (_i : Nat) : Int := 0

/-- The level generated in binary32 from `sampleGap` and `sampleOff`. -/
def sampleLevel : List Platform := generate f32 sampleGap sampleOff

/-- The state at spawn on `sampleLevel`. -/
def spawnState : Game := initial f32 sampleLevel

/-- The sphere at spawn height but beside the spawn platform (`x = 5`), at rest and alive. -/
def besideSpawn : Game :=
  { spawnState with spherePos := { spawnState.spherePos with x := 5 } }

/-- Gap draws at `100 * (6 + i/20)`, except the draw `814` in iteration 43. -/
def tightGap (i : Nat) : Int := if i = 43 then 814 else 600 + 5 * (i : Int)

/-- The level generated in binary32 from `tightGap` and `sampleOff`. -/
def tightLevel : List Platform := generate f32 tightGap sampleOff

/-- Five frames of `fl(1/7)` s each with the forward key down: each moves the sphere forward
by `fl(7 * fl(1/7)) = 1`. -/
def fiveForward : List (Intents × ℚ) := List.replicate 5 ({ noKeys with keyUp := true }, f32 (1 / 7))

/-- Only the jump key is pressed. -/
def jumpKey : Intents := { noKeys with keySpace := true }

/-- Only the forward key is down. -/
def upKey : Intents := { noKeys with keyUp := true }

/-- A dead run shortly before the end of the respawn delay: the sphere has fallen to `y = -6`
at `z = 3` and the timer stands at `31/32` s. -/
def fallenState : Game :=
  { spherePos := ⟨5, -6, 3⟩
    VelocityY := -12
    onGround := false
    rotationX := 3
    rotationZ := -5
    isDead := true
    deathTimer := 31 / 32
    currentScore := 3
    lastScore := 3 }

/-! ## Flights, traces and rounding properties -/

/-- None of the given frames lands or kills: in each of them the alive block leaves `onGround`
false (no platform passed the landing test) and the death block does not fire. -/
def airborne (rnd : ℚ → ℚ) (platforms : List Platform) : List (Intents × ℚ) → Game → Bool
  | [], _ => true
  | (inp, dt) :: rest, s =>
    !(aliveUpdate rnd platforms inp dt s).onGround &&
    !deathFires (aliveUpdate rnd platforms inp dt s) &&
    airborne rnd platforms rest (tick rnd platforms inp dt s)

/-- The states at the end of each of the given frames, in order. -/
def trace (rnd : ℚ → ℚ) (platforms : List Platform) : List (Intents × ℚ) → Game → List Game
  | [], _ => []
  | (inp, dt) :: rest, s =>
    tick rnd platforms inp dt s :: trace rnd platforms rest (tick rnd platforms inp dt s)

/-- Frames of the same length `dt`, one for each entry of the list of keys. -/
def framesOf (dt : ℚ) (keys : List Intents) : List (Intents × ℚ) := keys.map (fun i => (i, dt))

/-- Properties of IEEE rounding to nearest that the numeric statements use: the rounding is
monotone, and every multiple of `1/4` with fewer than 24 significant bits is a float. -/
structure IsRounding (rnd : ℚ → ℚ) : Prop where
  mono : Monotone rnd
  quarters : ∀ k : ℤ, |k| < 2 ^ 24 → rnd ((k : ℚ) / 4) = (k : ℚ) / 4

/-- A jump from spawn followed by seven frames without keys, each of `1/4` s. -/
def quarterJump : List (Intents × ℚ) :=
  ({ noKeys with keySpace := true }, 1 / 4) :: List.replicate 7 (noKeys, 1 / 4)

/-- The level generated in real arithmetic from `sampleGap` and `sampleOff`. -/
def idealLevel : List Platform := generate exact sampleGap sampleOff

/-- Both the forward and the back key are down. -/
def upDownKeys : Intents := { noKeys with keyUp := true, keyDown := true }

/-- One forward frame of `fl(1/70)` s from spawn: it moves the sphere to `z = fl(0.1)`. -/
def tenthForward : List (Intents × ℚ) := [({ noKeys with keyUp := true }, f32 (1 / 70))]

/-- Lateral draws at the two ends of their range: `400` at even and `-400` at odd indices. -/
def zigzagOff (i : Nat) : Int := if i % 2 = 0 then 400 else -400

/-- The level generated in binary32 from `sampleGap` and `zigzagOff`. -/
def zigzagLevel : List Platform := generate f32 sampleGap zigzagOff

/-! ## Rounding to nearest, ties to even -/

/-- The integer `r` is nearest to `x`, and it is the even one of the two when `x` lies halfway
between two integers. -/
def NearestEven (x : ℚ) (r : ℤ) : Prop :=
  x - 1 / 2 ≤ r ∧ (r : ℚ) ≤ x + 1 / 2 ∧ ((r : ℚ) - x = 1 / 2 ∨ x - r = 1 / 2 → Even r)

/-- Exponent of the unit in the last place that `f32` uses for `q`. -/
def ulpExp (q : ℚ) : ℤ := max (floorLog2 q.num.natAbs q.den) (-126) - 23

/-! ## Definitions for the statements on resting and on the jump -/

/-- Bottom of the sphere, `spherePos.y - sphereRadius`, after the gravity lines (163-164) of a
frame of length `dt` that began at height `y` with `VelocityY = 0`. -/
def restBottom (rnd : ℚ → ℚ) (y dt : ℚ) : ℚ :=
  fsub rnd (fadd rnd y (fmul rnd (fsub rnd 0 (fmul rnd gravity dt)) dt)) sphereRadius

/-- The largest binary32 frame time `dt` with `13 dt^2 <= 0.4`. -/
def restLast : ℚ := 11771673 / 67108864

/-- The binary32 number that follows `restLast`. -/
def restNext : ℚ := 11771674 / 67108864

/-- The rounding moves no number of magnitude below `64` by more than `2^-19`, which is half a
unit in the last place of the binary32 numbers between `32` and `64`. -/
def RoundsWithin (rnd : ℚ → ℚ) : Prop :=
  ∀ x : ℚ, |x| < 64 → |rnd x - x| ≤ 1 / 524288

/-- Only the right key is down. -/
def rightKey : Intents := { noKeys with keyRight := true }

/-- Keys of the two frames after a jump: one with the right key down, one without keys. -/
def steerKeys : List Intents := [rightKey, noKeys]

/-! ## Lemmas on the collision loop -/

theorem landingTest_iff (rnd : ℚ → ℚ) (s : Game) (p : Platform) :
    landingTest rnd s p = true ↔ SpecLanding rnd s.VelocityY s.spherePos p := by
  simp only [landingTest, Platform.ContainsXZ, SpecLanding, Bool.and_eq_true, decide_eq_true_eq,
    ge_iff_le]
  tauto

theorem landingTest_clearGround (rnd : ℚ → ℚ) (s : Game) (b : Bool) (p : Platform) :
    landingTest rnd { s with onGround := b } p = landingTest rnd s p := rfl

theorem collisionLoop_none (rnd : ℚ → ℚ) (platforms : List Platform) (s : Game)
    (h : ∀ p ∈ platforms, landingTest rnd s p = false) :
    collisionLoop rnd platforms s = s := by
  induction platforms with
  | nil => rfl
  | cons p rest ih =>
    have hp : landingTest rnd s p = false := h p (List.mem_cons_self p rest)
    simp only [collisionLoop, hp]
    exact ih (fun q hq => h q (List.mem_cons_of_mem p hq))

theorem collisionLoop_first (rnd : ℚ → ℚ) (platforms : List Platform) (s : Game)
    (k : Nat) (hk : k < platforms.length)
    (hit : landingTest rnd s platforms[k] = true)
    (hmiss : ∀ j (hj : j < k), landingTest rnd s (platforms[j]) = false) :
    collisionLoop rnd platforms s =
      { s with spherePos := { s.spherePos with y := fadd rnd (platforms[k].Top rnd) sphereRadius }
               VelocityY := 0
               onGround := true } := by
  induction platforms generalizing k with
  | nil => exact absurd hk (by simp)
  | cons p rest ih =>
    cases k with
    | zero =>
      have hp : landingTest rnd s p = true := hit
      simp [collisionLoop, hp]
    | succ k =>
      have hp : landingTest rnd s p = false := hmiss 0 (Nat.succ_pos k)
      have hk2 : k < rest.length := by simpa using hk
      have hrec := ih k hk2 (by simpa using hit)
        (fun j hj => by simpa using hmiss (j + 1) (Nat.succ_lt_succ hj))
      simp only [collisionLoop, hp]
      simpa using hrec

/-- The collision loop leaves `onGround` true only together with a zero vertical velocity, when
it starts with `onGround` false. -/
theorem collisionLoop_ground (rnd : ℚ → ℚ) (platforms : List Platform) (s : Game)
    (h0 : s.onGround = false) :
    ((collisionLoop rnd platforms s).onGround = true →
        (collisionLoop rnd platforms s).VelocityY = 0) ∧
    (s.VelocityY > 0 → collisionLoop rnd platforms s = s) := by
  induction platforms with
  | nil => exact ⟨fun h => by simp [collisionLoop, h0] at h, fun _ => rfl⟩
  | cons p rest ih =>
    by_cases hp : landingTest rnd s p = true
    · constructor
      · intro _; simp [collisionLoop, hp]
      · intro hv
        have : s.VelocityY ≤ 0 := ((landingTest_iff rnd s p).1 hp).1
        exact absurd hv (not_lt.2 this)
    · have hp2 : landingTest rnd s p = false := by simpa using hp
      simp only [collisionLoop, hp2]
      exact ih

theorem tick_alive (rnd : ℚ → ℚ) (platforms : List Platform) (inp : Intents) (dt : ℚ)
    (s : Game) (hs : s.isDead = false) :
    tick rnd platforms inp dt s =
      respawnStep rnd platforms dt (deathStep (aliveUpdate rnd platforms inp dt s)) := by
  simp [tick, aliveBlock, hs]

theorem tick_dead (rnd : ℚ → ℚ) (platforms : List Platform) (inp : Intents) (dt : ℚ)
    (s : Game) (hs : s.isDead = true) :
    tick rnd platforms inp dt s = respawnStep rnd platforms dt s := by
  simp [tick, aliveBlock, hs, deathStep, deathFires]

/-- Without a respawn the last two blocks of the frame leave position, velocity and `onGround`
as the alive block produced them. -/
theorem no_respawn_keeps (rnd : ℚ → ℚ) (platforms : List Platform) (dt : ℚ) (a : Game)
    (h : respawnFires rnd dt (deathStep a) = false) :
    (respawnStep rnd platforms dt (deathStep a)).spherePos = a.spherePos ∧
    (respawnStep rnd platforms dt (deathStep a)).VelocityY = a.VelocityY ∧
    (respawnStep rnd platforms dt (deathStep a)).onGround = a.onGround := by
  by_cases hf : deathFires a = true
  · have hd : deathStep a =
        { a with isDead := true, deathTimer := 0, lastScore := a.currentScore } := by
      simp [deathStep, hf]
    rw [hd] at h ⊢
    have ht : ¬ (1 < fadd rnd 0 dt) := by simpa [respawnFires] using h
    simp [respawnStep, ht]
  · have hd : deathStep a = a := by simp [deathStep, hf]
    rw [hd] at h ⊢
    by_cases hdead : a.isDead = true
    · have ht : ¬ (1 < fadd rnd a.deathTimer dt) := by simpa [respawnFires, hdead] using h
      simp [respawnStep, hdead, ht]
    · simp [respawnStep, hdead]

theorem collisionLoop_cases (rnd : ℚ → ℚ) (platforms : List Platform) (s : Game) :
    collisionLoop rnd platforms s = s ∨
    ∃ p ∈ platforms, collisionLoop rnd platforms s =
      { s with spherePos := { s.spherePos with y := fadd rnd (p.Top rnd) sphereRadius }
               VelocityY := 0
               onGround := true } := by
  induction platforms with
  | nil => exact Or.inl rfl
  | cons p rest ih =>
    by_cases hp : landingTest rnd s p = true
    · exact Or.inr ⟨p, List.mem_cons_self p rest, by simp [collisionLoop, hp]⟩
    · have hp2 : landingTest rnd s p = false := by simpa using hp
      simp only [collisionLoop, hp2]
      rcases ih with h | ⟨q, hq, h⟩
      · exact Or.inl h
      · exact Or.inr ⟨q, List.mem_cons_of_mem p hq, by simpa using h⟩

theorem integrate_isDead (rnd : ℚ → ℚ) (inp : Intents) (dt : ℚ) (s : Game) :
    (integrate rnd inp dt s).isDead = s.isDead := by
  simp only [integrate, gravityStep, keyRightStep, keyLeftStep, keyDownStep, keyUpStep, jumpStep,
    scoreStep]
  split_ifs <;> rfl

theorem aliveUpdate_isDead (rnd : ℚ → ℚ) (platforms : List Platform) (inp : Intents) (dt : ℚ)
    (s : Game) : (aliveUpdate rnd platforms inp dt s).isDead = s.isDead := by
  unfold aliveUpdate
  rcases collisionLoop_cases rnd platforms { integrate rnd inp dt s with onGround := false } with
    h | ⟨p, _, h⟩
  · rw [h]; exact integrate_isDead rnd inp dt s
  · rw [h]; exact integrate_isDead rnd inp dt s

/-- In a frame that begins alive the respawn block runs exactly when the death block fired on
the result of the alive block and the timer, restarted from zero, already exceeds one. -/
theorem alive_respawn_iff (rnd : ℚ → ℚ) (platforms : List Platform) (inp : Intents) (dt : ℚ)
    (s : Game) (hs : s.isDead = false) :
    respawnFires rnd dt (deathStep (aliveUpdate rnd platforms inp dt s)) = true ↔
      ((aliveUpdate rnd platforms inp dt s).spherePos.y ≤ -5 ∧ fadd rnd 0 dt > 1) := by
  have ha : (aliveUpdate rnd platforms inp dt s).isDead = false := by
    rw [aliveUpdate_isDead]; exact hs
  by_cases hy : (aliveUpdate rnd platforms inp dt s).spherePos.y ≤ -5
  · simp [respawnFires, deathStep, deathFires, ha, hy]
  · simp [respawnFires, deathStep, deathFires, ha, hy]

/-- State after the alive block when platform `k` is the first to pass the landing test. -/
theorem aliveUpdate_landing (rnd : ℚ → ℚ) (platforms : List Platform) (inp : Intents) (dt : ℚ)
    (s : Game) (k : Nat) (hk : k < platforms.length)
    (hit : SpecLanding rnd (integrate rnd inp dt s).VelocityY (integrate rnd inp dt s).spherePos
      platforms[k])
    (hmiss : ∀ (j : Nat) (hj : j < k), ¬ SpecLanding rnd (integrate rnd inp dt s).VelocityY
      (integrate rnd inp dt s).spherePos platforms[j]) :
    (aliveUpdate rnd platforms inp dt s).spherePos.y = fadd rnd (platforms[k].Top rnd) sphereRadius ∧
    (aliveUpdate rnd platforms inp dt s).VelocityY = 0 ∧
    (aliveUpdate rnd platforms inp dt s).onGround = true := by
  have h := collisionLoop_first rnd platforms { integrate rnd inp dt s with onGround := false }
    k hk ((landingTest_iff rnd _ _).2 hit)
    (fun j hj => by
      have hj2 := hmiss j hj
      rw [← landingTest_iff rnd { integrate rnd inp dt s with onGround := false }] at hj2
      simpa using hj2)
  have e : aliveUpdate rnd platforms inp dt s =
      collisionLoop rnd platforms { integrate rnd inp dt s with onGround := false } := rfl
  rw [e, h]
  exact ⟨rfl, rfl, rfl⟩

/-- State after the alive block when no platform passes the landing test. -/
theorem aliveUpdate_no_landing (rnd : ℚ → ℚ) (platforms : List Platform) (inp : Intents) (dt : ℚ)
    (s : Game)
    (hnone : ∀ p ∈ platforms, ¬ SpecLanding rnd (integrate rnd inp dt s).VelocityY
      (integrate rnd inp dt s).spherePos p) :
    aliveUpdate rnd platforms inp dt s = { integrate rnd inp dt s with onGround := false } := by
  have e : aliveUpdate rnd platforms inp dt s =
      collisionLoop rnd platforms { integrate rnd inp dt s with onGround := false } := rfl
  rw [e]
  apply collisionLoop_none
  intro p hp
  have hp2 := hnone p hp
  rw [← landingTest_iff rnd { integrate rnd inp dt s with onGround := false }] at hp2
  simpa using hp2

/-! ## Lemmas on the generator -/

theorem genFrom_getD (rnd : ℚ → ℚ) (gapDraw offDraw : Nat → Int) :
    ∀ (n i : Nat) (prev : Platform) (k : Nat), k < n →
      (genFrom rnd gapDraw offDraw n i prev).getD k platform0 =
        genPlatform rnd
          (if k = 0 then prev else (genFrom rnd gapDraw offDraw n i prev).getD (k - 1) platform0)
          (gapDraw (i + k)) (offDraw (i + k)) := by
  intro n
  induction n with
  | zero => intro i prev k hk; exact absurd hk (Nat.not_lt_zero k)
  | succ n ih =>
    intro i prev k hk
    cases k with
    | zero => simp [genFrom]
    | succ k =>
      have hk2 : k < n := Nat.lt_of_succ_lt_succ hk
      have h := ih (i + 1) (genPlatform rnd prev (gapDraw i) (offDraw i)) k hk2
      have e : i + 1 + k = i + (k + 1) := by omega
      rw [e] at h
      cases k with
      | zero => simpa [genFrom] using h
      | succ k => simpa [genFrom] using h

/-- Every generated platform after the first is the loop body applied to its predecessor. -/
theorem generate_step (rnd : ℚ → ℚ) (gapDraw offDraw : Nat → Int) (i : Nat) (h1 : 1 ≤ i)
    (h2 : i < platformCount) :
    platformAt (generate rnd gapDraw offDraw) i =
      genPlatform rnd (platformAt (generate rnd gapDraw offDraw) (i - 1)) (gapDraw i)
        (offDraw i) := by
  obtain ⟨k, rfl⟩ : ∃ k, i = k + 1 := ⟨i - 1, by omega⟩
  have hk : k < platformCount - 1 := by simp only [platformCount] at h2 ⊢; omega
  have h := genFrom_getD rnd gapDraw offDraw (platformCount - 1) 1 platform0 k hk
  have e : 1 + k = k + 1 := by omega
  rw [e] at h
  cases k with
  | zero => simpa [platformAt, generate] using h
  | succ k => simpa [platformAt, generate] using h

theorem toInt_intCast (n : Int) : toInt (n : ℚ) = n := by
  unfold toInt
  by_cases h : (0 : ℚ) ≤ (n : ℚ)
  · simp [h]
  · simp [h]

theorem toInt_le (q : ℚ) (h : 0 ≤ q) : ((toInt q : Int) : ℚ) ≤ q := by
  unfold toInt
  rw [if_pos h, ← Rat.floor_def]
  exact Int.floor_le q

/-- In real arithmetic the first bound handed to `GetRandomValue` is `600 + 5 i`. -/
theorem gapLo_exact (i : Nat) : gapLo exact i = 600 + 5 * (i : Int) := by
  have h : fmul exact (minGap exact i) 100 = ((600 + 5 * (i : Int) : Int) : ℚ) := by
    simp only [fmul, minGap, fadd, difficulty, fdiv, exact]
    push_cast
    ring
  rw [gapLo, h, toInt_intCast]

/-- In real arithmetic the spacing of consecutive platforms lies between `6 + (i/40) 2` and
`12 + (i/40) 3` for draws that `GetRandomValue` can return. -/
theorem spacing_within_bounds_exact (gapDraw offDraw : Nat → Int)
    (hv : ValidDraws exact gapDraw offDraw) (i : Nat) (h1 : 1 ≤ i) (h2 : i < platformCount) :
    6 + ((i : ℚ) / 40) * 2 ≤
        centerZ (generate exact gapDraw offDraw) i -
          centerZ (generate exact gapDraw offDraw) (i - 1) ∧
    centerZ (generate exact gapDraw offDraw) i -
          centerZ (generate exact gapDraw offDraw) (i - 1) ≤ 12 + ((i : ℚ) / 40) * 3 := by
  have hstep := generate_step exact gapDraw offDraw i h1 h2
  have hsp : centerZ (generate exact gapDraw offDraw) i -
      centerZ (generate exact gapDraw offDraw) (i - 1) = (gapDraw i : ℚ) / 100 := by
    simp only [centerZ, hstep, genPlatform, fadd, fdiv, exact]
    ring
  obtain ⟨⟨hlo, hhi⟩, _⟩ := hv i h2 h1
  rw [gapLo_exact] at hlo
  have hlo2 : ((600 + 5 * (i : Int) : Int) : ℚ) ≤ (gapDraw i : ℚ) := by exact_mod_cast hlo
  have hmax : fmul exact (maxGap exact i) 100 = 1200 + (15 / 2) * (i : ℚ) := by
    simp only [fmul, maxGap, fadd, difficulty, fdiv, exact]
    ring
  have hnn : (0 : ℚ) ≤ fmul exact (maxGap exact i) 100 := by
    rw [hmax]
    have : (0 : ℚ) ≤ (i : ℚ) := Nat.cast_nonneg i
    linarith
  have hhi2 : (gapDraw i : ℚ) ≤ fmul exact (maxGap exact i) 100 :=
    le_trans (by exact_mod_cast hhi) (toInt_le _ hnn)
  rw [hmax] at hhi2
  rw [hsp]
  push_cast at hlo2
  constructor <;> linarith

/-! ## Lemmas on the death and respawn blocks -/

theorem respawnStep_of_alive (rnd : ℚ → ℚ) (platforms : List Platform) (dt : ℚ) (d : Game)
    (hd : d.isDead = false) : respawnStep rnd platforms dt d = d := by
  simp [respawnStep, hd]

theorem respawnStep_of_wait (rnd : ℚ → ℚ) (platforms : List Platform) (dt : ℚ) (d : Game)
    (hd : d.isDead = true) (ht : fadd rnd d.deathTimer dt ≤ 1) :
    respawnStep rnd platforms dt d = { d with deathTimer := fadd rnd d.deathTimer dt } := by
  simp [respawnStep, hd, not_lt.2 ht]

theorem respawnStep_of_fire (rnd : ℚ → ℚ) (platforms : List Platform) (dt : ℚ) (d : Game)
    (hd : d.isDead = true) (ht : fadd rnd d.deathTimer dt > 1) :
    respawnStep rnd platforms dt d =
      { d with
        deathTimer := fadd rnd d.deathTimer dt
        spherePos :=
          ⟨(spawnPlatform platforms).platformCenter.x,
           fadd rnd ((spawnPlatform platforms).Top rnd) sphereRadius,
           (spawnPlatform platforms).platformCenter.z⟩
        VelocityY := 0
        onGround := true
        isDead := false
        currentScore := 0 } := by
  have ht2 : 1 < fadd rnd d.deathTimer dt := ht
  simp [respawnStep, hd, ht2]

theorem deathStep_of_fire (a : Game) (ha : a.isDead = false) (hy : a.spherePos.y ≤ -5) :
    deathStep a = { a with isDead := true, deathTimer := 0, lastScore := a.currentScore } := by
  simp [deathStep, deathFires, ha, hy]

theorem deathStep_of_high (a : Game) (hy : ¬ a.spherePos.y ≤ -5) : deathStep a = a := by
  simp [deathStep, deathFires, hy]

theorem deathStep_of_dead (a : Game) (ha : a.isDead = true) : deathStep a = a := by
  simp [deathStep, deathFires, ha]

/-- The state the alive block produces has `onGround` true only with zero velocity. -/
theorem aliveUpdate_ground (rnd : ℚ → ℚ) (platforms : List Platform) (inp : Intents) (dt : ℚ)
    (s : Game) :
    ((aliveUpdate rnd platforms inp dt s).onGround = true →
        (aliveUpdate rnd platforms inp dt s).VelocityY = 0) ∧
    ((integrate rnd inp dt s).VelocityY > 0 →
        (aliveUpdate rnd platforms inp dt s).onGround = false) := by
  have h := collisionLoop_ground rnd platforms { integrate rnd inp dt s with onGround := false } rfl
  have e : aliveUpdate rnd platforms inp dt s =
      collisionLoop rnd platforms { integrate rnd inp dt s with onGround := false } := rfl
  rw [e]
  refine ⟨h.1, fun hv => ?_⟩
  rw [h.2 hv]

/-- At the end of a frame that began alive, `onGround` is true only with zero velocity. -/
theorem tick_ground_zero_velocity (rnd : ℚ → ℚ) (platforms : List Platform) (inp : Intents)
    (dt : ℚ) (s : Game) (hs : s.isDead = false)
    (hg : (tick rnd platforms inp dt s).onGround = true) :
    (tick rnd platforms inp dt s).VelocityY = 0 := by
  rw [tick_alive rnd platforms inp dt s hs] at hg ⊢
  cases hf : respawnFires rnd dt (deathStep (aliveUpdate rnd platforms inp dt s)) with
  | false =>
    obtain ⟨_, hvel, hgr⟩ := no_respawn_keeps rnd platforms dt _ hf
    rw [hgr] at hg
    rw [hvel]
    exact (aliveUpdate_ground rnd platforms inp dt s).1 hg
  | true =>
    have hd : (deathStep (aliveUpdate rnd platforms inp dt s)).isDead = true := by
      simp only [respawnFires, Bool.and_eq_true] at hf
      exact hf.1
    have ht : fadd rnd (deathStep (aliveUpdate rnd platforms inp dt s)).deathTimer dt > 1 := by
      simp only [respawnFires, Bool.and_eq_true, decide_eq_true_eq] at hf
      exact hf.2
    rw [respawnStep_of_fire rnd platforms dt _ hd ht]

/-- Real arithmetic is a monotone rounding that keeps `0`, `1` and `13`. -/
theorem exact_rounding_monotone :
    Monotone exact ∧ exact 0 = 0 ∧ exact 1 = 1 ∧ exact 13 = 13 :=
  ⟨fun _ _ h => h, rfl, rfl, rfl⟩

/-- With a monotone rounding that keeps `0`, `1` and `13`, a frame that starts with a vertical
velocity of at most `13` and integrates to a positive velocity lasts less than the respawn
delay. -/
theorem rising_frame_is_short (rnd : ℚ → ℚ) (inp : Intents) (dt : ℚ) (s : Game)
    (hmono : Monotone rnd) (h0 : rnd 0 = 0) (h1 : rnd 1 = 1) (h13 : rnd 13 = 13)
    (hv : s.VelocityY ≤ gravity) (hpos : (integrate rnd inp dt s).VelocityY > 0) :
    fadd rnd 0 dt ≤ 1 := by
  have hint : (integrate rnd inp dt s).VelocityY =
      fsub rnd (jumpStep inp (scoreStep s)).VelocityY (fmul rnd gravity dt) := by
    simp only [integrate, gravityStep, keyRightStep, keyLeftStep, keyDownStep, keyUpStep]
    split_ifs <;> rfl
  have hj : (jumpStep inp (scoreStep s)).VelocityY ≤ 13 := by
    unfold jumpStep scoreStep
    split_ifs
    · show jumpForce ≤ 13
      norm_num [jumpForce]
    · exact hv
  rw [hint] at hpos
  have hlt : fmul rnd gravity dt < (jumpStep inp (scoreStep s)).VelocityY := by
    by_contra hcon
    have hle : (jumpStep inp (scoreStep s)).VelocityY - fmul rnd gravity dt ≤ 0 := by
      have := not_lt.1 hcon
      linarith
    have := hmono hle
    rw [h0] at this
    exact absurd hpos (not_lt.2 this)
  have hdt : dt < 1 := by
    by_contra hcon
    have hle : (13 : ℚ) ≤ gravity * dt := by
      have := not_lt.1 hcon
      simp only [gravity]
      linarith
    have := hmono hle
    rw [h13] at this
    have h2 : fmul rnd gravity dt = rnd (gravity * dt) := rfl
    linarith
  have hle : (0 : ℚ) + dt ≤ 1 := by linarith
  have := hmono hle
  rw [h1] at this
  exact this

theorem integrate_VelocityY (rnd : ℚ → ℚ) (inp : Intents) (dt : ℚ) (s : Game) :
    (integrate rnd inp dt s).VelocityY =
      fsub rnd (if inp.keySpace && s.onGround then jumpForce else s.VelocityY)
        (fmul rnd gravity dt) := by
  simp only [integrate, gravityStep, keyRightStep, keyLeftStep, keyDownStep, keyUpStep, jumpStep,
    scoreStep]
  split_ifs <;> rfl

theorem integrate_y (rnd : ℚ → ℚ) (inp : Intents) (dt : ℚ) (s : Game) :
    (integrate rnd inp dt s).spherePos.y =
      fadd rnd s.spherePos.y (fmul rnd (integrate rnd inp dt s).VelocityY dt) := by
  simp only [integrate, gravityStep, keyRightStep, keyLeftStep, keyDownStep, keyUpStep, jumpStep,
    scoreStep]
  split_ifs <;> rfl

theorem integrate_bookkeeping (rnd : ℚ → ℚ) (inp : Intents) (dt : ℚ) (s : Game) :
    (integrate rnd inp dt s).currentScore = s.spherePos.z ∧
    (integrate rnd inp dt s).lastScore = s.lastScore ∧
    (integrate rnd inp dt s).deathTimer = s.deathTimer := by
  simp only [integrate, gravityStep, keyRightStep, keyLeftStep, keyDownStep, keyUpStep, jumpStep,
    scoreStep]
  split_ifs <;> exact ⟨rfl, rfl, rfl⟩

/-- The alive block sets `currentScore` to the forward coordinate the frame began with and
leaves `lastScore` and `deathTimer` alone. -/
theorem aliveUpdate_bookkeeping (rnd : ℚ → ℚ) (platforms : List Platform) (inp : Intents)
    (dt : ℚ) (s : Game) :
    (aliveUpdate rnd platforms inp dt s).currentScore = s.spherePos.z ∧
    (aliveUpdate rnd platforms inp dt s).lastScore = s.lastScore ∧
    (aliveUpdate rnd platforms inp dt s).deathTimer = s.deathTimer := by
  have e : aliveUpdate rnd platforms inp dt s =
      collisionLoop rnd platforms { integrate rnd inp dt s with onGround := false } := rfl
  rw [e]
  rcases collisionLoop_cases rnd platforms { integrate rnd inp dt s with onGround := false } with
    h | ⟨p, _, h⟩
  · rw [h]; exact integrate_bookkeeping rnd inp dt s
  · rw [h]; exact integrate_bookkeeping rnd inp dt s

/-- With the jump key released or pressed, a sphere that is not on the ground integrates to the
same state. -/
theorem integrate_jump_ignored (rnd : ℚ → ℚ) (inp : Intents) (dt : ℚ) (s : Game)
    (hg : s.onGround = false) :
    integrate rnd inp dt s = integrate rnd { inp with keySpace := false } dt s := by
  simp [integrate, jumpStep, scoreStep, hg, keyUpStep, keyDownStep, keyLeftStep, keyRightStep]

theorem run_append (rnd : ℚ → ℚ) (platforms : List Platform) (f1 f2 : List (Intents × ℚ))
    (s : Game) :
    run rnd platforms (f1 ++ f2) s = run rnd platforms f2 (run rnd platforms f1 s) := by
  induction f1 generalizing s with
  | nil => rfl
  | cons f rest ih =>
    obtain ⟨inp, dt⟩ := f
    simp only [List.cons_append, run]
    exact ih _

/-- A dead run stays dead, with every variable but the timer unchanged, through all frames at
whose end the timer is at most `1.0`, whatever the position of the sphere. -/
theorem dead_frames_keep_dead (rnd : ℚ → ℚ) (platforms : List Platform)
    (frames : List (Intents × ℚ)) (d : Game) (hd : d.isDead = true)
    (hw : withinDelay rnd d.deathTimer frames) :
    run rnd platforms frames d = { d with deathTimer := timerAfter rnd d.deathTimer frames } := by
  induction frames generalizing d with
  | nil => rfl
  | cons f rest ih =>
    obtain ⟨inp, dt⟩ := f
    obtain ⟨h1, h2⟩ := hw
    simp only [run, timerAfter]
    rw [tick_dead rnd platforms inp dt d hd, respawnStep_of_wait rnd platforms dt d hd h1]
    exact ih _ hd h2

/-- A dead run is alive again at the end of the first frame in which the timer exceeds
`1.0`. -/
theorem dead_run_respawns (rnd : ℚ → ℚ) (platforms : List Platform)
    (frames : List (Intents × ℚ)) (d : Game) (inp2 : Intents) (dt2 : ℚ) (hd : d.isDead = true)
    (hw : withinDelay rnd d.deathTimer frames)
    (hex : fadd rnd (timerAfter rnd d.deathTimer frames) dt2 > 1) :
    (run rnd platforms (frames ++ [(inp2, dt2)]) d).isDead = false := by
  rw [run_append, dead_frames_keep_dead rnd platforms frames d hd hw]
  show (tick rnd platforms inp2 dt2
    { d with deathTimer := timerAfter rnd d.deathTimer frames }).isDead = false
  rw [tick_dead rnd platforms inp2 dt2
      { d with deathTimer := timerAfter rnd d.deathTimer frames } hd,
    respawnStep_of_fire rnd platforms dt2
      { d with deathTimer := timerAfter rnd d.deathTimer frames } hd hex]

/-- In a frame that begins dead the respawn block runs exactly when `deathTimer + dt`
exceeds `1.0`. -/
theorem respawn_condition_of_dead (rnd : ℚ → ℚ) (platforms : List Platform) (inp : Intents)
    (dt : ℚ) (s : Game) (hs : s.isDead = true) :
    respawnFires rnd dt (deathStep (aliveBlock rnd platforms inp dt s)) = true ↔
      fadd rnd s.deathTimer dt > 1 := by
  have e : deathStep (aliveBlock rnd platforms inp dt s) = s := by
    simp [aliveBlock, hs, deathStep, deathFires]
  rw [e]
  simp [respawnFires, hs]

/-! ## Lemmas on flights -/

/-- A frame that begins alive, in which nothing lands and the death block does not fire, ends in
the integrated state with `onGround` false. -/
theorem airborne_tick (rnd : ℚ → ℚ) (platforms : List Platform) (inp : Intents) (dt : ℚ)
    (s : Game) (hs : s.isDead = false)
    (h1 : (aliveUpdate rnd platforms inp dt s).onGround = false)
    (h2 : deathFires (aliveUpdate rnd platforms inp dt s) = false) :
    tick rnd platforms inp dt s = { integrate rnd inp dt s with onGround := false } := by
  have ha : (aliveUpdate rnd platforms inp dt s).isDead = false := by
    rw [aliveUpdate_isDead]; exact hs
  have e : aliveUpdate rnd platforms inp dt s =
      collisionLoop rnd platforms { integrate rnd inp dt s with onGround := false } := rfl
  have hu : aliveUpdate rnd platforms inp dt s =
      { integrate rnd inp dt s with onGround := false } := by
    rcases collisionLoop_cases rnd platforms { integrate rnd inp dt s with onGround := false }
      with h | ⟨p, _, h⟩
    · rw [e, h]
    · rw [e, h] at h1
      exact absurd h1 (by simp)
  have hd : deathStep (aliveUpdate rnd platforms inp dt s) =
      aliveUpdate rnd platforms inp dt s := by
    simp [deathStep, h2]
  rw [tick_alive rnd platforms inp dt s hs, hd, respawnStep_of_alive rnd platforms dt _ ha, hu]

/-- In real arithmetic, a sphere in the air that neither lands nor dies in `n` frames of length
`dt` loses `13 dt` of velocity per frame and is at `y + n v dt - 13 dt^2 n (n+1) / 2`. -/
theorem flight_exact (platforms : List Platform) (dt : ℚ) (keys : List Intents) (s : Game)
    (hs : s.isDead = false) (hg : s.onGround = false)
    (hair : airborne exact platforms (framesOf dt keys) s = true) :
    (run exact platforms (framesOf dt keys) s).VelocityY =
      s.VelocityY - 13 * dt * (keys.length : ℚ) ∧
    (run exact platforms (framesOf dt keys) s).spherePos.y =
      s.spherePos.y + (keys.length : ℚ) * s.VelocityY * dt
        - 13 * dt ^ 2 * ((keys.length : ℚ) * ((keys.length : ℚ) + 1) / 2) := by
  induction keys generalizing s with
  | nil => simp [framesOf, run]
  | cons k rest ih =>
    simp only [framesOf, List.map_cons, airborne, Bool.and_eq_true, Bool.not_eq_true'] at hair
    obtain ⟨⟨h1, h2⟩, h3⟩ := hair
    have ht := airborne_tick exact platforms k dt s hs h1 h2
    have hv : (integrate exact k dt s).VelocityY = s.VelocityY - 13 * dt := by
      rw [integrate_VelocityY]
      simp [hg, fsub, fmul, exact, gravity]
    have hy : (integrate exact k dt s).spherePos.y =
        s.spherePos.y + (s.VelocityY - 13 * dt) * dt := by
      rw [integrate_y, hv]
      simp [fadd, fmul, exact]
    have hrec := ih (tick exact platforms k dt s)
      (by rw [ht]; exact (integrate_isDead exact k dt s).trans hs) (by rw [ht])
      (by simpa [framesOf] using h3)
    simp only [framesOf, List.map_cons, run, List.length_cons] at hrec ⊢
    obtain ⟨r1, r2⟩ := hrec
    have tv : (tick exact platforms k dt s).VelocityY = s.VelocityY - 13 * dt := by
      rw [ht]; exact hv
    have ty : (tick exact platforms k dt s).spherePos.y =
        s.spherePos.y + (s.VelocityY - 13 * dt) * dt := by
      rw [ht]; exact hy
    rw [r1, r2, tv, ty]
    push_cast
    constructor <;> ring

/-- In real arithmetic, after a jump from rest and `n` further frames of the same length
without landing or death, the height above takeoff is `10.5 N dt - 13 dt^2 N (N+1) / 2` with
`N = n + 1`, and the velocity is `10.5 - 13 N dt`. -/
theorem jump_height_exact (platforms : List Platform) (dt : ℚ) (s : Game) (inp0 : Intents)
    (keys : List Intents) (hs : s.isDead = false) (hg : s.onGround = true)
    (hj : inp0.keySpace = true)
    (hair : airborne exact platforms (framesOf dt (inp0 :: keys)) s = true) :
    (run exact platforms (framesOf dt (inp0 :: keys)) s).spherePos.y - s.spherePos.y =
      21 / 2 * ((keys.length : ℚ) + 1) * dt
        - 13 * dt ^ 2 * (((keys.length : ℚ) + 1) * ((keys.length : ℚ) + 2) / 2) ∧
    (run exact platforms (framesOf dt (inp0 :: keys)) s).VelocityY =
      21 / 2 - 13 * ((keys.length : ℚ) + 1) * dt := by
  have hair2 := hair
  simp only [framesOf, List.map_cons, airborne, Bool.and_eq_true, Bool.not_eq_true'] at hair2
  obtain ⟨⟨h1, h2⟩, h3⟩ := hair2
  have ht := airborne_tick exact platforms inp0 dt s hs h1 h2
  have hv1 : (integrate exact inp0 dt s).VelocityY = 21 / 2 - 13 * dt := by
    rw [integrate_VelocityY]
    simp [hg, hj, fsub, fmul, exact, gravity, jumpForce]
  have hy1 : (integrate exact inp0 dt s).spherePos.y =
      s.spherePos.y + (21 / 2 - 13 * dt) * dt := by
    rw [integrate_y, hv1]
    simp [fadd, fmul, exact]
  have hfl := flight_exact platforms dt keys (tick exact platforms inp0 dt s)
    (by rw [ht]; exact (integrate_isDead exact inp0 dt s).trans hs) (by rw [ht])
    (by simpa [framesOf] using h3)
  have tv : (tick exact platforms inp0 dt s).VelocityY = 21 / 2 - 13 * dt := by
    rw [ht]; exact hv1
  have ty : (tick exact platforms inp0 dt s).spherePos.y =
      s.spherePos.y + (21 / 2 - 13 * dt) * dt := by
    rw [ht]; exact hy1
  obtain ⟨r1, r2⟩ := hfl
  have e : run exact platforms (framesOf dt (inp0 :: keys)) s =
      run exact platforms (framesOf dt keys) (tick exact platforms inp0 dt s) := rfl
  rw [e, r1, r2, tv, ty]
  constructor <;> ring

/-- The height `10.5 N dt - 13 dt^2 N (N+1) / 2` is below `441/104` for every positive frame
time and every number of frames. -/
theorem discrete_height_below_ideal (dt : ℚ) (hdt : 0 < dt) (n : ℕ) :
    21 / 2 * ((n : ℚ) + 1) * dt - 13 * dt ^ 2 * (((n : ℚ) + 1) * ((n : ℚ) + 2) / 2)
      < 441 / 104 := by
  have hn : (0 : ℚ) ≤ (n : ℚ) := Nat.cast_nonneg n
  nlinarith [sq_nonneg (((n : ℚ) + 1) * dt - 21 / 26), mul_pos (by linarith : (0 : ℚ) < (n : ℚ) + 1) hdt,
    mul_pos (mul_pos (by linarith : (0 : ℚ) < (n : ℚ) + 1) hdt) hdt]

/-- For a frame time of at most `21/26` s some frame count `N >= 1` brings the height
`10.5 N dt - 13 dt^2 N (N+1) / 2` to within `5.25 dt + 6.5 dt^2` of `441/104`. -/
theorem discrete_height_near_ideal (dt : ℚ) (hdt : 0 < dt) (hle : dt ≤ 21 / 26) :
    ∃ n : ℕ, 441 / 104 - 21 / 4 * dt - 13 / 2 * dt ^ 2 ≤
      21 / 2 * ((n : ℚ) + 1) * dt - 13 * dt ^ 2 * (((n : ℚ) + 1) * ((n : ℚ) + 2) / 2) := by
  have hpos : (0 : ℚ) ≤ 21 / 26 / dt - 1 := by
    rw [sub_nonneg, le_div_iff₀ hdt]
    linarith
  refine ⟨⌊21 / 26 / dt - 1⌋₊, ?_⟩
  have h1 : ((⌊21 / 26 / dt - 1⌋₊ : ℕ) : ℚ) ≤ 21 / 26 / dt - 1 := Nat.floor_le hpos
  have h2 : 21 / 26 / dt - 1 < ((⌊21 / 26 / dt - 1⌋₊ : ℕ) : ℚ) + 1 := Nat.lt_floor_add_one _
  set m : ℚ := ((⌊21 / 26 / dt - 1⌋₊ : ℕ) : ℚ) with hm
  have h3 : (m + 1) * dt ≤ 21 / 26 := by
    have : m + 1 ≤ 21 / 26 / dt := by linarith
    calc (m + 1) * dt ≤ 21 / 26 / dt * dt := mul_le_mul_of_nonneg_right this hdt.le
      _ = 21 / 26 := div_mul_cancel₀ _ hdt.ne'
  have h4 : 21 / 26 - dt < (m + 1) * dt := by
    have : 21 / 26 / dt < m + 2 := by linarith
    have h5 : 21 / 26 / dt * dt < (m + 2) * dt := mul_lt_mul_of_pos_right this hdt
    have h6 : 21 / 26 / dt * dt = 21 / 26 := div_mul_cancel₀ _ hdt.ne'
    nlinarith
  nlinarith [mul_nonneg (sub_nonneg.2 h3) (sub_nonneg.2 (le_of_lt h4)), h3, h4, hdt]

/-! ## Lemmas on the arrow keys -/

theorem integrate_z (rnd : ℚ → ℚ) (inp : Intents) (dt : ℚ) (s : Game) :
    (integrate rnd inp dt s).spherePos.z =
      (if inp.keyDown then
        fsub rnd (if inp.keyUp then fadd rnd s.spherePos.z (fmul rnd speed dt) else s.spherePos.z)
          (fmul rnd speed dt)
      else (if inp.keyUp then fadd rnd s.spherePos.z (fmul rnd speed dt) else s.spherePos.z)) := by
  simp only [integrate, gravityStep, keyRightStep, keyLeftStep, keyDownStep, keyUpStep, jumpStep,
    scoreStep]
  split_ifs <;> rfl

theorem integrate_x (rnd : ℚ → ℚ) (inp : Intents) (dt : ℚ) (s : Game) :
    (integrate rnd inp dt s).spherePos.x =
      (if inp.keyRight then
        fsub rnd (if inp.keyLeft then fadd rnd s.spherePos.x (fmul rnd speed dt) else s.spherePos.x)
          (fmul rnd speed dt)
      else (if inp.keyLeft then fadd rnd s.spherePos.x (fmul rnd speed dt)
        else s.spherePos.x)) := by
  simp only [integrate, gravityStep, keyRightStep, keyLeftStep, keyDownStep, keyUpStep, jumpStep,
    scoreStep]
  split_ifs <;> rfl

theorem integrate_rotationX (rnd : ℚ → ℚ) (inp : Intents) (dt : ℚ) (s : Game) :
    (integrate rnd inp dt s).rotationX =
      (if inp.keyDown then
        fsub rnd
          (if inp.keyUp then fadd rnd s.rotationX (fdiv rnd (fmul rnd speed dt) sphereRadius)
            else s.rotationX)
          (fdiv rnd (fmul rnd speed dt) sphereRadius)
      else (if inp.keyUp then fadd rnd s.rotationX (fdiv rnd (fmul rnd speed dt) sphereRadius)
        else s.rotationX)) := by
  simp only [integrate, gravityStep, keyRightStep, keyLeftStep, keyDownStep, keyUpStep, jumpStep,
    scoreStep]
  split_ifs <;> rfl

theorem integrate_rotationZ (rnd : ℚ → ℚ) (inp : Intents) (dt : ℚ) (s : Game) :
    (integrate rnd inp dt s).rotationZ =
      (if inp.keyRight then
        fsub rnd
          (if inp.keyLeft then fadd rnd s.rotationZ (fdiv rnd (fmul rnd speed dt) sphereRadius)
            else s.rotationZ)
          (fdiv rnd (fmul rnd speed dt) sphereRadius)
      else (if inp.keyLeft then fadd rnd s.rotationZ (fdiv rnd (fmul rnd speed dt) sphereRadius)
        else s.rotationZ)) := by
  simp only [integrate, gravityStep, keyRightStep, keyLeftStep, keyDownStep, keyUpStep, jumpStep,
    scoreStep]
  split_ifs <;> rfl

/-- The collision loop changes neither the horizontal position nor the rotations. -/
theorem aliveUpdate_horizontal (rnd : ℚ → ℚ) (platforms : List Platform) (inp : Intents)
    (dt : ℚ) (s : Game) :
    (aliveUpdate rnd platforms inp dt s).spherePos.x = (integrate rnd inp dt s).spherePos.x ∧
    (aliveUpdate rnd platforms inp dt s).spherePos.z = (integrate rnd inp dt s).spherePos.z ∧
    (aliveUpdate rnd platforms inp dt s).rotationX = (integrate rnd inp dt s).rotationX ∧
    (aliveUpdate rnd platforms inp dt s).rotationZ = (integrate rnd inp dt s).rotationZ := by
  have e : aliveUpdate rnd platforms inp dt s =
      collisionLoop rnd platforms { integrate rnd inp dt s with onGround := false } := rfl
  rw [e]
  rcases collisionLoop_cases rnd platforms { integrate rnd inp dt s with onGround := false } with
    h | ⟨p, _, h⟩
  · rw [h]; exact ⟨rfl, rfl, rfl, rfl⟩
  · rw [h]; exact ⟨rfl, rfl, rfl, rfl⟩

/-- The death and respawn blocks never touch the rotations. -/
theorem tick_rotation (rnd : ℚ → ℚ) (platforms : List Platform) (inp : Intents) (dt : ℚ)
    (s : Game) (hs : s.isDead = false) :
    (tick rnd platforms inp dt s).rotationX = (aliveUpdate rnd platforms inp dt s).rotationX ∧
    (tick rnd platforms inp dt s).rotationZ = (aliveUpdate rnd platforms inp dt s).rotationZ := by
  have ha : (aliveUpdate rnd platforms inp dt s).isDead = false := by
    rw [aliveUpdate_isDead]; exact hs
  rw [tick_alive rnd platforms inp dt s hs]
  by_cases hy : (aliveUpdate rnd platforms inp dt s).spherePos.y ≤ -5
  · rw [deathStep_of_fire _ ha hy]
    by_cases h : fadd rnd 0 dt ≤ 1
    · rw [respawnStep_of_wait rnd platforms dt _ rfl h]
      exact ⟨rfl, rfl⟩
    · rw [respawnStep_of_fire rnd platforms dt _ rfl (not_le.1 h)]
      exact ⟨rfl, rfl⟩
  · rw [deathStep_of_high _ hy, respawnStep_of_alive rnd platforms dt _ ha]
    exact ⟨rfl, rfl⟩

/-- In real arithmetic the forward and the back key together integrate to the same state as
neither of them. -/
theorem integrate_up_down_exact (inp : Intents) (dt : ℚ) (s : Game) :
    integrate exact { inp with keyUp := true, keyDown := true } dt s =
      integrate exact { inp with keyUp := false, keyDown := false } dt s := by
  simp only [integrate, gravityStep, keyRightStep, keyLeftStep, keyDownStep, keyUpStep, jumpStep,
    scoreStep, fadd, fsub, fmul, fdiv, exact, if_true, Bool.false_eq_true, if_false,
    add_sub_cancel_right]

/-- In real arithmetic the left and the right key together integrate to the same state as
neither of them. -/
theorem integrate_left_right_exact (inp : Intents) (dt : ℚ) (s : Game) :
    integrate exact { inp with keyLeft := true, keyRight := true } dt s =
      integrate exact { inp with keyLeft := false, keyRight := false } dt s := by
  simp only [integrate, gravityStep, keyRightStep, keyLeftStep, keyDownStep, keyUpStep, jumpStep,
    scoreStep, fadd, fsub, fmul, fdiv, exact, if_true, Bool.false_eq_true, if_false,
    add_sub_cancel_right]

/-- Frames that integrate to the same state end in the same state. -/
theorem tick_congr_integrate (rnd : ℚ → ℚ) (platforms : List Platform) (inp1 inp2 : Intents)
    (dt : ℚ) (s : Game)
    (h : integrate rnd inp1 dt s = integrate rnd inp2 dt s) :
    tick rnd platforms inp1 dt s = tick rnd platforms inp2 dt s := by
  have e1 : aliveUpdate rnd platforms inp1 dt s =
      collisionLoop rnd platforms { integrate rnd inp1 dt s with onGround := false } := rfl
  have e2 : aliveUpdate rnd platforms inp2 dt s =
      collisionLoop rnd platforms { integrate rnd inp2 dt s with onGround := false } := rfl
  simp only [tick, aliveBlock, e1, e2, h]

/-! ## Lemmas on roundings and on the generated level -/

/-- Real arithmetic has the properties of a rounding. -/
theorem exact_isRounding : IsRounding exact :=
  ⟨fun _ _ h => h, fun _ _ => rfl⟩

theorem IsRounding.int {rnd : ℚ → ℚ} (h : IsRounding rnd) (m : ℤ) (hm : |m| < 2 ^ 22) :
    rnd (m : ℚ) = (m : ℚ) := by
  have hk : |4 * m| < 2 ^ 24 := by
    rw [abs_mul]
    norm_num
    linarith
  have := h.quarters (4 * m) hk
  have e : ((4 * m : ℤ) : ℚ) / 4 = (m : ℚ) := by push_cast; ring
  rw [e] at this
  exact this

theorem IsRounding.const {rnd : ℚ → ℚ} (h : IsRounding rnd) (k : ℤ) (hk : |k| < 2 ^ 24) (a : ℚ)
    (ha : a = (k : ℚ) / 4) : rnd a = a := by
  rw [ha]; exact h.quarters k hk

/-- A rounded value is at most the next integer above its argument. -/
theorem IsRounding.le_ceil {rnd : ℚ → ℚ} (h : IsRounding rnd) (a : ℚ) (h0 : 0 ≤ a)
    (h1 : a ≤ 2 ^ 21) : rnd a ≤ (⌈a⌉ : ℚ) := by
  have hc : a ≤ (⌈a⌉ : ℚ) := Int.le_ceil a
  have hlt : (⌈a⌉ : ℚ) < a + 1 := Int.ceil_lt_add_one a
  have hnn : (0 : ℤ) ≤ ⌈a⌉ := Int.ceil_nonneg h0
  have hup : (⌈a⌉ : ℤ) < 2 ^ 22 := by
    have : ((⌈a⌉ : ℤ) : ℚ) < ((2 ^ 22 : ℤ) : ℚ) := by
      push_cast
      have : (2 : ℚ) ^ 21 + 1 < 2 ^ 22 := by norm_num
      linarith
    exact_mod_cast this
  have := h.mono hc
  rw [h.int ⌈a⌉ (by rw [abs_of_nonneg hnn]; exact hup)] at this
  exact this

/-- A rounded value is at least the next integer below its argument. -/
theorem IsRounding.floor_le {rnd : ℚ → ℚ} (h : IsRounding rnd) (a : ℚ) (h0 : 0 ≤ a)
    (h1 : a ≤ 2 ^ 21) : (⌊a⌋ : ℚ) ≤ rnd a := by
  have hc : (⌊a⌋ : ℚ) ≤ a := Int.floor_le a
  have hnn : (0 : ℤ) ≤ ⌊a⌋ := Int.floor_nonneg.2 h0
  have hup : (⌊a⌋ : ℤ) < 2 ^ 22 := by
    have : ((⌊a⌋ : ℤ) : ℚ) < ((2 ^ 22 : ℤ) : ℚ) := by
      push_cast
      have : (2 : ℚ) ^ 21 < 2 ^ 22 := by norm_num
      linarith
    exact_mod_cast this
  have := h.mono hc
  rw [h.int ⌊a⌋ (by rw [abs_of_nonneg hnn]; exact hup)] at this
  exact this

theorem toInt_of_nonneg (q : ℚ) (h : 0 ≤ q) : toInt q = ⌊q⌋ := by
  unfold toInt
  rw [if_pos h, ← Rat.floor_def]

theorem difficulty_bounds {rnd : ℚ → ℚ} (h : IsRounding rnd) (i : Nat)
    (hi : i < platformCount) : 0 ≤ difficulty rnd i ∧ difficulty rnd i ≤ 5 := by
  have h0 := h.const 0 (by norm_num) 0 (by norm_num)
  have h5 := h.const 20 (by norm_num) 5 (by norm_num)
  have hi2 : (i : ℚ) < 200 := by
    have : i < 200 := hi
    exact_mod_cast this
  have hnn : (0 : ℚ) ≤ (i : ℚ) := Nat.cast_nonneg i
  constructor
  · have := h.mono (show (0 : ℚ) ≤ (i : ℚ) / 40 by positivity)
    rw [h0] at this
    exact this
  · have := h.mono (show (i : ℚ) / 40 ≤ 5 by linarith)
    rw [h5] at this
    exact this

theorem minGap_ge {rnd : ℚ → ℚ} (h : IsRounding rnd) (i : Nat) (hi : i < platformCount) :
    6 ≤ minGap rnd i := by
  obtain ⟨hd0, _⟩ := difficulty_bounds h i hi
  have h0 := h.const 0 (by norm_num) 0 (by norm_num)
  have h6 := h.const 24 (by norm_num) 6 (by norm_num)
  have hm : 0 ≤ fmul rnd (difficulty rnd i) 2 := by
    have := h.mono (show (0 : ℚ) ≤ difficulty rnd i * 2 by linarith)
    rw [h0] at this
    exact this
  have := h.mono (show (6 : ℚ) ≤ 6 + fmul rnd (difficulty rnd i) 2 by linarith)
  rw [h6] at this
  exact this

theorem maxGap_bounds {rnd : ℚ → ℚ} (h : IsRounding rnd) (i : Nat) (hi : i < platformCount) :
    12 ≤ maxGap rnd i ∧ maxGap rnd i ≤ 27 := by
  obtain ⟨hd0, hd5⟩ := difficulty_bounds h i hi
  have h0 := h.const 0 (by norm_num) 0 (by norm_num)
  have h12 := h.const 48 (by norm_num) 12 (by norm_num)
  have h15 := h.const 60 (by norm_num) 15 (by norm_num)
  have h27 := h.const 108 (by norm_num) 27 (by norm_num)
  have hm0 : 0 ≤ fmul rnd (difficulty rnd i) 3 := by
    have := h.mono (show (0 : ℚ) ≤ difficulty rnd i * 3 by linarith)
    rw [h0] at this
    exact this
  have hm15 : fmul rnd (difficulty rnd i) 3 ≤ 15 := by
    have := h.mono (show difficulty rnd i * 3 ≤ 15 by linarith)
    rw [h15] at this
    exact this
  constructor
  · have := h.mono (show (12 : ℚ) ≤ 12 + fmul rnd (difficulty rnd i) 3 by linarith)
    rw [h12] at this
    exact this
  · have := h.mono (show 12 + fmul rnd (difficulty rnd i) 3 ≤ 27 by linarith)
    rw [h27] at this
    exact this

theorem gapLo_ge {rnd : ℚ → ℚ} (h : IsRounding rnd) (i : Nat) (hi : i < platformCount) :
    600 ≤ gapLo rnd i := by
  have h600 := h.const 2400 (by norm_num) 600 (by norm_num)
  have hm := minGap_ge h i hi
  have hp : (600 : ℚ) ≤ fmul rnd (minGap rnd i) 100 := by
    have := h.mono (show (600 : ℚ) ≤ minGap rnd i * 100 by linarith)
    rw [h600] at this
    exact this
  rw [gapLo, toInt_of_nonneg _ (by linarith)]
  exact Int.le_floor.2 (by exact_mod_cast hp)

theorem gapHi_le {rnd : ℚ → ℚ} (h : IsRounding rnd) (i : Nat) (hi : i < platformCount) :
    gapHi rnd i ≤ 2700 := by
  have h0 := h.const 0 (by norm_num) 0 (by norm_num)
  have h2700 := h.const 10800 (by norm_num) 2700 (by norm_num)
  obtain ⟨h12, h27⟩ := maxGap_bounds h i hi
  have hp : fmul rnd (maxGap rnd i) 100 ≤ 2700 := by
    have := h.mono (show maxGap rnd i * 100 ≤ 2700 by linarith)
    rw [h2700] at this
    exact this
  have hnn : 0 ≤ fmul rnd (maxGap rnd i) 100 := by
    have := h.mono (show (0 : ℚ) ≤ maxGap rnd i * 100 by linarith)
    rw [h0] at this
    exact this
  have hle := toInt_le _ hnn
  have : ((gapHi rnd i : ℤ) : ℚ) ≤ ((2700 : ℤ) : ℚ) := by
    push_cast
    exact le_trans hle hp
  exact_mod_cast this

/-- The gap added in iteration `i` lies between `6` and `27`. -/
theorem gap_bounds {rnd : ℚ → ℚ} (h : IsRounding rnd) (gapDraw offDraw : Nat → Int)
    (hv : ValidDraws rnd gapDraw offDraw) (i : Nat) (h1 : 1 ≤ i) (h2 : i < platformCount) :
    6 ≤ fdiv rnd (gapDraw i : ℚ) 100 ∧ fdiv rnd (gapDraw i : ℚ) 100 ≤ 27 := by
  obtain ⟨⟨hlo, hhi⟩, _⟩ := hv i h2 h1
  have h6 := h.const 24 (by norm_num) 6 (by norm_num)
  have h27 := h.const 108 (by norm_num) 27 (by norm_num)
  have g1 : (600 : ℚ) ≤ (gapDraw i : ℚ) := by
    have := le_trans (gapLo_ge h i h2) hlo
    exact_mod_cast this
  have g2 : (gapDraw i : ℚ) ≤ 2700 := by
    have := le_trans hhi (gapHi_le h i h2)
    exact_mod_cast this
  constructor
  · have := h.mono (show (6 : ℚ) ≤ (gapDraw i : ℚ) / 100 by linarith)
    rw [h6] at this
    exact this
  · have := h.mono (show (gapDraw i : ℚ) / 100 ≤ 27 by linarith)
    rw [h27] at this
    exact this

theorem centerZ_zero (rnd : ℚ → ℚ) (gapDraw offDraw : Nat → Int) :
    centerZ (generate rnd gapDraw offDraw) 0 = 0 := rfl

theorem centerZ_step (rnd : ℚ → ℚ) (gapDraw offDraw : Nat → Int) (i : Nat) (h1 : 1 ≤ i)
    (h2 : i < platformCount) :
    centerZ (generate rnd gapDraw offDraw) i =
      fadd rnd (centerZ (generate rnd gapDraw offDraw) (i - 1))
        (fdiv rnd (gapDraw i : ℚ) 100) := by
  simp only [centerZ, generate_step rnd gapDraw offDraw i h1 h2, genPlatform]

/-- The forward coordinate of platform `i` lies between `0` and `27 i`. -/
theorem centerZ_bounds {rnd : ℚ → ℚ} (h : IsRounding rnd) (gapDraw offDraw : Nat → Int)
    (hv : ValidDraws rnd gapDraw offDraw) (i : Nat) (h2 : i < platformCount) :
    0 ≤ centerZ (generate rnd gapDraw offDraw) i ∧
    centerZ (generate rnd gapDraw offDraw) i ≤ 27 * (i : ℚ) := by
  induction i with
  | zero => rw [centerZ_zero]; simp
  | succ i ih =>
    obtain ⟨z0, z1⟩ := ih (Nat.lt_of_succ_lt h2)
    obtain ⟨g0, g1⟩ := gap_bounds h gapDraw offDraw hv (i + 1) (Nat.succ_pos i) h2
    have hi : (i : ℚ) < 200 := by
      have : i + 1 < 200 := h2
      have : i < 200 := by omega
      exact_mod_cast this
    have hnn : (0 : ℚ) ≤ (i : ℚ) := Nat.cast_nonneg i
    rw [centerZ_step rnd gapDraw offDraw (i + 1) (Nat.succ_pos i) h2]
    simp only [Nat.add_sub_cancel]
    have h0 := h.const 0 (by norm_num) 0 (by norm_num)
    constructor
    · have := h.mono (show (0 : ℚ) ≤ centerZ (generate rnd gapDraw offDraw) i +
          fdiv rnd (gapDraw (i + 1) : ℚ) 100 by linarith)
      rw [h0] at this
      exact this
    · have hk : |(27 * ((i : ℤ) + 1))| < 2 ^ 22 := by
        have : i + 1 < 200 := h2
        rw [abs_of_nonneg (by positivity)]
        omega
      have e := h.int (27 * ((i : ℤ) + 1)) hk
      have := h.mono (show centerZ (generate rnd gapDraw offDraw) i +
          fdiv rnd (gapDraw (i + 1) : ℚ) 100 ≤ ((27 * ((i : ℤ) + 1) : ℤ) : ℚ) by
        push_cast; linarith)
      rw [e] at this
      push_cast at this ⊢
      exact this

/-- Each platform lies more than `5` further forward than its predecessor. -/
theorem centerZ_step_gt {rnd : ℚ → ℚ} (h : IsRounding rnd) (gapDraw offDraw : Nat → Int)
    (hv : ValidDraws rnd gapDraw offDraw) (i : Nat) (h1 : 1 ≤ i) (h2 : i < platformCount) :
    centerZ (generate rnd gapDraw offDraw) (i - 1) + 5 <
      centerZ (generate rnd gapDraw offDraw) i := by
  obtain ⟨z0, z1⟩ := centerZ_bounds h gapDraw offDraw hv (i - 1) (by omega)
  obtain ⟨g0, g1⟩ := gap_bounds h gapDraw offDraw hv i h1 h2
  have hi : ((i - 1 : ℕ) : ℚ) < 200 := by
    have : i - 1 < 200 := by simp only [platformCount] at h2; omega
    exact_mod_cast this
  rw [centerZ_step rnd gapDraw offDraw i h1 h2]
  have hfl := h.floor_le (centerZ (generate rnd gapDraw offDraw) (i - 1) +
    fdiv rnd (gapDraw i : ℚ) 100) (by linarith)
    (by have : (27 : ℚ) * 200 + 27 ≤ 2 ^ 21 := by norm_num
        linarith)
  have hlt := Int.lt_floor_add_one (centerZ (generate rnd gapDraw offDraw) (i - 1) +
    fdiv rnd (gapDraw i : ℚ) 100)
  simp only [fadd]
  linarith

/-- Platforms further along the array are more than `5` further forward. -/
theorem centerZ_lt {rnd : ℚ → ℚ} (h : IsRounding rnd) (gapDraw offDraw : Nat → Int)
    (hv : ValidDraws rnd gapDraw offDraw) (i j : Nat) (hij : i < j) (hj : j < platformCount) :
    centerZ (generate rnd gapDraw offDraw) i + 5 < centerZ (generate rnd gapDraw offDraw) j := by
  induction j with
  | zero => exact absurd hij (Nat.not_lt_zero i)
  | succ j ih =>
    have hs := centerZ_step_gt h gapDraw offDraw hv (j + 1) (Nat.succ_pos j) hj
    simp only [Nat.add_sub_cancel] at hs
    rcases Nat.lt_succ_iff_lt_or_eq.1 hij with hlt | heq
    · have := ih hlt (Nat.lt_of_succ_lt hj)
      linarith
    · rw [heq]; exact hs

theorem platformAt_zero (rnd : ℚ → ℚ) (gapDraw offDraw : Nat → Int) :
    platformAt (generate rnd gapDraw offDraw) 0 = platform0 := rfl

/-- The front edge of a generated platform is less than `5/2` beyond its centre. -/
theorem front_lt {rnd : ℚ → ℚ} (h : IsRounding rnd) (gapDraw offDraw : Nat → Int)
    (hv : ValidDraws rnd gapDraw offDraw) (i : Nat) (hi : i < platformCount) :
    (platformAt (generate rnd gapDraw offDraw) i).Front rnd <
      centerZ (generate rnd gapDraw offDraw) i + 5 / 2 := by
  rcases Nat.eq_zero_or_pos i with h0 | hpos
  · subst h0
    rw [centerZ_zero, platformAt_zero]
    have q : rnd (5 / 4) = 5 / 4 := h.const 5 (by norm_num) (5 / 4) (by norm_num)
    have e1 : fdiv rnd platform0.platformLength 2 = 5 / 4 := by
      have e : platform0.platformLength / 2 = (5 / 4 : ℚ) := by
        simp only [platform0]; norm_num
      simp only [fdiv, e, q]
    have e3 : platform0.platformCenter.z = 0 := rfl
    have e2 : rnd ((0 : ℚ) + 5 / 4) = 5 / 4 := by
      rw [zero_add]; exact q
    simp only [Platform.Front, e1, fadd, e3, e2]
    norm_num
  · obtain ⟨z0, z1⟩ := centerZ_bounds h gapDraw offDraw hv i hi
    have hi2 : (i : ℚ) < 200 := by
      have : i < 200 := hi
      exact_mod_cast this
    have hlen : (platformAt (generate rnd gapDraw offDraw) i).platformLength = 3 := by
      rw [generate_step rnd gapDraw offDraw i hpos hi]
      rfl
    have e1 : fdiv rnd (3 : ℚ) 2 = 3 / 2 := h.const 6 (by norm_num) _ (by norm_num)
    have hF : (platformAt (generate rnd gapDraw offDraw) i).Front rnd =
        rnd (centerZ (generate rnd gapDraw offDraw) i + 3 / 2) := by
      simp only [Platform.Front, hlen, e1, fadd, centerZ]
    rw [hF]
    have hc := h.le_ceil (centerZ (generate rnd gapDraw offDraw) i + 3 / 2) (by linarith)
      (by have : (27 : ℚ) * 200 + 3 / 2 ≤ 2 ^ 21 := by norm_num
          linarith)
    have hlt := Int.ceil_lt_add_one (centerZ (generate rnd gapDraw offDraw) i + 3 / 2)
    linarith

/-- The back edge of a generated platform other than the first is less than `5/2` behind its
centre. -/
theorem back_gt {rnd : ℚ → ℚ} (h : IsRounding rnd) (gapDraw offDraw : Nat → Int)
    (hv : ValidDraws rnd gapDraw offDraw) (j : Nat) (h1 : 1 ≤ j) (hj : j < platformCount) :
    centerZ (generate rnd gapDraw offDraw) j - 5 / 2 <
      (platformAt (generate rnd gapDraw offDraw) j).Back rnd := by
  obtain ⟨z0, z1⟩ := centerZ_bounds h gapDraw offDraw hv j hj
  have hz := centerZ_lt h gapDraw offDraw hv 0 j h1 hj
  rw [centerZ_zero] at hz
  have hj2 : (j : ℚ) < 200 := by
    have : j < 200 := hj
    exact_mod_cast this
  have hlen : (platformAt (generate rnd gapDraw offDraw) j).platformLength = 3 := by
    rw [generate_step rnd gapDraw offDraw j h1 hj]
    rfl
  have e1 : fdiv rnd (3 : ℚ) 2 = 3 / 2 := h.const 6 (by norm_num) _ (by norm_num)
  have hB : (platformAt (generate rnd gapDraw offDraw) j).Back rnd =
      rnd (centerZ (generate rnd gapDraw offDraw) j - 3 / 2) := by
    simp only [Platform.Back, hlen, e1, fsub, centerZ]
  rw [hB]
  have hc := h.floor_le (centerZ (generate rnd gapDraw offDraw) j - 3 / 2) (by linarith)
    (by have : (27 : ℚ) * 200 ≤ 2 ^ 21 := by norm_num
        linarith)
  have hlt := Int.lt_floor_add_one (centerZ (generate rnd gapDraw offDraw) j - 3 / 2)
  linarith

/-- Forward extents of a generated level are disjoint and in the order of the array. -/
theorem front_lt_back {rnd : ℚ → ℚ} (h : IsRounding rnd) (gapDraw offDraw : Nat → Int)
    (hv : ValidDraws rnd gapDraw offDraw) (i j : Nat) (hij : i < j) (hj : j < platformCount) :
    (platformAt (generate rnd gapDraw offDraw) i).Front rnd <
      (platformAt (generate rnd gapDraw offDraw) j).Back rnd := by
  have h1 := front_lt h gapDraw offDraw hv i (lt_trans hij hj)
  have h2 := back_gt h gapDraw offDraw hv j (by omega) hj
  have h3 := centerZ_lt h gapDraw offDraw hv i j hij hj
  linarith

theorem containsXZ_z (rnd : ℚ → ℚ) (p : Platform) (pos : Vector3) (r : ℚ)
    (hc : p.ContainsXZ rnd pos r = true) : p.Back rnd ≤ pos.z ∧ pos.z ≤ p.Front rnd := by
  simp only [Platform.ContainsXZ, Bool.and_eq_true, decide_eq_true_eq, ge_iff_le] at hc
  exact ⟨hc.1.2, hc.2⟩

/-- On a generated level at most one platform contains a given position. -/
theorem containsXZ_unique {rnd : ℚ → ℚ} (h : IsRounding rnd) (gapDraw offDraw : Nat → Int)
    (hv : ValidDraws rnd gapDraw offDraw) (pos : Vector3) (r : ℚ) (i j : Nat)
    (hi : i < platformCount) (hj : j < platformCount)
    (ci : (platformAt (generate rnd gapDraw offDraw) i).ContainsXZ rnd pos r = true)
    (cj : (platformAt (generate rnd gapDraw offDraw) j).ContainsXZ rnd pos r = true) :
    i = j := by
  obtain ⟨bi, fi⟩ := containsXZ_z rnd _ pos r ci
  obtain ⟨bj, fj⟩ := containsXZ_z rnd _ pos r cj
  rcases Nat.lt_trichotomy i j with hlt | heq | hgt
  · have := front_lt_back h gapDraw offDraw hv i j hlt hj
    linarith
  · exact heq
  · have := front_lt_back h gapDraw offDraw hv j i hgt hi
    linarith

theorem landingTest_contains (rnd : ℚ → ℚ) (s : Game) (p : Platform)
    (hl : landingTest rnd s p = true) : p.ContainsXZ rnd s.spherePos sphereRadius = true := by
  simp only [landingTest, Bool.and_eq_true] at hl
  exact hl.1.1.2

/-! ## Lemmas on the death threshold and on resting -/

/-- A frame ends alive only above the death threshold, on a level whose spawn height is above
it. -/
theorem tick_alive_above (rnd : ℚ → ℚ) (platforms : List Platform) (inp : Intents) (dt : ℚ)
    (s : Game)
    (hspawn : -5 < fadd rnd ((spawnPlatform platforms).Top rnd) sphereRadius)
    (hend : (tick rnd platforms inp dt s).isDead = false) :
    -5 < (tick rnd platforms inp dt s).spherePos.y := by
  cases hs : s.isDead with
  | true =>
    rw [tick_dead rnd platforms inp dt s hs] at hend ⊢
    by_cases h : fadd rnd s.deathTimer dt ≤ 1
    · rw [respawnStep_of_wait rnd platforms dt s hs h] at hend
      exact absurd (hs.symm.trans hend) (by simp)
    · rw [respawnStep_of_fire rnd platforms dt s hs (not_le.1 h)]
      exact hspawn
  | false =>
    have ha : (aliveUpdate rnd platforms inp dt s).isDead = false := by
      rw [aliveUpdate_isDead]; exact hs
    rw [tick_alive rnd platforms inp dt s hs] at hend ⊢
    by_cases hy : (aliveUpdate rnd platforms inp dt s).spherePos.y ≤ -5
    · rw [deathStep_of_fire _ ha hy] at hend ⊢
      by_cases h : fadd rnd 0 dt ≤ 1
      · rw [respawnStep_of_wait rnd platforms dt _ rfl h] at hend
        exact absurd hend (by simp)
      · rw [respawnStep_of_fire rnd platforms dt _ rfl (not_le.1 h)]
        exact hspawn
    · rw [deathStep_of_high _ hy, respawnStep_of_alive rnd platforms dt _ ha]
      exact not_le.1 hy

theorem integrate_noKeys_exact (dt : ℚ) (s : Game) (hv : s.VelocityY = 0) :
    integrate exact noKeys dt s =
      { s with currentScore := s.spherePos.z
               VelocityY := -(13 * dt)
               spherePos := { s.spherePos with y := s.spherePos.y - 13 * dt ^ 2 } } := by
  simp only [integrate, gravityStep, keyRightStep, keyLeftStep, keyDownStep, keyUpStep, jumpStep,
    scoreStep, noKeys, fadd, fsub, fmul, exact, gravity, hv, Bool.false_and,
    Bool.false_eq_true, if_false]
  congr 1
  · congr 1
    ring
  · ring

/-- Landing test, in real arithmetic, for a sphere that rested on platform `p` and fell for one
frame of length `dt >= 0` without keys. -/
theorem landingTest_after_rest (dt : ℚ) (s : Game) (p q : Platform) (hv : s.VelocityY = 0)
    (hy : s.spherePos.y = fadd exact (p.Top exact) sphereRadius) (hdt : 0 ≤ dt) :
    landingTest exact { integrate exact noKeys dt s with onGround := false } q = true ↔
      (q.ContainsXZ exact s.spherePos sphereRadius = true ∧
        p.Top exact - 13 * dt ^ 2 ≤ q.Top exact ∧
        q.Top exact - 2 / 5 ≤ p.Top exact - 13 * dt ^ 2) := by
  rw [integrate_noKeys_exact dt s hv]
  have hy2 : s.spherePos.y = p.Top exact + 1 := by
    rw [hy]; simp [fadd, exact, sphereRadius]
  simp only [landingTest, Platform.ContainsXZ, Bool.and_eq_true, decide_eq_true_eq, ge_iff_le,
    fsub, exact, sphereRadius, hy2]
  have e : p.Top exact + 1 - 13 * dt ^ 2 - 1 = p.Top exact - 13 * dt ^ 2 := by ring
  rw [e]
  constructor
  · rintro ⟨⟨⟨_, hc⟩, h1⟩, h2⟩
    exact ⟨hc, h1, h2⟩
  · rintro ⟨hc, h1, h2⟩
    exact ⟨⟨⟨by linarith, hc⟩, h1⟩, h2⟩

/-- The draws of `zigzagLevel` are values the two `GetRandomValue` calls can return in
binary32. -/
theorem zigzag_draws_valid : ValidDraws f32 sampleGap zigzagOff := by decide!

/-! ## Binary32 rounding is monotone and exact on short multiples of `1/4` -/

theorem nearestEven_mono {x y : ℚ} {r s : ℤ} (hx : NearestEven x r) (hy : NearestEven y s)
    (hxy : x ≤ y) : r ≤ s := by
  by_contra hlt
  have hlt2 : s + 1 ≤ r := by omega
  have h1 : (s : ℚ) + 1 ≤ r := by exact_mod_cast hlt2
  obtain ⟨_, a2, a3⟩ := hx
  obtain ⟨b1, _, b3⟩ := hy
  have e1 : (r : ℚ) - x = 1 / 2 := by linarith
  have e2 : y - s = 1 / 2 := by linarith
  have e3 : (r : ℚ) = ((s + 1 : ℤ) : ℚ) := by push_cast; linarith
  have er := a3 (Or.inl e1)
  have es := b3 (Or.inr e2)
  have e4 : r = s + 1 := by exact_mod_cast e3
  rw [e4] at er
  exact absurd er (by simp [Int.even_add_one, es])

theorem nearestEven_int (m : ℤ) : NearestEven (m : ℚ) m := by
  refine ⟨by linarith, by linarith, ?_⟩
  rintro (h | h) <;> norm_num at h

theorem nearestEven_eq_int {m r : ℤ} (h : NearestEven (m : ℚ) r) : r = m :=
  le_antisymm (nearestEven_mono h (nearestEven_int m) le_rfl)
    (nearestEven_mono (nearestEven_int m) h le_rfl)

theorem roundNE_spec (N D : ℕ) (hD : 0 < D) :
    NearestEven ((N : ℚ) / D) (roundNE N D : ℤ) := by
  have hDq : (0 : ℚ) < (D : ℚ) := by exact_mod_cast hD
  have hdecomp : (N : ℚ) = (D : ℚ) * ((N / D : ℕ) : ℚ) + ((N % D : ℕ) : ℚ) := by
    exact_mod_cast (Nat.div_add_mod N D).symm
  have hmod : ((N % D : ℕ) : ℚ) < (D : ℚ) := by exact_mod_cast Nat.mod_lt N hD
  have hmod0 : (0 : ℚ) ≤ ((N % D : ℕ) : ℚ) := Nat.cast_nonneg _
  have hx : (N : ℚ) / D = ((N / D : ℕ) : ℚ) + ((N % D : ℕ) : ℚ) / D := by
    rw [hdecomp]; field_simp; ring
  set f : ℕ := N / D with hf
  set m : ℕ := N % D with hm
  unfold roundNE
  rw [← hf, ← hm, hx]
  by_cases hup : 2 * m > D ∨ (2 * m = D ∧ f % 2 = 1)
  · rw [if_pos hup]
    unfold NearestEven
    push_cast
    rcases hup with h | ⟨h, hodd⟩
    · have hq : (D : ℚ) < 2 * (m : ℚ) := by exact_mod_cast h
      have h1 : (1 : ℚ) / 2 < (m : ℚ) / D := by
        rw [lt_div_iff₀ hDq]; linarith
      have h2 : (m : ℚ) / D < 1 := by
        rw [div_lt_one hDq]; exact hmod
      refine ⟨by linarith, by linarith, ?_⟩
      rintro (h3 | h3) <;> linarith
    · have hq : 2 * (m : ℚ) = (D : ℚ) := by exact_mod_cast h
      have h1 : (m : ℚ) / D = 1 / 2 := by
        rw [div_eq_iff hDq.ne']; linarith
      refine ⟨by linarith, by linarith, ?_⟩
      intro _
      have : Even (f + 1) := by
        rw [Nat.even_add_one, Nat.even_iff]
        omega
      exact_mod_cast this
  · rw [if_neg hup]
    unfold NearestEven
    simp only [Int.cast_natCast]
    push_neg at hup
    obtain ⟨h1, h2⟩ := hup
    have hq : 2 * (m : ℚ) ≤ (D : ℚ) := by exact_mod_cast h1
    have h3 : (m : ℚ) / D ≤ 1 / 2 := by
      rw [div_le_iff₀ hDq]; linarith
    have h4 : (0 : ℚ) ≤ (m : ℚ) / D := div_nonneg hmod0 hDq.le
    refine ⟨by linarith, by linarith, ?_⟩
    rintro (h5 | h5)
    · linarith
    · have h6 : (m : ℚ) / D = 1 / 2 := by linarith
      have h7 : 2 * (m : ℚ) = (D : ℚ) := by
        rw [div_eq_iff hDq.ne'] at h6; linarith
      have h8 : 2 * m = D := by exact_mod_cast h7
      have h9 := h2 h8
      have : Even f := by
        rw [Nat.even_iff]; omega
      exact_mod_cast this

theorem bitLen_zero (fuel : ℕ) : bitLen fuel 0 = 0 := by
  cases fuel <;> simp [bitLen]

theorem bitLen_spec : ∀ (fuel n : ℕ), n ≤ fuel →
    n < 2 ^ bitLen fuel n ∧ (0 < n → 2 ^ (bitLen fuel n - 1) ≤ n) := by
  intro fuel
  induction fuel with
  | zero =>
    intro n hn
    have : n = 0 := Nat.le_zero.1 hn
    subst this
    simp [bitLen]
  | succ fuel ih =>
    intro n hn
    by_cases h0 : n = 0
    · subst h0; simp [bitLen]
    · have hpos : 0 < n := Nat.pos_of_ne_zero h0
      have hhalf : n / 2 ≤ fuel := by omega
      obtain ⟨i1, i2⟩ := ih (n / 2) hhalf
      simp only [bitLen, h0, if_false, Nat.add_sub_cancel]
      constructor
      · rw [pow_succ]; omega
      · intro _
        by_cases h1 : n / 2 = 0
        · rw [h1, bitLen_zero]; simp; omega
        · have hp : 0 < n / 2 := Nat.pos_of_ne_zero h1
          have i3 := i2 hp
          have hb : 1 ≤ bitLen fuel (n / 2) := by
            by_contra hb
            have : bitLen fuel (n / 2) = 0 := by omega
            rw [this] at i1
            simp at i1
            omega
          have e : bitLen fuel (n / 2) = (bitLen fuel (n / 2) - 1) + 1 := by omega
          rw [e, pow_succ]
          omega

theorem bitLen_bounds (n : ℕ) (hn : 0 < n) :
    ((2 : ℚ) ^ (bitLen n n : ℤ)) / 2 ≤ (n : ℚ) ∧ (n : ℚ) < (2 : ℚ) ^ (bitLen n n : ℤ) := by
  obtain ⟨h1, h2⟩ := bitLen_spec n n le_rfl
  have h3 := h2 hn
  have hb : 1 ≤ bitLen n n := by
    by_contra hb
    have : bitLen n n = 0 := by omega
    rw [this] at h1
    simp at h1
    omega
  have e : bitLen n n = (bitLen n n - 1) + 1 := by omega
  rw [zpow_natCast]
  constructor
  · have : ((2 ^ (bitLen n n - 1) : ℕ) : ℚ) ≤ (n : ℚ) := by exact_mod_cast h3
    rw [e, pow_succ]
    push_cast at this
    linarith
  · exact_mod_cast h1

theorem floorLog2_spec (n d : ℕ) (hn : 0 < n) (hd : 0 < d) :
    (2 : ℚ) ^ (floorLog2 n d) ≤ (n : ℚ) / d ∧ (n : ℚ) / d < (2 : ℚ) ^ (floorLog2 n d + 1) := by
  obtain ⟨n1, n2⟩ := bitLen_bounds n hn
  obtain ⟨d1, d2⟩ := bitLen_bounds d hd
  have hnq : (0 : ℚ) < (n : ℚ) := by exact_mod_cast hn
  have hdq : (0 : ℚ) < (d : ℚ) := by exact_mod_cast hd
  set a : ℚ := (2 : ℚ) ^ (bitLen n n : ℤ) with ha
  set b : ℚ := (2 : ℚ) ^ (bitLen d d : ℤ) with hb
  have apos : 0 < a := zpow_pos (by norm_num) _
  have bpos : 0 < b := zpow_pos (by norm_num) _
  set e0 : ℤ := (bitLen n n : ℤ) - (bitLen d d : ℤ) with he0
  have hab : (2 : ℚ) ^ e0 = a / b := by
    rw [he0, zpow_sub₀ (by norm_num : (2 : ℚ) ≠ 0)]
  have hup : (2 : ℚ) ^ (e0 + 1) = a / b * 2 := by
    rw [zpow_add₀ (by norm_num : (2 : ℚ) ≠ 0), hab, zpow_one]
  have hdn : (2 : ℚ) ^ (e0 - 1) = a / b / 2 := by
    rw [zpow_sub₀ (by norm_num : (2 : ℚ) ≠ 0), hab, zpow_one]
  have A : (n : ℚ) / d < a / b * 2 := by
    rw [div_lt_iff₀ hdq]
    have : a / b * 2 * (b / 2) = a := by field_simp
    nlinarith [div_pos apos bpos]
  have B : a / b / 2 ≤ (n : ℚ) / d := by
    rw [le_div_iff₀ hdq]
    have : a / b / 2 * b = a / 2 := by field_simp; ring
    nlinarith [div_pos apos bpos]
  have T : (if 0 ≤ e0 then n < d * 2 ^ e0.toNat else n * 2 ^ (-e0).toNat < d) ↔
      (n : ℚ) / d < (2 : ℚ) ^ e0 := by
    by_cases hpos : 0 ≤ e0
    · rw [if_pos hpos]
      have e : (2 : ℚ) ^ e0 = ((2 ^ e0.toNat : ℕ) : ℚ) := by
        conv_lhs => rw [← Int.toNat_of_nonneg hpos]
        rw [zpow_natCast]; push_cast; rfl
      rw [e, div_lt_iff₀ hdq]
      constructor
      · intro h
        have : ((n : ℕ) : ℚ) < ((d * 2 ^ e0.toNat : ℕ) : ℚ) := by exact_mod_cast h
        push_cast at this ⊢
        linarith
      · intro h
        have : ((n : ℕ) : ℚ) < ((d * 2 ^ e0.toNat : ℕ) : ℚ) := by
          push_cast at h ⊢
          linarith
        exact_mod_cast this
    · rw [if_neg hpos]
      have hneg : 0 ≤ -e0 := by omega
      have e : (2 : ℚ) ^ e0 = (((2 ^ (-e0).toNat : ℕ) : ℚ))⁻¹ := by
        have : e0 = -((-e0).toNat : ℤ) := by rw [Int.toNat_of_nonneg hneg]; ring
        conv_lhs => rw [this]
        rw [zpow_neg, zpow_natCast]; push_cast; rfl
      have kpos : (0 : ℚ) < ((2 ^ (-e0).toNat : ℕ) : ℚ) := by positivity
      rw [e, div_lt_iff₀ hdq, inv_mul_eq_div, lt_div_iff₀ kpos]
      constructor
      · intro h
        exact_mod_cast h
      · intro h
        exact_mod_cast h
  unfold floorLog2
  simp only [← he0]
  by_cases ht : (if 0 ≤ e0 then n < d * 2 ^ e0.toNat else n * 2 ^ (-e0).toNat < d)
  · rw [if_pos ht]
    have := T.1 ht
    rw [hdn, sub_add_cancel]
    exact ⟨B, this⟩
  · rw [if_neg ht]
    have := fun h => ht (T.2 h)
    rw [hup]
    exact ⟨not_lt.1 this, A⟩

theorem f32_neg (q : ℚ) : f32 (-q) = -f32 q := by
  rcases lt_trichotomy q 0 with h | h | h
  · have h1 : ¬ (-q = 0) := by intro h2; linarith
    have h2 : ¬ (-q < 0) := by linarith
    have h3 : ¬ (q = 0) := by intro h2; linarith
    simp only [f32, h1, h2, h3, h, if_true, if_false, Rat.neg_num, Rat.neg_den, Int.natAbs_neg,
      neg_neg]
  · subst h; simp [f32]
  · have h1 : ¬ (-q = 0) := by intro h2; linarith
    have h2 : -q < 0 := by linarith
    have h3 : ¬ (q = 0) := by intro h2; linarith
    have h4 : ¬ (q < 0) := by linarith
    simp only [f32, h1, h2, h3, h4, if_true, if_false, Rat.neg_num, Rat.neg_den, Int.natAbs_neg]

theorem pos_eq_natAbs_div (q : ℚ) (hq : 0 < q) :
    q = (q.num.natAbs : ℚ) / (q.den : ℚ) ∧ 0 < q.num.natAbs ∧ 0 < q.den := by
  have hnum : 0 < q.num := Rat.num_pos.2 hq
  have e : ((q.num.natAbs : ℕ) : ℤ) = q.num := Int.natAbs_of_nonneg hnum.le
  have e2 : ((q.num.natAbs : ℕ) : ℚ) = (q.num : ℚ) := by rw [← Int.cast_natCast, e]
  refine ⟨?_, ?_, q.den_pos⟩
  · rw [e2]; exact (Rat.num_div_den q).symm
  · omega

/-- For positive `q`, `f32 q` is the nearest multiple of `2 ^ ulpExp q`, ties to even. -/
theorem f32_pos (q : ℚ) (hq : 0 < q) :
    ∃ r : ℤ, NearestEven (q / (2 : ℚ) ^ ulpExp q) r ∧ f32 q = (r : ℚ) * (2 : ℚ) ^ ulpExp q := by
  obtain ⟨hqe, hn, hd⟩ := pos_eq_natAbs_div q hq
  have h1 : ¬ (q = 0) := hq.ne'
  have h2 : ¬ (q < 0) := not_lt.2 hq.le
  have hf : f32 q =
      (if 0 ≤ ulpExp q then
        (roundNE q.num.natAbs (q.den * 2 ^ (ulpExp q).toNat) : ℚ) * 2 ^ (ulpExp q).toNat
      else
        (roundNE (q.num.natAbs * 2 ^ (-(ulpExp q)).toNat) q.den : ℚ) /
          2 ^ (-(ulpExp q)).toNat) := by
    simp only [f32, h1, h2, if_false, ulpExp]
  by_cases hu : 0 ≤ ulpExp q
  · have e : (2 : ℚ) ^ ulpExp q = ((2 ^ (ulpExp q).toNat : ℕ) : ℚ) := by
      conv_lhs => rw [← Int.toNat_of_nonneg hu]
      rw [zpow_natCast]; push_cast; rfl
    have kpos : 0 < q.den * 2 ^ (ulpExp q).toNat := Nat.mul_pos hd (by positivity)
    refine ⟨(roundNE q.num.natAbs (q.den * 2 ^ (ulpExp q).toNat) : ℤ), ?_, ?_⟩
    · have := roundNE_spec q.num.natAbs (q.den * 2 ^ (ulpExp q).toNat) kpos
      have e2 : q / (2 : ℚ) ^ ulpExp q =
          (q.num.natAbs : ℚ) / ((q.den * 2 ^ (ulpExp q).toNat : ℕ) : ℚ) := by
        rw [e]
        have e3 : (q.num.natAbs : ℚ) / ((q.den * 2 ^ (ulpExp q).toNat : ℕ) : ℚ) =
            (q.num.natAbs : ℚ) / (q.den : ℚ) / ((2 ^ (ulpExp q).toNat : ℕ) : ℚ) := by
          push_cast
          rw [div_div]
        rw [e3, ← hqe]
      rw [e2]
      exact this
    · rw [hf, if_pos hu, e]
      push_cast
      rfl
  · have hneg : 0 ≤ -(ulpExp q) := by omega
    have e : (2 : ℚ) ^ ulpExp q = (((2 ^ (-(ulpExp q)).toNat : ℕ) : ℚ))⁻¹ := by
      have : ulpExp q = -((-(ulpExp q)).toNat : ℤ) := by
        rw [Int.toNat_of_nonneg hneg]; ring
      conv_lhs => rw [this]
      rw [zpow_neg, zpow_natCast]; push_cast; rfl
    refine ⟨(roundNE (q.num.natAbs * 2 ^ (-(ulpExp q)).toNat) q.den : ℤ), ?_, ?_⟩
    · have := roundNE_spec (q.num.natAbs * 2 ^ (-(ulpExp q)).toNat) q.den hd
      have e2 : q / (2 : ℚ) ^ ulpExp q =
          ((q.num.natAbs * 2 ^ (-(ulpExp q)).toNat : ℕ) : ℚ) / (q.den : ℚ) := by
        rw [e]
        have e3 : ((q.num.natAbs * 2 ^ (-(ulpExp q)).toNat : ℕ) : ℚ) / (q.den : ℚ) =
            (q.num.natAbs : ℚ) / (q.den : ℚ) * ((2 ^ (-(ulpExp q)).toNat : ℕ) : ℚ) := by
          push_cast
          ring
        rw [e3, ← hqe, div_inv_eq_mul]
      rw [e2]
      exact this
    · rw [hf, if_neg hu, e]
      push_cast
      rw [div_eq_mul_inv]

theorem ulpExp_bounds (q : ℚ) (hq : 0 < q) :
    q < (2 : ℚ) ^ (ulpExp q + 24) ∧
    (-126 ≤ floorLog2 q.num.natAbs q.den → (2 : ℚ) ^ (ulpExp q + 23) ≤ q) ∧
    floorLog2 q.num.natAbs q.den - 23 ≤ ulpExp q ∧
    (2 : ℚ) ^ (floorLog2 q.num.natAbs q.den) ≤ q ∧
    q < (2 : ℚ) ^ (floorLog2 q.num.natAbs q.den + 1) := by
  obtain ⟨hqe, hn, hd⟩ := pos_eq_natAbs_div q hq
  obtain ⟨s1, s2⟩ := floorLog2_spec q.num.natAbs q.den hn hd
  rw [← hqe] at s1 s2
  have hle : floorLog2 q.num.natAbs q.den - 23 ≤ ulpExp q := by
    simp only [ulpExp]
    have := le_max_left (floorLog2 q.num.natAbs q.den) (-126)
    omega
  refine ⟨?_, ?_, hle, s1, s2⟩
  · have : (2 : ℚ) ^ (floorLog2 q.num.natAbs q.den + 1) ≤ (2 : ℚ) ^ (ulpExp q + 24) :=
      zpow_le_zpow_right₀ (by norm_num) (by omega)
    linarith
  · intro h
    have : ulpExp q = floorLog2 q.num.natAbs q.den - 23 := by
      simp only [ulpExp]
      rw [max_eq_left h]
    rw [this]
    have e : floorLog2 q.num.natAbs q.den - 23 + 23 = floorLog2 q.num.natAbs q.den := by ring
    rw [e]
    exact s1

theorem f32_pos_bounds (q : ℚ) (hq : 0 < q) :
    0 ≤ f32 q ∧ f32 q ≤ (2 : ℚ) ^ (ulpExp q + 24) ∧
    (-126 ≤ floorLog2 q.num.natAbs q.den → (2 : ℚ) ^ (ulpExp q + 23) ≤ f32 q) := by
  obtain ⟨r, hr, hf⟩ := f32_pos q hq
  obtain ⟨b1, b2, _, _, _⟩ := ulpExp_bounds q hq
  have upos : (0 : ℚ) < (2 : ℚ) ^ ulpExp q := zpow_pos (by norm_num) _
  have e24 : (2 : ℚ) ^ (ulpExp q + 24) = (2 : ℚ) ^ ulpExp q * 2 ^ (24 : ℕ) := by
    rw [zpow_add₀ (by norm_num : (2 : ℚ) ≠ 0)]
    norm_num
  have e23 : (2 : ℚ) ^ (ulpExp q + 23) = (2 : ℚ) ^ ulpExp q * 2 ^ (23 : ℕ) := by
    rw [zpow_add₀ (by norm_num : (2 : ℚ) ≠ 0)]
    norm_num
  have x0 : (0 : ℚ) ≤ q / (2 : ℚ) ^ ulpExp q := div_nonneg hq.le upos.le
  have r0 : (0 : ℤ) ≤ r := nearestEven_mono (nearestEven_int 0) hr (by exact_mod_cast x0)
  have x24 : q / (2 : ℚ) ^ ulpExp q ≤ (((2 : ℤ) ^ (24 : ℕ) : ℤ) : ℚ) := by
    rw [div_le_iff₀ upos]
    push_cast
    rw [e24] at b1
    linarith
  have r24 : r ≤ (2 : ℤ) ^ (24 : ℕ) := nearestEven_mono hr (nearestEven_int _) x24
  have r0q : (0 : ℚ) ≤ (r : ℚ) := by exact_mod_cast r0
  have r24q : (r : ℚ) ≤ 2 ^ (24 : ℕ) := by exact_mod_cast r24
  refine ⟨?_, ?_, ?_⟩
  · rw [hf]; positivity
  · rw [hf, e24, mul_comm]
    exact mul_le_mul_of_nonneg_left r24q upos.le
  · intro h
    have b := b2 h
    have x23 : (((2 : ℤ) ^ (23 : ℕ) : ℤ) : ℚ) ≤ q / (2 : ℚ) ^ ulpExp q := by
      rw [le_div_iff₀ upos]
      push_cast
      rw [e23] at b
      linarith
    have r23 : (2 : ℤ) ^ (23 : ℕ) ≤ r := nearestEven_mono (nearestEven_int _) hr x23
    have r23q : (2 : ℚ) ^ (23 : ℕ) ≤ (r : ℚ) := by exact_mod_cast r23
    rw [hf, e23, mul_comm]
    exact mul_le_mul_of_nonneg_right r23q upos.le

theorem f32_mono_pos (a b : ℚ) (ha : 0 < a) (hab : a ≤ b) : f32 a ≤ f32 b := by
  have hb : 0 < b := lt_of_lt_of_le ha hab
  obtain ⟨ra, hra, hfa⟩ := f32_pos a ha
  obtain ⟨rb, hrb, hfb⟩ := f32_pos b hb
  obtain ⟨_, _, _, la, _⟩ := ulpExp_bounds a ha
  obtain ⟨_, _, _, _, ub⟩ := ulpExp_bounds b hb
  have he : floorLog2 a.num.natAbs a.den ≤ floorLog2 b.num.natAbs b.den := by
    have h1 : (2 : ℚ) ^ (floorLog2 a.num.natAbs a.den) <
        (2 : ℚ) ^ (floorLog2 b.num.natAbs b.den + 1) := by linarith
    have := (zpow_lt_zpow_iff_right₀ (by norm_num : (1 : ℚ) < 2)).1 h1
    omega
  have hu : ulpExp a ≤ ulpExp b := by
    simp only [ulpExp]
    have := max_le_max he (le_refl (-126 : ℤ))
    omega
  rcases eq_or_lt_of_le hu with heq | hlt
  · have upos : (0 : ℚ) < (2 : ℚ) ^ ulpExp b := zpow_pos (by norm_num) _
    rw [heq] at hra hfa
    have hx : a / (2 : ℚ) ^ ulpExp b ≤ b / (2 : ℚ) ^ ulpExp b :=
      div_le_div_of_nonneg_right hab upos.le
    have hr : ra ≤ rb := nearestEven_mono hra hrb hx
    have hrq : (ra : ℚ) ≤ (rb : ℚ) := by exact_mod_cast hr
    rw [hfa, hfb]
    exact mul_le_mul_of_nonneg_right hrq upos.le
  · have hbig : -126 ≤ floorLog2 b.num.natAbs b.den := by
      by_contra hsmall
      have h1 : ulpExp b = -126 - 23 := by
        simp only [ulpExp]
        rw [max_eq_right (by omega)]
      have h2 : -126 - 23 ≤ ulpExp a := by
        simp only [ulpExp]
        have := le_max_right (floorLog2 a.num.natAbs a.den) (-126)
        omega
      omega
    obtain ⟨_, a2, _⟩ := f32_pos_bounds a ha
    obtain ⟨_, _, b3⟩ := f32_pos_bounds b hb
    have hmid : (2 : ℚ) ^ (ulpExp a + 24) ≤ (2 : ℚ) ^ (ulpExp b + 23) :=
      zpow_le_zpow_right₀ (by norm_num) (by omega)
    exact le_trans a2 (le_trans hmid (b3 hbig))

theorem f32_zero : f32 0 = 0 := by simp [f32]

/-- Binary32 rounding is monotone. -/
theorem f32_monotone : Monotone f32 := by
  intro a b hab
  by_cases ha : 0 < a
  · exact f32_mono_pos a b ha hab
  · have ha0 : a ≤ 0 := not_lt.1 ha
    have hfa : f32 a ≤ 0 := by
      rcases eq_or_lt_of_le ha0 with h | h
      · rw [h, f32_zero]
      · have := (f32_pos_bounds (-a) (by linarith)).1
        rw [f32_neg] at this
        linarith
    by_cases hb : 0 ≤ b
    · have hfb : 0 ≤ f32 b := by
        rcases eq_or_lt_of_le hb with h | h
        · rw [← h, f32_zero]
        · exact (f32_pos_bounds b h).1
      linarith
    · have hb0 : b < 0 := not_le.1 hb
      have := f32_mono_pos (-b) (-a) (by linarith) (by linarith)
      rw [f32_neg, f32_neg] at this
      linarith

theorem f32_quarters_pos (k : ℤ) (h0 : 0 < k) (hk : k < 2 ^ 24) :
    f32 ((k : ℚ) / 4) = (k : ℚ) / 4 := by
  have kq : (0 : ℚ) < (k : ℚ) := by exact_mod_cast h0
  have kq2 : (k : ℚ) < 2 ^ (24 : ℕ) := by exact_mod_cast hk
  have hq : (0 : ℚ) < (k : ℚ) / 4 := by positivity
  obtain ⟨r, hr, hf⟩ := f32_pos _ hq
  obtain ⟨_, _, _, lo, _⟩ := ulpExp_bounds _ hq
  set u : ℤ := ulpExp ((k : ℚ) / 4) with hu
  set e : ℤ := floorLog2 ((k : ℚ) / 4).num.natAbs ((k : ℚ) / 4).den with he
  have he22 : e < 22 := by
    have h1 : (2 : ℚ) ^ e < (2 : ℚ) ^ (22 : ℤ) := by
      have : (k : ℚ) / 4 < (2 : ℚ) ^ (22 : ℤ) := by
        norm_num at kq2 ⊢
        linarith
      linarith
    exact (zpow_lt_zpow_iff_right₀ (by norm_num : (1 : ℚ) < 2)).1 h1
  have hu2 : u ≤ -2 := by
    have : u = max e (-126) - 23 := rfl
    have h3 : max e (-126) ≤ 21 := max_le (by omega) (by norm_num)
    omega
  have hj : 0 ≤ -u - 2 := by omega
  have upos : (0 : ℚ) < (2 : ℚ) ^ u := zpow_pos (by norm_num) _
  have e1 : (2 : ℚ) ^ u * ((2 ^ (-u - 2).toNat : ℕ) : ℚ) * 4 = 1 := by
    have e2 : (((2 ^ (-u - 2).toNat : ℕ) : ℚ)) = (2 : ℚ) ^ (-u - 2) := by
      conv_rhs => rw [← Int.toNat_of_nonneg hj]
      rw [zpow_natCast]; push_cast; rfl
    have e3 : (4 : ℚ) = (2 : ℚ) ^ (2 : ℤ) := by norm_num
    rw [e2, e3, ← zpow_add₀ (by norm_num : (2 : ℚ) ≠ 0),
      ← zpow_add₀ (by norm_num : (2 : ℚ) ≠ 0)]
    have : u + (-u - 2) + 2 = 0 := by ring
    rw [this, zpow_zero]
  have hx : (k : ℚ) / 4 / (2 : ℚ) ^ u = ((k * 2 ^ (-u - 2).toNat : ℤ) : ℚ) := by
    rw [div_eq_iff upos.ne']
    push_cast
    have := e1
    push_cast at this
    linear_combination (-(k : ℚ) / 4) * this
  rw [hx] at hr
  have hreq := nearestEven_eq_int hr
  rw [hf, hreq]
  push_cast
  have := e1
  push_cast at this
  linear_combination ((k : ℚ) / 4) * this

/-- Every multiple of `1/4` with fewer than 24 significant bits is a binary32 number. -/
theorem f32_quarters (k : ℤ) (hk : |k| < 2 ^ 24) : f32 ((k : ℚ) / 4) = (k : ℚ) / 4 := by
  rcases lt_trichotomy k 0 with h | h | h
  · have hk2 : -k < 2 ^ 24 := by
      rw [abs_of_neg h] at hk; exact hk
    have := f32_quarters_pos (-k) (by omega) hk2
    have e : ((-k : ℤ) : ℚ) / 4 = -((k : ℚ) / 4) := by push_cast; ring
    rw [e, f32_neg] at this
    linarith
  · subst h; simp [f32_zero]
  · have hk2 : k < 2 ^ 24 := by
      rw [abs_of_pos h] at hk; exact hk
    exact f32_quarters_pos k h hk2

/-- Binary32 rounding has the properties of `IsRounding`. -/
theorem f32_isRounding : IsRounding f32 := ⟨f32_monotone, f32_quarters⟩

/-- Binary32 rounding is monotone and keeps `0`, `1` and `13`. -/
theorem f32_rounding_monotone :
    Monotone f32 ∧ f32 0 = 0 ∧ f32 1 = 1 ∧ f32 13 = 13 := by
  refine ⟨f32_monotone, ?_, ?_, ?_⟩
  · simpa using f32_isRounding.int 0 (by norm_num)
  · simpa using f32_isRounding.int 1 (by norm_num)
  · simpa using f32_isRounding.int 13 (by norm_num)

/-! ## Resting in real arithmetic -/

/-- In real arithmetic, for every list of platforms and every frame time `dt >= 0`: a sphere
at rest on a platform (`VelocityY = 0`, `y = Top + radius`, `x`/`z` inside that platform and no
other), in a frame without keys that does not die and respawn at once, stays at rest iff
`13 dt^2 <= 0.4`, and falls below the tolerance band otherwise. -/
theorem rest_survives_iff_small_frame_exact (platforms : List Platform) (k : Nat)
    (hk : k < platforms.length) (dt : ℚ) (s : Game) (hs : s.isDead = false)
    (hv : s.VelocityY = 0)
    (hy : s.spherePos.y = fadd exact (platforms[k].Top exact) sphereRadius)
    (hin : platforms[k].ContainsXZ exact s.spherePos sphereRadius = true)
    (hout : ∀ (j : Nat) (hj : j < platforms.length), j ≠ k →
      platforms[j].ContainsXZ exact s.spherePos sphereRadius = false)
    (hdt : 0 ≤ dt)
    (hr : ¬ ((aliveUpdate exact platforms noKeys dt s).spherePos.y ≤ -5 ∧ fadd exact 0 dt > 1)) :
    (((tick exact platforms noKeys dt s).spherePos.y = s.spherePos.y ∧
        (tick exact platforms noKeys dt s).VelocityY = 0 ∧
        (tick exact platforms noKeys dt s).onGround = true) ↔ gravity * dt ^ 2 ≤ 2 / 5) ∧
    gravity * dt ^ 2 = 13 * dt ^ 2 ∧
    (2 / 5 < 13 * dt ^ 2 →
      (∀ p ∈ platforms,
        landingTest exact { integrate exact noKeys dt s with onGround := false } p = false) ∧
      (tick exact platforms noKeys dt s).onGround = false ∧
      fsub exact (tick exact platforms noKeys dt s).spherePos.y sphereRadius <
        fsub exact (platforms[k].Top exact) (exact (2 / 5))) := by
  have hg : gravity * dt ^ 2 = 13 * dt ^ 2 := by simp [gravity]
  have ha : (aliveUpdate exact platforms noKeys dt s).isDead = false := by
    rw [aliveUpdate_isDead]; exact hs
  have e : aliveUpdate exact platforms noKeys dt s =
      collisionLoop exact platforms { integrate exact noKeys dt s with onGround := false } := rfl
  have hsq : 0 ≤ 13 * dt ^ 2 := by positivity
  have hno : respawnFires exact dt (deathStep (aliveUpdate exact platforms noKeys dt s))
      = false := by
    cases h : respawnFires exact dt (deathStep (aliveUpdate exact platforms noKeys dt s)) with
    | false => rfl
    | true => exact absurd ((alive_respawn_iff exact platforms noKeys dt s hs).1 h) hr
  obtain ⟨kpos, kvel, kgr⟩ := no_respawn_keeps exact platforms dt _ hno
  have hfar : 2 / 5 < 13 * dt ^ 2 →
      aliveUpdate exact platforms noKeys dt s =
        { integrate exact noKeys dt s with onGround := false } ∧
      ∀ p ∈ platforms,
        landingTest exact { integrate exact noKeys dt s with onGround := false } p = false := by
    intro hbig
    have hall : ∀ p ∈ platforms,
        landingTest exact { integrate exact noKeys dt s with onGround := false } p = false := by
      intro p hp
      obtain ⟨j, hj, rfl⟩ := List.mem_iff_getElem.1 hp
      cases hl : landingTest exact { integrate exact noKeys dt s with onGround := false }
        platforms[j] with
      | false => rfl
      | true =>
        obtain ⟨hc, h1, h2⟩ := (landingTest_after_rest dt s platforms[k] platforms[j] hv hy hdt).1 hl
        by_cases hjk : j = k
        · subst hjk
          linarith
        · rw [hout j hj hjk] at hc
          exact absurd hc (by simp)
    exact ⟨by rw [e]; exact collisionLoop_none exact platforms _ hall, hall⟩
  have hy2 : s.spherePos.y = platforms[k].Top exact + 1 := by
    rw [hy]; simp [fadd, exact, sphereRadius]
  refine ⟨⟨?_, ?_⟩, hg, ?_⟩
  · rintro ⟨_, _, hon⟩
    rw [hg]
    by_contra hbig
    obtain ⟨hau, _⟩ := hfar (not_le.1 hbig)
    rw [tick_alive exact platforms noKeys dt s hs, kgr, hau] at hon
    exact absurd hon (by simp)
  · intro hsmall
    rw [hg] at hsmall
    have hit : landingTest exact { integrate exact noKeys dt s with onGround := false }
        platforms[k] = true :=
      (landingTest_after_rest dt s platforms[k] platforms[k] hv hy hdt).2
        ⟨hin, by linarith, by linarith⟩
    have hmiss : ∀ (j : Nat) (hj : j < k),
        landingTest exact { integrate exact noKeys dt s with onGround := false }
          platforms[j] = false := by
      intro j hj
      cases hl : landingTest exact { integrate exact noKeys dt s with onGround := false }
        platforms[j] with
      | false => rfl
      | true =>
        obtain ⟨hc, _, _⟩ :=
          (landingTest_after_rest dt s platforms[k] platforms[j] hv hy hdt).1 hl
        rw [hout j (lt_trans hj hk) (Nat.ne_of_lt hj)] at hc
        exact absurd hc (by simp)
    have hland := collisionLoop_first exact platforms
      { integrate exact noKeys dt s with onGround := false } k hk hit hmiss
    rw [tick_alive exact platforms noKeys dt s hs, kpos, kvel, kgr, e, hland]
    exact ⟨hy.symm, rfl, rfl⟩
  · intro hbig
    obtain ⟨hau, hall⟩ := hfar hbig
    refine ⟨hall, ?_, ?_⟩
    · rw [tick_alive exact platforms noKeys dt s hs, kgr, hau]
    · rw [tick_alive exact platforms noKeys dt s hs, kpos, hau, integrate_noKeys_exact dt s hv]
      simp only [fsub, exact, sphereRadius, hy2]
      linarith

/-! ## Lemmas on resting, for every rounding -/

/-- Landing test after one frame without keys that began with `VelocityY = 0`. -/
theorem landingTest_after_rest_rnd (rnd : ℚ → ℚ) (dt : ℚ) (s : Game) (q : Platform)
    (hv : s.VelocityY = 0) :
    landingTest rnd { integrate rnd noKeys dt s with onGround := false } q = true ↔
      (fsub rnd 0 (fmul rnd gravity dt) ≤ 0 ∧
        q.ContainsXZ rnd s.spherePos sphereRadius = true ∧
        restBottom rnd s.spherePos.y dt ≤ q.Top rnd ∧
        fsub rnd (q.Top rnd) (rnd (2 / 5)) ≤ restBottom rnd s.spherePos.y dt) := by
  simp only [landingTest, Platform.ContainsXZ, restBottom, integrate, gravityStep, keyRightStep,
    keyLeftStep, keyDownStep, keyUpStep, jumpStep, scoreStep, noKeys, hv, Bool.false_and,
    Bool.false_eq_true, if_false, Bool.and_eq_true, decide_eq_true_eq, ge_iff_le]
  tauto

/-- Bottom of the sphere at the end of the integration of a frame without keys that began with
`VelocityY = 0`. -/
theorem integrate_rest_bottom (rnd : ℚ → ℚ) (dt : ℚ) (s : Game) (hv : s.VelocityY = 0) :
    fsub rnd (integrate rnd noKeys dt s).spherePos.y sphereRadius =
      restBottom rnd s.spherePos.y dt := by
  simp only [restBottom, integrate, gravityStep, keyRightStep,
    keyLeftStep, keyDownStep, keyUpStep, jumpStep, scoreStep, noKeys, hv, Bool.false_and,
    Bool.false_eq_true, if_false]

/-- From rest the velocity after the gravity line is not positive, for `dt >= 0`. -/
theorem rest_velocity_nonpos (rnd : ℚ → ℚ) (hm : Monotone rnd) (h0 : rnd 0 = 0) (dt : ℚ)
    (hdt : 0 ≤ dt) : fsub rnd 0 (fmul rnd gravity dt) ≤ 0 := by
  have hg : 0 ≤ fmul rnd gravity dt := by
    have := hm (show (0 : ℚ) ≤ gravity * dt by simp only [gravity]; positivity)
    rw [h0] at this
    exact this
  have := hm (show (0 : ℚ) - fmul rnd gravity dt ≤ 0 by linarith)
  rw [h0] at this
  exact this

/-- A longer frame leaves the bottom of a sphere that was at rest no higher. -/
theorem restBottom_antitone (rnd : ℚ → ℚ) (hm : Monotone rnd) (h0 : rnd 0 = 0) (y a b : ℚ)
    (ha : 0 ≤ a) (hab : a ≤ b) : restBottom rnd y b ≤ restBottom rnd y a := by
  have hva := rest_velocity_nonpos rnd hm h0 a ha
  have hg : fmul rnd gravity a ≤ fmul rnd gravity b :=
    hm (by simp only [gravity]; linarith)
  have hv : fsub rnd 0 (fmul rnd gravity b) ≤ fsub rnd 0 (fmul rnd gravity a) :=
    hm (by linarith)
  have hp : fsub rnd 0 (fmul rnd gravity b) * b ≤ fsub rnd 0 (fmul rnd gravity a) * a := by
    have h1 : fsub rnd 0 (fmul rnd gravity b) * b ≤ fsub rnd 0 (fmul rnd gravity a) * b :=
      mul_le_mul_of_nonneg_right hv (le_trans ha hab)
    have h2 : fsub rnd 0 (fmul rnd gravity a) * b ≤ fsub rnd 0 (fmul rnd gravity a) * a :=
      mul_le_mul_of_nonpos_left hab hva
    exact le_trans h1 h2
  have hq : fmul rnd (fsub rnd 0 (fmul rnd gravity b)) b ≤
      fmul rnd (fsub rnd 0 (fmul rnd gravity a)) a := hm hp
  have hy : fadd rnd y (fmul rnd (fsub rnd 0 (fmul rnd gravity b)) b) ≤
      fadd rnd y (fmul rnd (fsub rnd 0 (fmul rnd gravity a)) a) := hm (by linarith)
  exact hm (by linarith)

/-- The resting statement for a rounding that is monotone and keeps `0`, given two frame times
`d1 < d2` that bracket the threshold both of the program's test and of `13 dt^2 <= 0.4`, and a
frame time `dt` outside the open interval between them. -/
theorem rest_iff_of_bracket (rnd : ℚ → ℚ) (hm : Monotone rnd) (h0 : rnd 0 = 0)
    (platforms : List Platform) (k : Nat) (hk : k < platforms.length) (dt : ℚ) (s : Game)
    (hs : s.isDead = false) (hv : s.VelocityY = 0)
    (hy : s.spherePos.y = fadd rnd (platforms[k].Top rnd) sphereRadius)
    (hin : platforms[k].ContainsXZ rnd s.spherePos sphereRadius = true)
    (hout : ∀ (j : Nat) (hj : j < platforms.length), j ≠ k →
      platforms[j].ContainsXZ rnd s.spherePos sphereRadius = false)
    (hdt : 0 ≤ dt)
    (hr : ¬ ((aliveUpdate rnd platforms noKeys dt s).spherePos.y ≤ -5 ∧ fadd rnd 0 dt > 1))
    (d1 d2 : ℚ) (hd2 : 0 ≤ d2) (hD1 : 13 * d1 ^ 2 ≤ 2 / 5) (hD2 : 2 / 5 < 13 * d2 ^ 2)
    (hA : fsub rnd (platforms[k].Top rnd) (rnd (2 / 5)) ≤ restBottom rnd s.spherePos.y d1)
    (hB : restBottom rnd s.spherePos.y d2 < fsub rnd (platforms[k].Top rnd) (rnd (2 / 5)))
    (hC : restBottom rnd s.spherePos.y 0 ≤ platforms[k].Top rnd)
    (hE : dt ≤ d1 ∨ d2 ≤ dt) :
    (((tick rnd platforms noKeys dt s).spherePos.y = s.spherePos.y ∧
        (tick rnd platforms noKeys dt s).VelocityY = 0 ∧
        (tick rnd platforms noKeys dt s).onGround = true) ↔ gravity * dt ^ 2 ≤ 2 / 5) ∧
    gravity * dt ^ 2 = 13 * dt ^ 2 ∧
    (2 / 5 < 13 * dt ^ 2 →
      (∀ p ∈ platforms,
        landingTest rnd { integrate rnd noKeys dt s with onGround := false } p = false) ∧
      (tick rnd platforms noKeys dt s).onGround = false ∧
      fsub rnd (tick rnd platforms noKeys dt s).spherePos.y sphereRadius <
        fsub rnd (platforms[k].Top rnd) (rnd (2 / 5))) := by
  have hg : gravity * dt ^ 2 = 13 * dt ^ 2 := by simp [gravity]
  have ha : (aliveUpdate rnd platforms noKeys dt s).isDead = false := by
    rw [aliveUpdate_isDead]; exact hs
  have e : aliveUpdate rnd platforms noKeys dt s =
      collisionLoop rnd platforms { integrate rnd noKeys dt s with onGround := false } := rfl
  have hno : respawnFires rnd dt (deathStep (aliveUpdate rnd platforms noKeys dt s))
      = false := by
    cases h : respawnFires rnd dt (deathStep (aliveUpdate rnd platforms noKeys dt s)) with
    | false => rfl
    | true => exact absurd ((alive_respawn_iff rnd platforms noKeys dt s hs).1 h) hr
  obtain ⟨kpos, kvel, kgr⟩ := no_respawn_keeps rnd platforms dt _ hno
  -- the real threshold on either side of the bracket
  have hsmall_of : dt ≤ d1 → 13 * dt ^ 2 ≤ 2 / 5 := by
    intro h
    have : dt ^ 2 ≤ d1 ^ 2 := by nlinarith
    linarith
  have hbig_of : d2 ≤ dt → 2 / 5 < 13 * dt ^ 2 := by
    intro h
    have : d2 ^ 2 ≤ dt ^ 2 := by nlinarith
    linarith
  have hside1 : 13 * dt ^ 2 ≤ 2 / 5 → dt ≤ d1 := by
    intro h
    rcases hE with h1 | h2
    · exact h1
    · exact absurd (hbig_of h2) (not_lt.2 h)
  have hside2 : 2 / 5 < 13 * dt ^ 2 → d2 ≤ dt := by
    intro h
    rcases hE with h1 | h2
    · exact absurd h (not_lt.2 (hsmall_of h1))
    · exact h2
  have hfar : 2 / 5 < 13 * dt ^ 2 →
      aliveUpdate rnd platforms noKeys dt s =
        { integrate rnd noKeys dt s with onGround := false } ∧
      ∀ p ∈ platforms,
        landingTest rnd { integrate rnd noKeys dt s with onGround := false } p = false := by
    intro hbig
    have hlow : restBottom rnd s.spherePos.y dt <
        fsub rnd (platforms[k].Top rnd) (rnd (2 / 5)) :=
      lt_of_le_of_lt (restBottom_antitone rnd hm h0 _ d2 dt hd2 (hside2 hbig)) hB
    have hall : ∀ p ∈ platforms,
        landingTest rnd { integrate rnd noKeys dt s with onGround := false } p = false := by
      intro p hp
      obtain ⟨j, hj, rfl⟩ := List.mem_iff_getElem.1 hp
      cases hl : landingTest rnd { integrate rnd noKeys dt s with onGround := false }
        platforms[j] with
      | false => rfl
      | true =>
        obtain ⟨_, hc, _, h2⟩ := (landingTest_after_rest_rnd rnd dt s platforms[j] hv).1 hl
        by_cases hjk : j = k
        · subst hjk
          exact absurd h2 (not_le.2 hlow)
        · rw [hout j hj hjk] at hc
          exact absurd hc (by simp)
    exact ⟨by rw [e]; exact collisionLoop_none rnd platforms _ hall, hall⟩
  refine ⟨⟨?_, ?_⟩, hg, ?_⟩
  · rintro ⟨_, _, hon⟩
    rw [hg]
    by_contra hbig
    obtain ⟨hau, _⟩ := hfar (not_le.1 hbig)
    rw [tick_alive rnd platforms noKeys dt s hs, kgr, hau] at hon
    exact absurd hon (by simp)
  · intro hsmall
    rw [hg] at hsmall
    have hle := hside1 hsmall
    have hit : landingTest rnd { integrate rnd noKeys dt s with onGround := false }
        platforms[k] = true :=
      (landingTest_after_rest_rnd rnd dt s platforms[k] hv).2
        ⟨rest_velocity_nonpos rnd hm h0 dt hdt, hin,
          le_trans (restBottom_antitone rnd hm h0 _ 0 dt (le_refl 0) hdt) hC,
          le_trans hA (restBottom_antitone rnd hm h0 _ dt d1 hdt hle)⟩
    have hmiss : ∀ (j : Nat) (hj : j < k),
        landingTest rnd { integrate rnd noKeys dt s with onGround := false }
          platforms[j] = false := by
      intro j hj
      cases hl : landingTest rnd { integrate rnd noKeys dt s with onGround := false }
        platforms[j] with
      | false => rfl
      | true =>
        obtain ⟨_, hc, _, _⟩ := (landingTest_after_rest_rnd rnd dt s platforms[j] hv).1 hl
        rw [hout j (lt_trans hj hk) (Nat.ne_of_lt hj)] at hc
        exact absurd hc (by simp)
    have hland := collisionLoop_first rnd platforms
      { integrate rnd noKeys dt s with onGround := false } k hk hit hmiss
    rw [tick_alive rnd platforms noKeys dt s hs, kpos, kvel, kgr, e, hland]
    exact ⟨hy.symm, rfl, rfl⟩
  · intro hbig
    obtain ⟨hau, hall⟩ := hfar hbig
    refine ⟨hall, ?_, ?_⟩
    · rw [tick_alive rnd platforms noKeys dt s hs, kgr, hau]
    · rw [tick_alive rnd platforms noKeys dt s hs, kpos, hau]
      show fsub rnd (integrate rnd noKeys dt s).spherePos.y sphereRadius < _
      rw [integrate_rest_bottom rnd dt s hv]
      exact lt_of_le_of_lt (restBottom_antitone rnd hm h0 _ d2 dt hd2 (hside2 hbig)) hB

/-! ## Binary32 numbers around the resting threshold -/

/-- A positive binary32 number in the binade `[2^e, 2^(e+1))`, `e >= -126`, is a multiple of
`2^(e-23)`. -/
theorem f32_grid (q : ℚ) (hq : 0 < q) (hf : f32 q = q) (e : ℤ) (he : -126 ≤ e)
    (h1 : (2 : ℚ) ^ e ≤ q) (h2 : q < (2 : ℚ) ^ (e + 1)) :
    ∃ r : ℤ, q = (r : ℚ) * (2 : ℚ) ^ (e - 23) := by
  obtain ⟨r, _, hr⟩ := f32_pos q hq
  obtain ⟨_, _, _, lo, hi⟩ := ulpExp_bounds q hq
  have e1 : floorLog2 q.num.natAbs q.den < e + 1 :=
    (zpow_lt_zpow_iff_right₀ (by norm_num : (1 : ℚ) < 2)).1 (lt_of_le_of_lt lo h2)
  have e2 : e < floorLog2 q.num.natAbs q.den + 1 :=
    (zpow_lt_zpow_iff_right₀ (by norm_num : (1 : ℚ) < 2)).1 (lt_of_le_of_lt h1 hi)
  have e3 : floorLog2 q.num.natAbs q.den = e := by omega
  have hu : ulpExp q = e - 23 := by
    simp only [ulpExp, e3]
    rw [max_eq_left he]
  refine ⟨r, ?_⟩
  rw [← hu, ← hr, hf]

/-- No binary32 number lies strictly between `restLast` and `restNext`. -/
theorem no_float_between_rest (dt : ℚ) (hf : f32 dt = dt) : dt ≤ restLast ∨ restNext ≤ dt := by
  by_contra h
  rw [not_or, not_le, not_le] at h
  obtain ⟨h1, h2⟩ := h
  simp only [restLast, restNext] at h1 h2
  have hq : (0 : ℚ) < dt := lt_trans (by norm_num) h1
  obtain ⟨r, hr⟩ := f32_grid dt hq hf (-3) (by norm_num)
    (le_trans (by norm_num) h1.le) (lt_trans h2 (by norm_num))
  have e : (2 : ℚ) ^ ((-3 : ℤ) - 23) = 1 / 67108864 := by norm_num [zpow_neg]
  rw [e] at hr
  rw [hr] at h1 h2
  have a1 : (11771673 : ℚ) < (r : ℚ) := by linarith
  have a2 : (r : ℚ) < 11771674 := by linarith
  have b1 : (11771673 : ℤ) < r := by exact_mod_cast a1
  have b2 : r < (11771674 : ℤ) := by exact_mod_cast a2
  omega

/-- Values of the program's expressions at the two frame times around the threshold, for the
two takeoff heights of the level. -/
theorem rest_threshold_values :
    (0 ≤ restNext ∧ 13 * restLast ^ 2 ≤ 2 / 5 ∧ 2 / 5 < 13 * restNext ^ 2) ∧
    (fadd f32 (1 / 2) sphereRadius = 3 / 2 ∧
      fsub f32 (1 / 2) (f32 (2 / 5)) ≤ restBottom f32 (3 / 2) restLast ∧
      restBottom f32 (3 / 2) restNext < fsub f32 (1 / 2) (f32 (2 / 5)) ∧
      restBottom f32 (3 / 2) 0 ≤ 1 / 2) ∧
    (fadd f32 (3 / 2) sphereRadius = 5 / 2 ∧
      fsub f32 (3 / 2) (f32 (2 / 5)) ≤ restBottom f32 (5 / 2) restLast ∧
      restBottom f32 (5 / 2) restNext < fsub f32 (3 / 2) (f32 (2 / 5)) ∧
      restBottom f32 (5 / 2) 0 ≤ 3 / 2) := by
  decide!

/-- Both `restLast` and `restNext` are binary32 numbers. -/
theorem rest_bracket_floats : f32 restLast = restLast ∧ f32 restNext = restNext := by
  decide!

/-- Every platform the generation loop writes has height `1` and its centre at `y = 1`. -/
theorem genFrom_shape (rnd : ℚ → ℚ) (gapDraw offDraw : Nat → Int) :
    ∀ (n i : Nat) (prev : Platform), ∀ p ∈ genFrom rnd gapDraw offDraw n i prev,
      p.platformHeight = 1 ∧ p.platformCenter.y = 1 := by
  intro n
  induction n with
  | zero => intro i prev p hp; simp [genFrom] at hp
  | succ n ih =>
    intro i prev p hp
    simp only [genFrom, List.mem_cons] at hp
    rcases hp with h | h
    · subst h; exact ⟨rfl, rfl⟩
    · exact ih _ _ p h

/-- Every platform of a generated level has its top at `0.5` (the spawn platform) or at `1.5`,
in binary32. -/
theorem generated_top (gapDraw offDraw : Nat → Int) (p : Platform)
    (hp : p ∈ generate f32 gapDraw offDraw) : p.Top f32 = 1 / 2 ∨ p.Top f32 = 3 / 2 := by
  have t0 : fadd f32 0 (fdiv f32 1 2) = 1 / 2 ∧ fadd f32 1 (fdiv f32 1 2) = 3 / 2 := by
    decide!
  simp only [generate, List.mem_cons] at hp
  rcases hp with h | h
  · left
    subst h
    exact t0.1
  · right
    obtain ⟨h1, h2⟩ := genFrom_shape f32 gapDraw offDraw _ _ _ p h
    simp only [Platform.Top, h1, h2]
    exact t0.2

theorem genFrom_length (rnd : ℚ → ℚ) (gapDraw offDraw : Nat → Int) :
    ∀ (n i : Nat) (prev : Platform), (genFrom rnd gapDraw offDraw n i prev).length = n := by
  intro n
  induction n with
  | zero => intro i prev; rfl
  | succ n ih => intro i prev; simp [genFrom, ih]

/-- A generated level has `platformCount` platforms. -/
theorem generate_length (rnd : ℚ → ℚ) (gapDraw offDraw : Nat → Int) :
    (generate rnd gapDraw offDraw).length = platformCount := by
  simp [generate, genFrom_length, platformCount]

/-- On a level generated from valid draws a point inside the `x`/`z` extent of one platform is
inside that of no other. -/
theorem containsXZ_only {rnd : ℚ → ℚ} (h : IsRounding rnd) (gapDraw offDraw : Nat → Int)
    (hv : ValidDraws rnd gapDraw offDraw) (pos : Vector3) (r : ℚ) (k : Nat)
    (hk : k < (generate rnd gapDraw offDraw).length)
    (hin : (generate rnd gapDraw offDraw)[k].ContainsXZ rnd pos r = true)
    (j : Nat) (hj : j < (generate rnd gapDraw offDraw).length) (hjk : j ≠ k) :
    (generate rnd gapDraw offDraw)[j].ContainsXZ rnd pos r = false := by
  cases hc : (generate rnd gapDraw offDraw)[j].ContainsXZ rnd pos r with
  | false => rfl
  | true =>
    have ej : platformAt (generate rnd gapDraw offDraw) j = (generate rnd gapDraw offDraw)[j] := by
      simp [platformAt, List.getD_eq_getElem, hj]
    have ek : platformAt (generate rnd gapDraw offDraw) k = (generate rnd gapDraw offDraw)[k] := by
      simp [platformAt, List.getD_eq_getElem, hk]
    have hj2 : j < platformCount := by rw [← generate_length rnd gapDraw offDraw]; exact hj
    have hk2 : k < platformCount := by rw [← generate_length rnd gapDraw offDraw]; exact hk
    exact absurd (containsXZ_unique h gapDraw offDraw hv pos r j k hj2 hk2
      (by rw [ej]; exact hc) (by rw [ek]; exact hin)) hjk

theorem zigzagLevel_nonempty : 0 < (generate f32 sampleGap zigzagOff).length := by
  rw [generate_length]; decide

/-! ## The error of binary32 rounding below 64 -/

theorem exact_roundsWithin : RoundsWithin exact := by
  intro x _
  simp [exact]

theorem f32_error_pos (x : ℚ) (hx : 0 < x) (h64 : x < 64) : |f32 x - x| ≤ 1 / 524288 := by
  obtain ⟨r, hr, hf⟩ := f32_pos x hx
  obtain ⟨_, _, _, lo, _⟩ := ulpExp_bounds x hx
  have e1 : floorLog2 x.num.natAbs x.den < 6 := by
    have h1 : (2 : ℚ) ^ (floorLog2 x.num.natAbs x.den) < (2 : ℚ) ^ (6 : ℤ) := by
      have : (2 : ℚ) ^ (6 : ℤ) = 64 := by norm_num
      rw [this]
      exact lt_of_le_of_lt lo h64
    exact (zpow_lt_zpow_iff_right₀ (by norm_num : (1 : ℚ) < 2)).1 h1
  have hu : ulpExp x ≤ -18 := by
    simp only [ulpExp]
    have h3 : max (floorLog2 x.num.natAbs x.den) (-126) ≤ 5 := max_le (by omega) (by norm_num)
    omega
  have upos : (0 : ℚ) < (2 : ℚ) ^ ulpExp x := zpow_pos (by norm_num) _
  have ule : (2 : ℚ) ^ ulpExp x ≤ 1 / 262144 := by
    have h1 : (2 : ℚ) ^ ulpExp x ≤ (2 : ℚ) ^ (-18 : ℤ) :=
      zpow_le_zpow_right₀ (by norm_num) hu
    have h2 : (2 : ℚ) ^ (-18 : ℤ) = 1 / 262144 := by norm_num [zpow_neg]
    rw [h2] at h1
    exact h1
  obtain ⟨n1, n2, _⟩ := hr
  have ex : x / (2 : ℚ) ^ ulpExp x * (2 : ℚ) ^ ulpExp x = x := div_mul_cancel₀ _ upos.ne'
  have m1 : x - (2 : ℚ) ^ ulpExp x / 2 ≤ (r : ℚ) * (2 : ℚ) ^ ulpExp x := by
    have := mul_le_mul_of_nonneg_right n1 upos.le
    rw [sub_mul, ex] at this
    linarith
  have m2 : (r : ℚ) * (2 : ℚ) ^ ulpExp x ≤ x + (2 : ℚ) ^ ulpExp x / 2 := by
    have := mul_le_mul_of_nonneg_right n2 upos.le
    rw [add_mul, ex] at this
    linarith
  rw [hf, abs_le]
  constructor <;> linarith

/-- Binary32 rounding moves no number of magnitude below `64` by more than `2^-19`. -/
theorem f32_roundsWithin : RoundsWithin f32 := by
  intro x hx
  rcases lt_trichotomy x 0 with h | h | h
  · have h64 : -x < 64 := by
      rw [abs_of_neg h] at hx; exact hx
    have := f32_error_pos (-x) (by linarith) h64
    rw [f32_neg] at this
    have e : -f32 x - -x = -(f32 x - x) := by ring
    rw [e, abs_neg] at this
    exact this
  · subst h
    simp [f32_zero]
  · have h64 : x < 64 := by
      rw [abs_of_pos h] at hx; exact hx
    exact f32_error_pos x h h64

/-! ## The jump in rounded arithmetic -/

/-- One pass through the gravity lines (163-164) lowers `y + VelocityY^2 / (2 gravity)`, for
frame times between `1/512` s and `1` s, a velocity of magnitude at most `18` and a height
between `-5` and `7`. -/
theorem energy_step (rnd : ℚ → ℚ) (herr : RoundsWithin rnd) (dt v y : ℚ)
    (hdt1 : 1 / 512 ≤ dt) (hdt2 : dt ≤ 1) (hv : |v| ≤ 18) (hy1 : -5 < y) (hy2 : y ≤ 7) :
    fadd rnd y (fmul rnd (fsub rnd v (fmul rnd gravity dt)) dt) +
        (fsub rnd v (fmul rnd gravity dt)) ^ 2 / 26 < y + v ^ 2 / 26 := by
  obtain ⟨hv1, hv2⟩ := abs_le.1 hv
  simp only [fadd, fsub, fmul, gravity]
  -- the four rounded operations
  have eg := abs_le.1 (herr (13 * dt) (by rw [abs_lt]; constructor <;> linarith))
  set g : ℚ := rnd (13 * dt) with hg
  have ev := abs_le.1 (herr (v - g) (by rw [abs_lt]; constructor <;> linarith))
  set w : ℚ := rnd (v - g) with hw
  have hwabs : |w| ≤ 32 := by rw [abs_le]; constructor <;> linarith
  obtain ⟨hw1, hw2⟩ := abs_le.1 hwabs
  have hwdt1 : -32 ≤ w * dt := by nlinarith
  have hwdt2 : w * dt ≤ 32 := by nlinarith
  have ep := abs_le.1 (herr (w * dt) (by rw [abs_lt]; constructor <;> linarith))
  set p : ℚ := rnd (w * dt) with hp
  have ey := abs_le.1 (herr (y + p) (by rw [abs_lt]; constructor <;> linarith))
  set z : ℚ := rnd (y + p) with hz
  -- the velocity drop
  have ha1 : 13 / 512 - 2 / 524288 ≤ v - w := by linarith
  have hae : |v - w - 13 * dt| ≤ 2 / 524288 := by rw [abs_le]; constructor <;> linarith
  have hprod : |w * (v - w - 13 * dt)| ≤ 32 * (2 / 524288) := by
    rw [abs_mul]
    exact mul_le_mul hwabs hae (abs_nonneg _) (by norm_num)
  have hprod1 := (abs_le.1 hprod).1
  have hsq : (13 / 512 - 2 / 524288 : ℚ) ^ 2 ≤ (v - w) ^ 2 :=
    pow_le_pow_left₀ (by norm_num) ha1 2
  have hexp : v ^ 2 = w ^ 2 + 26 * (w * dt) + 2 * (w * (v - w - 13 * dt)) + (v - w) ^ 2 := by
    ring
  have hnum : (13 / 512 - 2 / 524288 : ℚ) ^ 2 = 44289025 / 68719476736 := by norm_num
  rw [hnum] at hsq
  rw [hexp]
  linarith [ey.2, ep.2]

/-- The alive block of a frame that leaves `onGround` false has run through the collision loop
without a landing. -/
theorem aliveUpdate_of_airborne (rnd : ℚ → ℚ) (platforms : List Platform) (inp : Intents)
    (dt : ℚ) (s : Game) (h1 : (aliveUpdate rnd platforms inp dt s).onGround = false) :
    aliveUpdate rnd platforms inp dt s = { integrate rnd inp dt s with onGround := false } := by
  have e : aliveUpdate rnd platforms inp dt s =
      collisionLoop rnd platforms { integrate rnd inp dt s with onGround := false } := rfl
  rcases collisionLoop_cases rnd platforms { integrate rnd inp dt s with onGround := false }
    with h | ⟨p, _, h⟩
  · rw [e, h]
  · rw [e, h] at h1
    exact absurd h1 (by simp)

/-- A frame that begins alive, in which nothing lands and the death block does not fire, ends
above the death threshold. -/
theorem airborne_above (rnd : ℚ → ℚ) (platforms : List Platform) (inp : Intents) (dt : ℚ)
    (s : Game) (hs : s.isDead = false)
    (h1 : (aliveUpdate rnd platforms inp dt s).onGround = false)
    (h2 : deathFires (aliveUpdate rnd platforms inp dt s) = false) :
    -5 < (integrate rnd inp dt s).spherePos.y := by
  have ha : (aliveUpdate rnd platforms inp dt s).isDead = false := by
    rw [aliveUpdate_isDead]; exact hs
  have hu := aliveUpdate_of_airborne rnd platforms inp dt s h1
  have h3 : ¬ (aliveUpdate rnd platforms inp dt s).spherePos.y ≤ -5 := by
    simpa [deathFires, ha] using h2
  rw [hu] at h3
  exact not_le.1 h3

/-- A velocity whose square is below `26 * 12` has magnitude at most `18`. -/
theorem velocity_bound (v y c : ℚ) (hy : -5 < y) (hc : c ≤ 7) (hq : y + v ^ 2 / 26 < c) :
    |v| ≤ 18 := by
  have h : v ^ 2 ≤ 18 ^ 2 := by linarith
  exact abs_le_of_sq_le_sq h (by norm_num)

/-- During a flight without landing or death, with frames of the same length between `1/512` s
and `1` s, the quantity `y + VelocityY^2 / (2 gravity)` stays below every bound `c <= 7` it
started at or below. -/
theorem flight_energy (rnd : ℚ → ℚ) (herr : RoundsWithin rnd) (platforms : List Platform)
    (dt : ℚ) (hdt1 : 1 / 512 ≤ dt) (hdt2 : dt ≤ 1) (c : ℚ) (hc : c ≤ 7) (keys : List Intents)
    (s : Game) (hs : s.isDead = false) (hg : s.onGround = false) (hv : |s.VelocityY| ≤ 18)
    (hy : -5 < s.spherePos.y) (hq : s.spherePos.y + s.VelocityY ^ 2 / 26 ≤ c)
    (hair : airborne rnd platforms (framesOf dt keys) s = true) :
    ∀ g ∈ trace rnd platforms (framesOf dt keys) s,
      g.spherePos.y + g.VelocityY ^ 2 / 26 < c := by
  induction keys generalizing s with
  | nil => intro g hg2; simp [framesOf, trace] at hg2
  | cons k rest ih =>
    simp only [framesOf, List.map_cons, airborne, Bool.and_eq_true, Bool.not_eq_true'] at hair
    obtain ⟨⟨h1, h2⟩, h3⟩ := hair
    have ht := airborne_tick rnd platforms k dt s hs h1 h2
    have hab := airborne_above rnd platforms k dt s hs h1 h2
    have hv1 : (integrate rnd k dt s).VelocityY = fsub rnd s.VelocityY (fmul rnd gravity dt) := by
      rw [integrate_VelocityY]
      simp [hg]
    have hy1 : (integrate rnd k dt s).spherePos.y =
        fadd rnd s.spherePos.y (fmul rnd (fsub rnd s.VelocityY (fmul rnd gravity dt)) dt) := by
      rw [integrate_y, hv1]
    have hsq : 0 ≤ s.VelocityY ^ 2 / 26 := by positivity
    have hstep := energy_step rnd herr dt s.VelocityY s.spherePos.y hdt1 hdt2 hv hy
      (by linarith)
    rw [← hy1, ← hv1] at hstep
    have tv : (tick rnd platforms k dt s).VelocityY = (integrate rnd k dt s).VelocityY := by
      rw [ht]
    have ty : (tick rnd platforms k dt s).spherePos.y = (integrate rnd k dt s).spherePos.y := by
      rw [ht]
    have hq1 : (tick rnd platforms k dt s).spherePos.y +
        (tick rnd platforms k dt s).VelocityY ^ 2 / 26 < c := by
      rw [tv, ty]; linarith
    have hrec := ih (tick rnd platforms k dt s)
      (by rw [ht]; exact (integrate_isDead rnd k dt s).trans hs) (by rw [ht])
      (velocity_bound _ _ c (by rw [ty]; exact hab) hc hq1)
      (by rw [ty]; exact hab) hq1.le (by simpa [framesOf] using h3)
    intro g hg2
    simp only [framesOf, List.map_cons, trace, List.mem_cons] at hg2
    rcases hg2 with h | h
    · rw [h]; exact hq1
    · exact hrec g (by simpa [framesOf] using h)

/-- One pass through the gravity lines (163-164) lowers the velocity by `13 dt`, up to `2^-18`,
and does not lower `y + VelocityY^2 / (2 gravity) - (dt/2 + 1/1024) VelocityY`, under the
conditions of `energy_step`. -/
theorem momentum_step (rnd : ℚ → ℚ) (herr : RoundsWithin rnd) (dt v y : ℚ)
    (hdt1 : 1 / 512 ≤ dt) (hdt2 : dt ≤ 1) (hv : |v| ≤ 18) (hy1 : -5 < y) (hy2 : y ≤ 7) :
    v - 13 * dt - 2 / 524288 ≤ fsub rnd v (fmul rnd gravity dt) ∧
    fsub rnd v (fmul rnd gravity dt) ≤ v - 13 * dt + 2 / 524288 ∧
    y + v ^ 2 / 26 - (dt / 2 + 1 / 1024) * v ≤
      fadd rnd y (fmul rnd (fsub rnd v (fmul rnd gravity dt)) dt) +
        (fsub rnd v (fmul rnd gravity dt)) ^ 2 / 26 -
        (dt / 2 + 1 / 1024) * fsub rnd v (fmul rnd gravity dt) := by
  obtain ⟨hv1, hv2⟩ := abs_le.1 hv
  simp only [fadd, fsub, fmul, gravity]
  have eg := abs_le.1 (herr (13 * dt) (by rw [abs_lt]; constructor <;> linarith))
  set g : ℚ := rnd (13 * dt) with hg
  have ev := abs_le.1 (herr (v - g) (by rw [abs_lt]; constructor <;> linarith))
  set w : ℚ := rnd (v - g) with hw
  have hwabs : |w| ≤ 32 := by rw [abs_le]; constructor <;> linarith
  obtain ⟨hw1, hw2⟩ := abs_le.1 hwabs
  have hwdt1 : -32 ≤ w * dt := by nlinarith
  have hwdt2 : w * dt ≤ 32 := by nlinarith
  have ep := abs_le.1 (herr (w * dt) (by rw [abs_lt]; constructor <;> linarith))
  set p : ℚ := rnd (w * dt) with hp
  have ey := abs_le.1 (herr (y + p) (by rw [abs_lt]; constructor <;> linarith))
  set z : ℚ := rnd (y + p) with hz
  have ha1 : 13 / 512 - 2 / 524288 ≤ v - w := by linarith
  have hae : |v - w - 13 * dt| ≤ 2 / 524288 := by rw [abs_le]; constructor <;> linarith
  have hprod : |w * (v - w - 13 * dt)| ≤ 32 * (2 / 524288) := by
    rw [abs_mul]
    exact mul_le_mul hwabs hae (abs_nonneg _) (by norm_num)
  have hdrop : |v - w| ≤ 14 := by rw [abs_le]; constructor <;> linarith
  have hprod2 : |(v - w) * (v - w - 13 * dt)| ≤ 14 * (2 / 524288) := by
    rw [abs_mul]
    exact mul_le_mul hdrop hae (abs_nonneg _) (by norm_num)
  have hp1 := (abs_le.1 hprod).2
  have hp2 := (abs_le.1 hprod2).2
  refine ⟨by linarith, by linarith, ?_⟩
  have hexp : v ^ 2 = w ^ 2 + 26 * (w * dt) + 2 * (w * (v - w - 13 * dt)) +
      ((v - w) * (v - w - 13 * dt) + 13 * (dt * v) - 13 * (w * dt)) := by
    ring
  rw [hexp]
  linarith [ey.1, ep.1]

/-- A flight that begins with a velocity above `13 dt` and ends with a velocity of at most `0`
has a frame, the first with velocity at most `13 dt`, that ends no lower than the value `b`
of `y + VelocityY^2 / (2 gravity) - (dt/2 + 1/1024) VelocityY` at its beginning, up to
`2^-18`. -/
theorem flight_apex (rnd : ℚ → ℚ) (herr : RoundsWithin rnd) (platforms : List Platform)
    (dt : ℚ) (hdt1 : 1 / 512 ≤ dt) (hdt2 : dt ≤ 1) (c b : ℚ) (hc : c ≤ 7)
    (keys : List Intents) (s : Game) (hs : s.isDead = false) (hg : s.onGround = false)
    (hv : |s.VelocityY| ≤ 18) (hy : -5 < s.spherePos.y)
    (hq : s.spherePos.y + s.VelocityY ^ 2 / 26 ≤ c)
    (hb : b ≤ s.spherePos.y + s.VelocityY ^ 2 / 26 - (dt / 2 + 1 / 1024) * s.VelocityY)
    (hrise : 13 * dt < s.VelocityY)
    (hair : airborne rnd platforms (framesOf dt keys) s = true)
    (hend : (run rnd platforms (framesOf dt keys) s).VelocityY ≤ 0) :
    ∃ g ∈ trace rnd platforms (framesOf dt keys) s, b - 2 / 524288 ≤ g.spherePos.y := by
  induction keys generalizing s with
  | nil =>
    simp only [framesOf, List.map_nil, run] at hend
    linarith
  | cons k rest ih =>
    simp only [framesOf, List.map_cons, airborne, Bool.and_eq_true, Bool.not_eq_true'] at hair
    obtain ⟨⟨h1, h2⟩, h3⟩ := hair
    have ht := airborne_tick rnd platforms k dt s hs h1 h2
    have hab := airborne_above rnd platforms k dt s hs h1 h2
    have hv1 : (integrate rnd k dt s).VelocityY = fsub rnd s.VelocityY (fmul rnd gravity dt) := by
      rw [integrate_VelocityY]
      simp [hg]
    have hy1 : (integrate rnd k dt s).spherePos.y =
        fadd rnd s.spherePos.y (fmul rnd (fsub rnd s.VelocityY (fmul rnd gravity dt)) dt) := by
      rw [integrate_y, hv1]
    have hsq : 0 ≤ s.VelocityY ^ 2 / 26 := by positivity
    have hstep := energy_step rnd herr dt s.VelocityY s.spherePos.y hdt1 hdt2 hv hy
      (by linarith)
    obtain ⟨m1, _, m3⟩ := momentum_step rnd herr dt s.VelocityY s.spherePos.y hdt1 hdt2 hv hy
      (by linarith)
    rw [← hy1, ← hv1] at hstep m3
    rw [← hv1] at m1
    have tv : (tick rnd platforms k dt s).VelocityY = (integrate rnd k dt s).VelocityY := by
      rw [ht]
    have ty : (tick rnd platforms k dt s).spherePos.y = (integrate rnd k dt s).spherePos.y := by
      rw [ht]
    rw [← tv, ← ty] at hstep m3
    rw [← tv] at m1
    rw [← ty] at hab
    by_cases hap : (tick rnd platforms k dt s).VelocityY ≤ 13 * dt
    · refine ⟨tick rnd platforms k dt s, by simp [framesOf, trace], ?_⟩
      have hlo : -(2 / 524288) ≤ (tick rnd platforms k dt s).VelocityY := by linarith
      rcases le_total 0 (tick rnd platforms k dt s).VelocityY with h0 | h0
      · nlinarith [mul_nonneg h0 (sub_nonneg.2 hap)]
      · nlinarith [mul_nonneg (neg_nonneg.2 h0) (add_nonneg (neg_nonneg.2 h0)
          (by linarith : (0 : ℚ) ≤ 2 / 524288 + (tick rnd platforms k dt s).VelocityY))]
    · obtain ⟨g, hg1, hg2⟩ := ih (tick rnd platforms k dt s)
        (by rw [ht]; exact (integrate_isDead rnd k dt s).trans hs) (by rw [ht])
        (velocity_bound _ _ c hab hc (by linarith)) hab (by linarith) (by linarith)
        (not_le.1 hap) (by simpa [framesOf] using h3) (by simpa [framesOf, run] using hend)
      exact ⟨g, by
        simp only [framesOf, List.map_cons, trace, List.mem_cons]
        exact Or.inr (by simpa [framesOf] using hg1), hg2⟩

/-- A flight without landing or death runs as it would without platforms. -/
theorem airborne_run_eq (rnd : ℚ → ℚ) (platforms : List Platform)
    (frames : List (Intents × ℚ)) (s : Game) (hs : s.isDead = false)
    (hair : airborne rnd platforms frames s = true) :
    run rnd platforms frames s = run rnd [] frames s := by
  induction frames generalizing s with
  | nil => rfl
  | cons f rest ih =>
    obtain ⟨inp, dt⟩ := f
    simp only [airborne, Bool.and_eq_true, Bool.not_eq_true'] at hair
    obtain ⟨⟨h1, h2⟩, h3⟩ := hair
    have ht := airborne_tick rnd platforms inp dt s hs h1 h2
    have hu := aliveUpdate_of_airborne rnd platforms inp dt s h1
    have e0 : aliveUpdate rnd [] inp dt s =
        { integrate rnd inp dt s with onGround := false } := rfl
    have ht0 := airborne_tick rnd [] inp dt s hs (by rw [e0]) (by rw [e0, ← hu]; exact h2)
    have hrec := ih (tick rnd platforms inp dt s)
      (by rw [ht]; exact (integrate_isDead rnd inp dt s).trans hs) h3
    show run rnd platforms rest (tick rnd platforms inp dt s) =
      run rnd [] rest (tick rnd [] inp dt s)
    rw [hrec, ht, ht0]

/-! ## Claims -/

/-- Claim C1, as stated, fails in a frame that dies and respawns at once.  The sphere is at rest
beside the spawn platform and the frame lasts two seconds: no platform passes the landing test
on the integrated state (`y = -50.5`, `VelocityY = -26`), yet the frame ends with `onGround` true,
`VelocityY = 0` and `y = 1.5`, because the death block and then the respawn block ran. -/
theorem same_frame_respawn_overrides_collision :
    besideSpawn.isDead = false ∧
    (∀ p ∈ sampleLevel, ¬ SpecLanding f32 (integrate f32 noKeys 2 besideSpawn).VelocityY
      (integrate f32 noKeys 2 besideSpawn).spherePos p) ∧
    (integrate f32 noKeys 2 besideSpawn).spherePos.y = -101 / 2 ∧
    (integrate f32 noKeys 2 besideSpawn).VelocityY = -26 ∧
    (tick f32 sampleLevel noKeys 2 besideSpawn).spherePos.y = 3 / 2 ∧
    (tick f32 sampleLevel noKeys 2 besideSpawn).VelocityY = 0 ∧
    (tick f32 sampleLevel noKeys 2 besideSpawn).onGround = true := by
  decide!

/-- Claim C1 (amended): in every frame that begins alive and does not respawn at once (the
respawn block runs in such a frame exactly when the height after the collision loop is at most
`-5` and `0 + dt` exceeds `1.0`): if some platform passes the landing test on the integrated
state, then at the end of the frame `spherePos.y` is `Top(k) + radius` for the lowest index `k`
that passes, `VelocityY` is `0` and `onGround` is true; if none passes, `y` and `VelocityY` are
the integrated values and `onGround` is false. -/
theorem landing_snaps_to_first_match (rnd : ℚ → ℚ) (platforms : List Platform) (inp : Intents)
    (dt : ℚ) (s : Game) (hs : s.isDead = false)
    (hr : ¬ ((aliveUpdate rnd platforms inp dt s).spherePos.y ≤ -5 ∧ fadd rnd 0 dt > 1)) :
    (∀ (k : Nat) (hk : k < platforms.length),
      SpecLanding rnd (integrate rnd inp dt s).VelocityY (integrate rnd inp dt s).spherePos
        platforms[k] →
      (∀ (j : Nat) (hj : j < k), ¬ SpecLanding rnd (integrate rnd inp dt s).VelocityY
        (integrate rnd inp dt s).spherePos platforms[j]) →
      (tick rnd platforms inp dt s).spherePos.y = fadd rnd (platforms[k].Top rnd) sphereRadius ∧
      (tick rnd platforms inp dt s).VelocityY = 0 ∧
      (tick rnd platforms inp dt s).onGround = true) ∧
    ((∀ p ∈ platforms, ¬ SpecLanding rnd (integrate rnd inp dt s).VelocityY
        (integrate rnd inp dt s).spherePos p) →
      (tick rnd platforms inp dt s).spherePos.y = (integrate rnd inp dt s).spherePos.y ∧
      (tick rnd platforms inp dt s).VelocityY = (integrate rnd inp dt s).VelocityY ∧
      (tick rnd platforms inp dt s).onGround = false) := by
  have hno : respawnFires rnd dt (deathStep (aliveUpdate rnd platforms inp dt s)) = false := by
    cases h : respawnFires rnd dt (deathStep (aliveUpdate rnd platforms inp dt s)) with
    | false => rfl
    | true => exact absurd ((alive_respawn_iff rnd platforms inp dt s hs).1 h) hr
  obtain ⟨hpos, hvel, hgr⟩ := no_respawn_keeps rnd platforms dt _ hno
  rw [tick_alive rnd platforms inp dt s hs, hpos, hvel, hgr]
  constructor
  · intro k hk hit hmiss
    exact aliveUpdate_landing rnd platforms inp dt s k hk hit hmiss
  · intro hnone
    rw [aliveUpdate_no_landing rnd platforms inp dt s hnone]
    exact ⟨rfl, rfl, rfl⟩

/-- Instance of `landing_snaps_to_first_match`: at spawn on `sampleLevel`, no key, a frame of
`1/64` s; platform 0 is the first to pass the test and the sphere stays on it at `y = 1.5`. -/
theorem landing_snaps_to_first_match_witness :
    (spawnState.isDead = false ∧
      ¬ ((aliveUpdate f32 sampleLevel noKeys (1 / 64) spawnState).spherePos.y ≤ -5 ∧
          fadd f32 0 (1 / 64) > 1)) ∧
    ((tick f32 sampleLevel noKeys (1 / 64) spawnState).spherePos.y =
        fadd f32 (platform0.Top f32) sphereRadius ∧
      (tick f32 sampleLevel noKeys (1 / 64) spawnState).VelocityY = 0 ∧
      (tick f32 sampleLevel noKeys (1 / 64) spawnState).onGround = true) :=
  have h : spawnState.isDead = false ∧
      ¬ ((aliveUpdate f32 sampleLevel noKeys (1 / 64) spawnState).spherePos.y ≤ -5 ∧
          fadd f32 0 (1 / 64) > 1) := by decide!
  ⟨h, (landing_snaps_to_first_match f32 sampleLevel noKeys (1 / 64) spawnState h.1 h.2).1 0
      (by decide!) (by decide!) (fun j hj => absurd hj (Nat.not_lt_zero j))⟩

/-- Claim C2: the collision resolver never sets `onGround` true while the vertical velocity is
positive.  For every frame that begins alive, whatever the position and the platforms:
(1) if the velocity after the jump check and gravity integration is positive, the collision
loop leaves `onGround` false; (2) whenever `onGround` is true at the end of the frame,
`VelocityY` is `0`; (3) with a monotone rounding that keeps `0`, `1` and `13` (real arithmetic
and IEEE rounding both do) and a starting velocity of at most `13` (it never exceeds
`jumpForce = 10.5` in play), a positive integrated velocity gives `onGround` false at the end of
the whole frame. -/
theorem ground_never_with_rising_velocity (rnd : ℚ → ℚ) (platforms : List Platform)
    (inp : Intents) (dt : ℚ) (s : Game) (hs : s.isDead = false) :
    ((integrate rnd inp dt s).VelocityY > 0 →
        (aliveUpdate rnd platforms inp dt s).onGround = false) ∧
    ((tick rnd platforms inp dt s).onGround = true →
        (tick rnd platforms inp dt s).VelocityY = 0) ∧
    (Monotone rnd → rnd 0 = 0 → rnd 1 = 1 → rnd 13 = 13 → s.VelocityY ≤ gravity →
        (integrate rnd inp dt s).VelocityY > 0 →
        (tick rnd platforms inp dt s).onGround = false) := by
  refine ⟨(aliveUpdate_ground rnd platforms inp dt s).2,
    tick_ground_zero_velocity rnd platforms inp dt s hs, ?_⟩
  intro hmono h0 h1 h13 hv hpos
  have hshort := rising_frame_is_short rnd inp dt s hmono h0 h1 h13 hv hpos
  have hno : respawnFires rnd dt (deathStep (aliveUpdate rnd platforms inp dt s)) = false := by
    cases h : respawnFires rnd dt (deathStep (aliveUpdate rnd platforms inp dt s)) with
    | false => rfl
    | true =>
      have := ((alive_respawn_iff rnd platforms inp dt s hs).1 h).2
      exact absurd this (not_lt.2 hshort)
  rw [tick_alive rnd platforms inp dt s hs, (no_respawn_keeps rnd platforms dt _ hno).2.2]
  exact (aliveUpdate_ground rnd platforms inp dt s).2 hpos

/-- Instance of `ground_never_with_rising_velocity`: a jump from spawn in a frame of `1/64` s
integrates to a positive velocity and the collision loop leaves `onGround` false. -/
theorem ground_never_with_rising_velocity_witness :
    spawnState.isDead = false ∧
    (integrate f32 jumpKey (1 / 64) spawnState).VelocityY > 0 ∧
    (aliveUpdate f32 sampleLevel jumpKey (1 / 64) spawnState).onGround = false :=
  have h : spawnState.isDead = false ∧
      (integrate f32 jumpKey (1 / 64) spawnState).VelocityY > 0 := by decide!
  ⟨h.1, h.2,
   (ground_never_with_rising_velocity f32 sampleLevel jumpKey (1 / 64) spawnState h.1).1 h.2⟩

/-- Claim C3: platform 0 of every generated level is the spawn platform centred at the origin,
and a respawn puts the sphere at `(0, platforms[0].Top() + sphereRadius, 0)` with
`VelocityY = 0`, `onGround` true, `isDead` false and `currentScore = 0`, for every prior state,
keys and draws.  The respawn is a frame in which `isDead` holds and `deathTimer + dt > 1.0` when
the respawn block is reached: a frame that begins dead with such a timer
(`respawn_condition_of_dead`), or a frame that dies with `0 + dt > 1.0`. -/
theorem respawn_restores_spawn (rnd : ℚ → ℚ) (gapDraw offDraw : Nat → Int) (inp : Intents)
    (dt : ℚ) (s : Game)
    (hr : respawnFires rnd dt
      (deathStep (aliveBlock rnd (generate rnd gapDraw offDraw) inp dt s)) = true) :
    (generate rnd gapDraw offDraw).head? = some platform0 ∧
    platform0.platformCenter = ⟨0, 0, 0⟩ ∧
    (tick rnd (generate rnd gapDraw offDraw) inp dt s).spherePos =
      ⟨0, fadd rnd (platform0.Top rnd) sphereRadius, 0⟩ ∧
    (tick rnd (generate rnd gapDraw offDraw) inp dt s).VelocityY = 0 ∧
    (tick rnd (generate rnd gapDraw offDraw) inp dt s).onGround = true ∧
    (tick rnd (generate rnd gapDraw offDraw) inp dt s).isDead = false ∧
    (tick rnd (generate rnd gapDraw offDraw) inp dt s).currentScore = 0 := by
  have hd : (deathStep (aliveBlock rnd (generate rnd gapDraw offDraw) inp dt s)).isDead
      = true := by
    simp only [respawnFires, Bool.and_eq_true] at hr
    exact hr.1
  have ht : fadd rnd
      (deathStep (aliveBlock rnd (generate rnd gapDraw offDraw) inp dt s)).deathTimer dt > 1 := by
    simp only [respawnFires, Bool.and_eq_true, decide_eq_true_eq] at hr
    exact hr.2
  have e : tick rnd (generate rnd gapDraw offDraw) inp dt s =
      respawnStep rnd (generate rnd gapDraw offDraw) dt
        (deathStep (aliveBlock rnd (generate rnd gapDraw offDraw) inp dt s)) := rfl
  rw [e, respawnStep_of_fire rnd _ dt _ hd ht]
  exact ⟨rfl, rfl, rfl, rfl, rfl, rfl, rfl⟩

/-- Instance of `respawn_restores_spawn`: the dead run `fallenState` (timer `31/32`) respawns in
a frame of `1/16` s. -/
theorem respawn_restores_spawn_witness :
    (fallenState.isDead = true ∧ fadd f32 fallenState.deathTimer (1 / 16) > 1) ∧
    (tick f32 sampleLevel upKey (1 / 16) fallenState).spherePos =
      ⟨0, fadd f32 (platform0.Top f32) sphereRadius, 0⟩ ∧
    (tick f32 sampleLevel upKey (1 / 16) fallenState).currentScore = 0 :=
  have h : fallenState.isDead = true ∧ fadd f32 fallenState.deathTimer (1 / 16) > 1 := by
    decide!
  have hr : respawnFires f32 (1 / 16)
      (deathStep (aliveBlock f32 (generate f32 sampleGap sampleOff) upKey (1 / 16) fallenState))
      = true :=
    (respawn_condition_of_dead f32 (generate f32 sampleGap sampleOff) upKey (1 / 16) fallenState
      h.1).2 h.2
  ⟨h,
   (respawn_restores_spawn f32 sampleGap sampleOff upKey (1 / 16) fallenState hr).2.2.1,
   (respawn_restores_spawn f32 sampleGap sampleOff upKey (1 / 16) fallenState hr).2.2.2.2.2.2⟩

/-- Claim C4 fails on the code in binary32, at index 43.  `minGap` is `8.149999618530273`
(`8.15` is not a binary32 number and the sum `6.0f + 2.15f` is a tie that rounds to even),
`minGap * 100` rounds to `814.99993896484375` and its conversion to `int` gives `814`, so
`GetRandomValue(814, 1522)` can return `814`.  With that draw the spacing between platforms 42
and 43 is below both the float `minGap` and the real bound `6 + (43/40) 2 = 8.15`. -/
theorem gap_below_minimum_at_43 :
    ValidDraws f32 tightGap sampleOff ∧
    minGap f32 43 = 4272947 / 524288 ∧
    fmul f32 (minGap f32 43) 100 = 13352959 / 16384 ∧
    gapLo f32 43 = 814 ∧
    tightGap 43 = 814 ∧
    centerZ tightLevel 43 - centerZ tightLevel 42 < minGap f32 43 ∧
    centerZ tightLevel 43 - centerZ tightLevel 42 < 6 + ((43 : ℚ) / 40) * 2 := by
  decide!

/-- Claim C5, as stated, fails: the frame time of the transition frame itself is added to
`deathTimer` (line 199 runs in the frame in which line 193 reset the timer).  (1) A falling
sphere whose frame lasts two seconds dies and is alive again at the end of that same frame.
(2) A sphere that dies in a frame of `1/2` s ends that frame dead with `deathTimer = 1/2`, and a
following frame of `3/4` s respawns it although only `3/4` s passed since the transition. -/
theorem transition_frame_counts_towards_delay :
    (besideSpawn.isDead = false ∧
      (aliveUpdate f32 sampleLevel noKeys 2 besideSpawn).spherePos.y ≤ -5 ∧
      (tick f32 sampleLevel noKeys 2 besideSpawn).isDead = false) ∧
    ((run f32 sampleLevel [(noKeys, 1 / 2)] besideSpawn).isDead = false ∧
      (aliveUpdate f32 sampleLevel noKeys (1 / 2)
        (run f32 sampleLevel [(noKeys, 1 / 2)] besideSpawn)).spherePos.y ≤ -5 ∧
      (run f32 sampleLevel [(noKeys, 1 / 2), (noKeys, 1 / 2)] besideSpawn).isDead = true ∧
      (run f32 sampleLevel [(noKeys, 1 / 2), (noKeys, 1 / 2)] besideSpawn).deathTimer = 1 / 2 ∧
      (run f32 sampleLevel [(noKeys, 1 / 2), (noKeys, 1 / 2), (noKeys, 3 / 4)]
        besideSpawn).isDead = false) := by
  decide!

/-- Claim C5 (amended): the delay is measured by `deathTimer`, which is `0` at the transition
and then accumulates the frame time of the transition frame itself and of every following
frame.  If a frame that begins alive performs the transition (height at most `-5` after the
alive block), then at its end `deathTimer = 0 + dt`, and the run is dead exactly if that is at
most `1.0`; from then on the run stays dead, the sphere where it is, through every frame at
whose end the accumulated timer is at most `1.0`, and it is alive again at the end of the first
frame in which the timer exceeds `1.0`. -/
theorem dead_until_timer_exceeds_delay (rnd : ℚ → ℚ) (platforms : List Platform)
    (inp : Intents) (dt : ℚ) (s : Game) (hs : s.isDead = false)
    (hy : (aliveUpdate rnd platforms inp dt s).spherePos.y ≤ -5) :
    (tick rnd platforms inp dt s).deathTimer = fadd rnd 0 dt ∧
    ((tick rnd platforms inp dt s).isDead = true ↔ fadd rnd 0 dt ≤ 1) ∧
    (∀ frames : List (Intents × ℚ), fadd rnd 0 dt ≤ 1 → withinDelay rnd (fadd rnd 0 dt) frames →
      (run rnd platforms frames (tick rnd platforms inp dt s)).isDead = true ∧
      (run rnd platforms frames (tick rnd platforms inp dt s)).deathTimer =
        timerAfter rnd (fadd rnd 0 dt) frames ∧
      (run rnd platforms frames (tick rnd platforms inp dt s)).spherePos =
        (aliveUpdate rnd platforms inp dt s).spherePos) ∧
    (∀ (frames : List (Intents × ℚ)) (inp2 : Intents) (dt2 : ℚ),
      fadd rnd 0 dt ≤ 1 → withinDelay rnd (fadd rnd 0 dt) frames →
      fadd rnd (timerAfter rnd (fadd rnd 0 dt) frames) dt2 > 1 →
      (run rnd platforms (frames ++ [(inp2, dt2)]) (tick rnd platforms inp dt s)).isDead
        = false) := by
  have ha : (aliveUpdate rnd platforms inp dt s).isDead = false := by
    rw [aliveUpdate_isDead]; exact hs
  have hd := deathStep_of_fire _ ha hy
  have htick : tick rnd platforms inp dt s = respawnStep rnd platforms dt
      { aliveUpdate rnd platforms inp dt s with
        isDead := true, deathTimer := 0,
        lastScore := (aliveUpdate rnd platforms inp dt s).currentScore } := by
    rw [tick_alive rnd platforms inp dt s hs, hd]
  have hwait : fadd rnd 0 dt ≤ 1 → tick rnd platforms inp dt s =
      { aliveUpdate rnd platforms inp dt s with
        isDead := true, deathTimer := fadd rnd 0 dt,
        lastScore := (aliveUpdate rnd platforms inp dt s).currentScore } := by
    intro h
    rw [htick, respawnStep_of_wait rnd platforms dt _ rfl h]
  refine ⟨?_, ?_, ?_, ?_⟩
  · by_cases h : fadd rnd 0 dt ≤ 1
    · rw [hwait h]
    · rw [htick, respawnStep_of_fire rnd platforms dt _ rfl (not_le.1 h)]
  · constructor
    · intro hdead
      by_contra h
      rw [htick, respawnStep_of_fire rnd platforms dt _ rfl (not_le.1 h)] at hdead
      exact absurd hdead (by simp)
    · intro h
      rw [hwait h]
  · intro frames h hw
    have hdead : (tick rnd platforms inp dt s).isDead = true := by rw [hwait h]
    have htimer : (tick rnd platforms inp dt s).deathTimer = fadd rnd 0 dt := by rw [hwait h]
    rw [dead_frames_keep_dead rnd platforms frames _ hdead (by rw [htimer]; exact hw)]
    refine ⟨hdead, by rw [htimer], ?_⟩
    show (tick rnd platforms inp dt s).spherePos = _
    rw [hwait h]
  · intro frames inp2 dt2 h hw hex
    have hdead : (tick rnd platforms inp dt s).isDead = true := by rw [hwait h]
    have htimer : (tick rnd platforms inp dt s).deathTimer = fadd rnd 0 dt := by rw [hwait h]
    exact dead_run_respawns rnd platforms frames _ inp2 dt2 hdead (by rw [htimer]; exact hw)
      (by rw [htimer]; exact hex)

/-- Instance of `dead_until_timer_exceeds_delay`: from `besideSpawn` one frame of `1/2` s has
been played; the next frame of `1/2` s performs the transition and ends dead with the timer at
`1/2`. -/
theorem dead_until_timer_exceeds_delay_witness :
    ((run f32 sampleLevel [(noKeys, 1 / 2)] besideSpawn).isDead = false ∧
      (aliveUpdate f32 sampleLevel noKeys (1 / 2)
        (run f32 sampleLevel [(noKeys, 1 / 2)] besideSpawn)).spherePos.y ≤ -5) ∧
    (tick f32 sampleLevel noKeys (1 / 2)
      (run f32 sampleLevel [(noKeys, 1 / 2)] besideSpawn)).deathTimer = fadd f32 0 (1 / 2) :=
  have h : (run f32 sampleLevel [(noKeys, 1 / 2)] besideSpawn).isDead = false ∧
      (aliveUpdate f32 sampleLevel noKeys (1 / 2)
        (run f32 sampleLevel [(noKeys, 1 / 2)] besideSpawn)).spherePos.y ≤ -5 := by decide!
  ⟨h, (dead_until_timer_exceeds_delay f32 sampleLevel noKeys (1 / 2)
      (run f32 sampleLevel [(noKeys, 1 / 2)] besideSpawn) h.1 h.2).1⟩

/-- Claim C6: the transition from alive to dead is latched.  (1) The death block fires in a
frame exactly when the frame begins alive and the height after the alive block is at most `-5`.
(2) In such a frame `lastScore` becomes the `currentScore` of that frame (the forward coordinate
the frame began with) and `deathTimer` is reset to `0` before the frame time is added.  (3) In a
frame that begins dead the block does not fire, `lastScore` is kept, and the timer goes on from
its old value.  (4) In a frame that begins alive and stays above `-5` nothing of this changes. -/
theorem death_transition_is_latched (rnd : ℚ → ℚ) (platforms : List Platform) (inp : Intents)
    (dt : ℚ) (s : Game) :
    (deathFires (aliveBlock rnd platforms inp dt s) = true ↔
      (s.isDead = false ∧ (aliveUpdate rnd platforms inp dt s).spherePos.y ≤ -5)) ∧
    (s.isDead = false → (aliveUpdate rnd platforms inp dt s).spherePos.y ≤ -5 →
      (tick rnd platforms inp dt s).lastScore =
        (aliveBlock rnd platforms inp dt s).currentScore ∧
      (aliveBlock rnd platforms inp dt s).currentScore = s.spherePos.z ∧
      (deathStep (aliveBlock rnd platforms inp dt s)).deathTimer = 0 ∧
      (tick rnd platforms inp dt s).deathTimer = fadd rnd 0 dt) ∧
    (s.isDead = true →
      deathFires (aliveBlock rnd platforms inp dt s) = false ∧
      (tick rnd platforms inp dt s).lastScore = s.lastScore ∧
      (tick rnd platforms inp dt s).deathTimer = fadd rnd s.deathTimer dt) ∧
    (s.isDead = false → ¬ (aliveUpdate rnd platforms inp dt s).spherePos.y ≤ -5 →
      (tick rnd platforms inp dt s).lastScore = s.lastScore ∧
      (tick rnd platforms inp dt s).deathTimer = s.deathTimer ∧
      (tick rnd platforms inp dt s).isDead = false) := by
  obtain ⟨hcs, hls, hdt⟩ := aliveUpdate_bookkeeping rnd platforms inp dt s
  refine ⟨?_, ?_, ?_, ?_⟩
  · cases hs : s.isDead with
    | true => simp [aliveBlock, deathFires, hs]
    | false =>
      have ha : (aliveUpdate rnd platforms inp dt s).isDead = false := by
        rw [aliveUpdate_isDead]; exact hs
      simp [aliveBlock, deathFires, hs, ha]
  · intro hs hy
    have ha : (aliveUpdate rnd platforms inp dt s).isDead = false := by
      rw [aliveUpdate_isDead]; exact hs
    have hb : aliveBlock rnd platforms inp dt s = aliveUpdate rnd platforms inp dt s := by
      simp [aliveBlock, hs]
    rw [hb, tick_alive rnd platforms inp dt s hs, deathStep_of_fire _ ha hy]
    refine ⟨?_, hcs, rfl, ?_⟩
    · by_cases h : fadd rnd 0 dt ≤ 1
      · rw [respawnStep_of_wait rnd platforms dt _ rfl h]
      · rw [respawnStep_of_fire rnd platforms dt _ rfl (not_le.1 h)]
    · by_cases h : fadd rnd 0 dt ≤ 1
      · rw [respawnStep_of_wait rnd platforms dt _ rfl h]
      · rw [respawnStep_of_fire rnd platforms dt _ rfl (not_le.1 h)]
  · intro hs
    refine ⟨by simp [aliveBlock, deathFires, hs], ?_, ?_⟩
    · rw [tick_dead rnd platforms inp dt s hs]
      by_cases h : fadd rnd s.deathTimer dt ≤ 1
      · rw [respawnStep_of_wait rnd platforms dt _ hs h]
      · rw [respawnStep_of_fire rnd platforms dt _ hs (not_le.1 h)]
    · rw [tick_dead rnd platforms inp dt s hs]
      by_cases h : fadd rnd s.deathTimer dt ≤ 1
      · rw [respawnStep_of_wait rnd platforms dt _ hs h]
      · rw [respawnStep_of_fire rnd platforms dt _ hs (not_le.1 h)]
  · intro hs hy
    have ha : (aliveUpdate rnd platforms inp dt s).isDead = false := by
      rw [aliveUpdate_isDead]; exact hs
    rw [tick_alive rnd platforms inp dt s hs, deathStep_of_high _ hy,
      respawnStep_of_alive rnd platforms dt _ ha]
    exact ⟨hls, hdt, ha⟩

/-- Claim C7: while dead nothing but the death timer advances.  A frame that begins dead and
does not respawn (`deathTimer + dt <= 1.0`) returns the state it was given with `deathTimer`
replaced by `deathTimer + dt`, whatever the keys and the platforms: position, velocity,
`onGround`, both rotations, both scores and `isDead` are unchanged. -/
theorem dead_frame_only_advances_timer (rnd : ℚ → ℚ) (platforms : List Platform)
    (inp : Intents) (dt : ℚ) (s : Game) (hs : s.isDead = true)
    (ht : fadd rnd s.deathTimer dt ≤ 1) :
    tick rnd platforms inp dt s = { s with deathTimer := fadd rnd s.deathTimer dt } := by
  rw [tick_dead rnd platforms inp dt s hs, respawnStep_of_wait rnd platforms dt s hs ht]

/-- Instance of `dead_frame_only_advances_timer`: the dead run `fallenState` (timer `31/32`),
all keys of interest pressed, a frame of `1/64` s. -/
theorem dead_frame_only_advances_timer_witness :
    (fallenState.isDead = true ∧ fadd f32 fallenState.deathTimer (1 / 64) ≤ 1) ∧
    tick f32 sampleLevel ⟨true, true, false, true, false⟩ (1 / 64) fallenState =
      { fallenState with deathTimer := fadd f32 fallenState.deathTimer (1 / 64) } :=
  have h : fallenState.isDead = true ∧ fadd f32 fallenState.deathTimer (1 / 64) ≤ 1 := by
    decide!
  ⟨h, dead_frame_only_advances_timer f32 sampleLevel ⟨true, true, false, true, false⟩ (1 / 64)
     fallenState h.1 h.2⟩

/-- Claim C8, as stated, fails: `currentScore` is assigned before the movement of the frame.
(1) From spawn, one frame of `1/64` s with the forward key down begins and ends alive with
`z = 7/64` and `currentScore = 0`.  (2) From spawn (`z = 0`), five frames moving forward by `1`
each: the fifth brings `z` to exactly `5`, the run is alive, and `currentScore` is `4`. -/
theorem score_lags_by_one_frame :
    (spawnState.isDead = false ∧
      (tick f32 sampleLevel upKey (1 / 64) spawnState).isDead = false ∧
      (tick f32 sampleLevel upKey (1 / 64) spawnState).spherePos.z = 7 / 64 ∧
      (tick f32 sampleLevel upKey (1 / 64) spawnState).currentScore = 0) ∧
    (spawnState.spherePos.z = 0 ∧
      (run f32 sampleLevel (fiveForward.take 4) spawnState).isDead = false ∧
      (run f32 sampleLevel (fiveForward.take 4) spawnState).spherePos.z = 4 ∧
      (run f32 sampleLevel fiveForward spawnState).isDead = false ∧
      (run f32 sampleLevel fiveForward spawnState).spherePos.z = 5 ∧
      (run f32 sampleLevel fiveForward spawnState).currentScore = 4) := by
  decide!

/-- Claim C8 (amended): while alive, `currentScore` is the forward coordinate the frame began
with.  At the end of every frame that begins and ends alive, `currentScore` equals
`spherePos.z` as it stood at the start of that frame, before the movement of the frame (or `0`,
the respawn value, when the frame died and respawned at once); when neither the forward nor the
back key is down, that is also `spherePos.z` after the alive block. -/
theorem score_is_forward_coordinate_at_frame_start (rnd : ℚ → ℚ) (platforms : List Platform)
    (inp : Intents) (dt : ℚ) (s : Game) (hs : s.isDead = false)
    (hend : (tick rnd platforms inp dt s).isDead = false) :
    (tick rnd platforms inp dt s).currentScore =
      (if (aliveUpdate rnd platforms inp dt s).spherePos.y ≤ -5 then 0 else s.spherePos.z) ∧
    (inp.keyUp = false → inp.keyDown = false →
      (aliveUpdate rnd platforms inp dt s).spherePos.z = s.spherePos.z) := by
  have ha : (aliveUpdate rnd platforms inp dt s).isDead = false := by
    rw [aliveUpdate_isDead]; exact hs
  constructor
  · by_cases hy : (aliveUpdate rnd platforms inp dt s).spherePos.y ≤ -5
    · rw [if_pos hy]
      rw [tick_alive rnd platforms inp dt s hs, deathStep_of_fire _ ha hy] at hend ⊢
      by_cases h : fadd rnd 0 dt ≤ 1
      · rw [respawnStep_of_wait rnd platforms dt _ rfl h] at hend
        exact absurd hend (by simp)
      · rw [respawnStep_of_fire rnd platforms dt _ rfl (not_le.1 h)]
    · rw [if_neg hy, tick_alive rnd platforms inp dt s hs, deathStep_of_high _ hy,
        respawnStep_of_alive rnd platforms dt _ ha]
      exact (aliveUpdate_bookkeeping rnd platforms inp dt s).1
  · intro hu hd
    have e : aliveUpdate rnd platforms inp dt s =
        collisionLoop rnd platforms { integrate rnd inp dt s with onGround := false } := rfl
    have hz : (integrate rnd inp dt s).spherePos.z = s.spherePos.z := by
      simp only [integrate, gravityStep, keyRightStep, keyLeftStep, keyDownStep, keyUpStep,
        jumpStep, scoreStep, hu, hd, Bool.false_eq_true, if_false]
      split_ifs <;> rfl
    rw [e]
    rcases collisionLoop_cases rnd platforms { integrate rnd inp dt s with onGround := false }
      with h | ⟨p, _, h⟩
    · rw [h]; exact hz
    · rw [h]; exact hz

/-- Instance of `score_is_forward_coordinate_at_frame_start`: the fifth of the five forward
frames begins at `z = 4` and ends alive at `z = 5` with `currentScore = 4`. -/
theorem score_is_forward_coordinate_at_frame_start_witness :
    ((run f32 sampleLevel (fiveForward.take 4) spawnState).isDead = false ∧
      (tick f32 sampleLevel upKey (f32 (1 / 7))
        (run f32 sampleLevel (fiveForward.take 4) spawnState)).isDead = false) ∧
    (tick f32 sampleLevel upKey (f32 (1 / 7))
        (run f32 sampleLevel (fiveForward.take 4) spawnState)).currentScore =
      (if (aliveUpdate f32 sampleLevel upKey (f32 (1 / 7))
          (run f32 sampleLevel (fiveForward.take 4) spawnState)).spherePos.y ≤ -5 then 0
        else (run f32 sampleLevel (fiveForward.take 4) spawnState).spherePos.z) :=
  have h : (run f32 sampleLevel (fiveForward.take 4) spawnState).isDead = false ∧
      (tick f32 sampleLevel upKey (f32 (1 / 7))
        (run f32 sampleLevel (fiveForward.take 4) spawnState)).isDead = false := by decide!
  ⟨h, (score_is_forward_coordinate_at_frame_start f32 sampleLevel upKey (f32 (1 / 7))
      (run f32 sampleLevel (fiveForward.take 4) spawnState) h.1 h.2).1⟩

/-- Claim C9, as stated, fails: with `sphereRadius = 1`, the top of platform 0 is `0.5`, not
`1.0` (its centre is `planeCenter`, at height `0`, and its height is `1.0`), and the spawn
height is `1.5`, not `2.0`. -/
theorem spawn_platform_top_is_not_one :
    sphereRadius = 1 ∧
    (spawnPlatform sampleLevel).Top f32 = 1 / 2 ∧
    (spawnPlatform sampleLevel).Top f32 ≠ 1 ∧
    (initial f32 sampleLevel).spherePos.y = 3 / 2 ∧
    (initial f32 sampleLevel).spherePos.y ≠ 2 := by
  decide!

/-- Claim C9 (amended): in the configuration of the program (`sphereRadius = 1`, platform 0
centred at height `0` with height `1`), for every generated level and every rounding that keeps
`1/2` and `3/2` (real arithmetic and binary32 do), the top of platform 0 is `0.5` and the spawn
height, which is also the respawn height `platforms[0].Top() + sphereRadius`, is `1.5`. -/
theorem spawn_height_is_three_halves (rnd : ℚ → ℚ) (gapDraw offDraw : Nat → Int)
    (h1 : rnd (1 / 2) = 1 / 2) (h2 : rnd (3 / 2) = 3 / 2) :
    sphereRadius = 1 ∧
    platform0.platformCenter.y = 0 ∧ platform0.platformHeight = 1 ∧
    (spawnPlatform (generate rnd gapDraw offDraw)).Top rnd = 1 / 2 ∧
    (initial rnd (generate rnd gapDraw offDraw)).spherePos.y = 3 / 2 ∧
    fadd rnd ((spawnPlatform (generate rnd gapDraw offDraw)).Top rnd) sphereRadius = 3 / 2 := by
  have htop : (spawnPlatform (generate rnd gapDraw offDraw)).Top rnd = 1 / 2 := by
    show fadd rnd (0 : ℚ) (fdiv rnd 1 2) = 1 / 2
    simp only [fadd, fdiv]
    rw [h1]
    norm_num
    exact h1
  have hy : fadd rnd ((spawnPlatform (generate rnd gapDraw offDraw)).Top rnd) sphereRadius
      = 3 / 2 := by
    rw [htop]
    simp only [fadd, sphereRadius]
    norm_num
    exact h2
  exact ⟨rfl, rfl, rfl, htop, hy, hy⟩

/-- Instance of `spawn_height_is_three_halves` in binary32 on the draws of `sampleLevel`. -/
theorem spawn_height_is_three_halves_witness :
    (f32 (1 / 2) = 1 / 2 ∧ f32 (3 / 2) = 3 / 2) ∧
    (spawnPlatform (generate f32 sampleGap sampleOff)).Top f32 = 1 / 2 ∧
    (initial f32 (generate f32 sampleGap sampleOff)).spherePos.y = 3 / 2 :=
  have h : f32 (1 / 2) = 1 / 2 ∧ f32 (3 / 2) = 3 / 2 := by decide!
  ⟨h, (spawn_height_is_three_halves f32 sampleGap sampleOff h.1 h.2).2.2.2.1,
   (spawn_height_is_three_halves f32 sampleGap sampleOff h.1 h.2).2.2.2.2.1⟩

/-- Claim C10: a jump takes effect exactly when `onGround` is true at the start of a frame that
begins alive.  (1) With the jump key pressed and `onGround` true, the velocity is set to
`jumpForce = 10.5` before gravity is integrated: the integrated velocity is
`10.5 - 13 dt` and the height advances by `(10.5 - 13 dt) dt`, each operation rounded; (2) in
real arithmetic these are `21/2 - 13 dt` and `y + (21/2 - 13 dt) dt`; (3) the landing test of
the frame works on that integrated state; (4) with `onGround` false the frame ends in the same
state as the same frame without the jump key. -/
theorem jump_needs_ground (rnd : ℚ → ℚ) (platforms : List Platform) (inp : Intents) (dt : ℚ)
    (s : Game) (hs : s.isDead = false) :
    (inp.keySpace = true → s.onGround = true →
      (integrate rnd inp dt s).VelocityY = fsub rnd jumpForce (fmul rnd gravity dt) ∧
      (integrate rnd inp dt s).spherePos.y =
        fadd rnd s.spherePos.y (fmul rnd (fsub rnd jumpForce (fmul rnd gravity dt)) dt)) ∧
    (inp.keySpace = true → s.onGround = true →
      (integrate exact inp dt s).VelocityY = 21 / 2 - 13 * dt ∧
      (integrate exact inp dt s).spherePos.y = s.spherePos.y + (21 / 2 - 13 * dt) * dt) ∧
    tick rnd platforms inp dt s =
      respawnStep rnd platforms dt (deathStep
        (collisionLoop rnd platforms { integrate rnd inp dt s with onGround := false })) ∧
    (s.onGround = false →
      tick rnd platforms inp dt s = tick rnd platforms { inp with keySpace := false } dt s) := by
  have key : ∀ r : ℚ → ℚ, inp.keySpace = true → s.onGround = true →
      (integrate r inp dt s).VelocityY = fsub r jumpForce (fmul r gravity dt) ∧
      (integrate r inp dt s).spherePos.y =
        fadd r s.spherePos.y (fmul r (fsub r jumpForce (fmul r gravity dt)) dt) := by
    intro r hk hg
    have hv : (integrate r inp dt s).VelocityY = fsub r jumpForce (fmul r gravity dt) := by
      rw [integrate_VelocityY]
      simp [hk, hg]
    exact ⟨hv, by rw [integrate_y, hv]⟩
  refine ⟨key rnd, ?_, tick_alive rnd platforms inp dt s hs, ?_⟩
  · intro hk hg
    obtain ⟨hv, hy⟩ := key exact hk hg
    rw [hv, hy]
    simp [fsub, fadd, fmul, exact, jumpForce, gravity]
  · intro hg
    rw [tick_alive rnd platforms inp dt s hs,
      tick_alive rnd platforms { inp with keySpace := false } dt s hs]
    have e1 : aliveUpdate rnd platforms inp dt s =
        collisionLoop rnd platforms { integrate rnd inp dt s with onGround := false } := rfl
    have e2 : aliveUpdate rnd platforms { inp with keySpace := false } dt s =
        collisionLoop rnd platforms
          { integrate rnd { inp with keySpace := false } dt s with onGround := false } := rfl
    rw [e1, e2, integrate_jump_ignored rnd inp dt s hg]

/-- Instance of `jump_needs_ground`: a jump from spawn in a frame of `1/64` s integrates to the
velocity `10.5 - 13/64 = 659/64`. -/
theorem jump_needs_ground_witness :
    spawnState.isDead = false ∧
    (jumpKey.keySpace = true ∧ spawnState.onGround = true) ∧
    (integrate f32 jumpKey (1 / 64) spawnState).VelocityY =
      fsub f32 jumpForce (fmul f32 gravity (1 / 64)) ∧
    fsub f32 jumpForce (fmul f32 gravity (1 / 64)) = 659 / 64 :=
  have h : spawnState.isDead = false ∧ jumpKey.keySpace = true ∧ spawnState.onGround = true := by
    decide!
  ⟨h.1, h.2,
   ((jump_needs_ground f32 sampleLevel jumpKey (1 / 64) spawnState h.1).1 h.2.1 h.2.2).1,
   by decide!⟩

/-- Claim C11, as stated, fails: the program integrates in frames, not continuously.  A jump
from rest at spawn with frames of `1/4` s never lands before it dies in the eighth frame
(`onGround` stays false), and the heights above takeoff at the end of the eight frames are
`29/16, 45/16, 3, 19/8, 15/16, -21/16, -35/8, -33/4`: the maximum is `3`, not `441/104`. -/
theorem quarter_second_jump_peaks_at_three :
    (spawnState.isDead = false ∧ spawnState.onGround = true ∧ spawnState.VelocityY = 0) ∧
    (trace f32 sampleLevel quarterJump spawnState).map
        (fun s => (s.spherePos.y - spawnState.spherePos.y, s.onGround, s.isDead)) =
      [(29 / 16, false, false), (45 / 16, false, false), (3, false, false),
       (19 / 8, false, false), (15 / 16, false, false), (-21 / 16, false, false),
       (-35 / 8, false, false), (-33 / 4, false, true)] ∧
    (3 : ℚ) < jumpForce ^ 2 / (2 * gravity) := by
  decide!

/-- Claim C11 (amended): with `gravity = 13` and `jumpForce = 10.5`, a jump from rest
(`onGround`, `VelocityY = 0`, jump key in the first frame) followed by frames of the same length
`dt` without landing or death stays strictly below the height `jumpForce^2 / (2 gravity) =
441/104` above takeoff: at the end of every frame of the flight `spherePos.y` minus the takeoff
`y` is less than that value, so the maximum over the frames is too.  If `dt <= 3/4` and the
flight lasts until the sphere no longer rises, some frame ends at least
`441/104 - 5.25 dt - 1/64` above takeoff.  Both hold in the program's arithmetic, for every
rounding that moves numbers below `64` by at most `2^-19` (binary32 does, and so does real
arithmetic), for frame times `1/512 <= dt <= 1` and a takeoff height in `(-5, 2.5]` (the
platforms of a level put a resting sphere at `y = 1.5` or `y = 2.5`). -/
theorem jump_stays_below_ideal_peak (rnd : ℚ → ℚ) (herr : RoundsWithin rnd)
    (platforms : List Platform) (dt : ℚ) (s : Game) (inp0 : Intents) (keys : List Intents)
    (hdt1 : 1 / 512 ≤ dt) (hdt2 : dt ≤ 1) (hs : s.isDead = false) (hg : s.onGround = true)
    (_hv : s.VelocityY = 0) (hy1 : -5 < s.spherePos.y) (hy2 : s.spherePos.y ≤ 5 / 2)
    (hj : inp0.keySpace = true)
    (hair : airborne rnd platforms (framesOf dt (inp0 :: keys)) s = true) :
    (∀ g ∈ trace rnd platforms (framesOf dt (inp0 :: keys)) s,
      g.spherePos.y - s.spherePos.y < jumpForce ^ 2 / (2 * gravity)) ∧
    jumpForce ^ 2 / (2 * gravity) = 441 / 104 ∧
    (dt ≤ 3 / 4 → (run rnd platforms (framesOf dt (inp0 :: keys)) s).VelocityY ≤ 0 →
      ∃ g ∈ trace rnd platforms (framesOf dt (inp0 :: keys)) s,
        jumpForce ^ 2 / (2 * gravity) - 21 / 4 * dt - 1 / 64 ≤
          g.spherePos.y - s.spherePos.y) := by
  have hJ : jumpForce ^ 2 / (2 * gravity) = 441 / 104 := by norm_num [jumpForce, gravity]
  have hair2 := hair
  simp only [framesOf, List.map_cons, airborne, Bool.and_eq_true, Bool.not_eq_true'] at hair2
  obtain ⟨⟨h1, h2⟩, h3⟩ := hair2
  have ht := airborne_tick rnd platforms inp0 dt s hs h1 h2
  have hab := airborne_above rnd platforms inp0 dt s hs h1 h2
  have hv1 : (integrate rnd inp0 dt s).VelocityY = fsub rnd (21 / 2) (fmul rnd gravity dt) := by
    rw [integrate_VelocityY]
    simp [hg, hj, jumpForce]
  have hy3 : (integrate rnd inp0 dt s).spherePos.y =
      fadd rnd s.spherePos.y (fmul rnd (fsub rnd (21 / 2) (fmul rnd gravity dt)) dt) := by
    rw [integrate_y, hv1]
  have h21 : |(21 / 2 : ℚ)| ≤ 18 := by rw [abs_le]; constructor <;> norm_num
  have hstep := energy_step rnd herr dt (21 / 2) s.spherePos.y hdt1 hdt2 h21 hy1 (by linarith)
  obtain ⟨m1, _, m3⟩ := momentum_step rnd herr dt (21 / 2) s.spherePos.y hdt1 hdt2 h21 hy1
    (by linarith)
  rw [← hy3, ← hv1] at hstep m3
  rw [← hv1] at m1
  have tv : (tick rnd platforms inp0 dt s).VelocityY = (integrate rnd inp0 dt s).VelocityY := by
    rw [ht]
  have ty : (tick rnd platforms inp0 dt s).spherePos.y =
      (integrate rnd inp0 dt s).spherePos.y := by
    rw [ht]
  rw [← tv, ← ty] at hstep m3
  rw [← tv] at m1
  rw [← ty] at hab
  have hc : s.spherePos.y + 441 / 104 ≤ 7 := by linarith
  have hq1 : (tick rnd platforms inp0 dt s).spherePos.y +
      (tick rnd platforms inp0 dt s).VelocityY ^ 2 / 26 < s.spherePos.y + 441 / 104 := by
    have e : s.spherePos.y + (21 / 2 : ℚ) ^ 2 / 26 = s.spherePos.y + 441 / 104 := by norm_num
    linarith
  have halive : (tick rnd platforms inp0 dt s).isDead = false := by
    rw [ht]; exact (integrate_isDead rnd inp0 dt s).trans hs
  have hoff : (tick rnd platforms inp0 dt s).onGround = false := by rw [ht]
  have hvb := velocity_bound _ _ _ hab hc hq1
  have h3b : airborne rnd platforms (framesOf dt keys) (tick rnd platforms inp0 dt s) = true := by
    simpa [framesOf] using h3
  have hmem : ∀ g, g ∈ trace rnd platforms (framesOf dt (inp0 :: keys)) s ↔
      g = tick rnd platforms inp0 dt s ∨
        g ∈ trace rnd platforms (framesOf dt keys) (tick rnd platforms inp0 dt s) := by
    intro g
    simp [framesOf, trace]
  refine ⟨?_, hJ, ?_⟩
  · have hrest := flight_energy rnd herr platforms dt hdt1 hdt2 (s.spherePos.y + 441 / 104) hc
      keys (tick rnd platforms inp0 dt s) halive hoff hvb hab hq1.le h3b
    intro g hg2
    have hsq : 0 ≤ g.VelocityY ^ 2 / 26 := by positivity
    rw [hJ]
    rcases (hmem g).1 hg2 with h | h
    · rw [h]
      have : 0 ≤ (tick rnd platforms inp0 dt s).VelocityY ^ 2 / 26 := by positivity
      linarith
    · have := hrest g h
      linarith
  · intro hdt3 hend
    rw [hJ]
    have e2 : ((21 / 2 : ℚ)) ^ 2 / 26 = 441 / 104 := by norm_num
    by_cases hap : (tick rnd platforms inp0 dt s).VelocityY ≤ 13 * dt
    · refine ⟨tick rnd platforms inp0 dt s, (hmem _).2 (Or.inl rfl), ?_⟩
      have h0 : 0 ≤ (tick rnd platforms inp0 dt s).VelocityY := by linarith
      nlinarith [mul_nonneg h0 (sub_nonneg.2 hap)]
    · have hend2 : (run rnd platforms (framesOf dt keys)
          (tick rnd platforms inp0 dt s)).VelocityY ≤ 0 := by
        simpa [framesOf, run] using hend
      obtain ⟨g, hg1, hg2⟩ := flight_apex rnd herr platforms dt hdt1 hdt2
        (s.spherePos.y + 441 / 104)
        (s.spherePos.y + (21 / 2) ^ 2 / 26 - (dt / 2 + 1 / 1024) * (21 / 2)) hc keys
        (tick rnd platforms inp0 dt s) halive hoff hvb hab hq1.le m3 (not_le.1 hap) h3b hend2
      exact ⟨g, (hmem g).2 (Or.inr hg1), by linarith⟩

/-- Instance of `jump_stays_below_ideal_peak` in binary32: a jump at spawn on `sampleLevel`
with frames of `fl(2/5)` s, steered to the right in the second frame; the third frame ends with
a negative velocity. -/
theorem jump_stays_below_ideal_peak_witness :
    (RoundsWithin f32 ∧ (1 / 512 : ℚ) ≤ f32 (2 / 5) ∧ f32 (2 / 5) ≤ 1 ∧
      spawnState.isDead = false ∧ spawnState.onGround = true ∧ spawnState.VelocityY = 0 ∧
      -5 < spawnState.spherePos.y ∧ spawnState.spherePos.y ≤ 5 / 2 ∧
      jumpKey.keySpace = true ∧
      airborne f32 sampleLevel (framesOf (f32 (2 / 5)) (jumpKey :: steerKeys))
        spawnState = true) ∧
    (∀ g ∈ trace f32 sampleLevel (framesOf (f32 (2 / 5)) (jumpKey :: steerKeys))
        spawnState,
      g.spherePos.y - spawnState.spherePos.y < jumpForce ^ 2 / (2 * gravity)) ∧
    (f32 (2 / 5) ≤ 3 / 4 ∧
      (run f32 sampleLevel (framesOf (f32 (2 / 5)) (jumpKey :: steerKeys))
        spawnState).VelocityY ≤ 0) ∧
    (∃ g ∈ trace f32 sampleLevel (framesOf (f32 (2 / 5)) (jumpKey :: steerKeys))
        spawnState,
      jumpForce ^ 2 / (2 * gravity) - 21 / 4 * f32 (2 / 5) - 1 / 64 ≤
        g.spherePos.y - spawnState.spherePos.y) :=
  have h : (1 / 512 : ℚ) ≤ f32 (2 / 5) ∧ f32 (2 / 5) ≤ 1 ∧
      spawnState.isDead = false ∧ spawnState.onGround = true ∧ spawnState.VelocityY = 0 ∧
      -5 < spawnState.spherePos.y ∧ spawnState.spherePos.y ≤ 5 / 2 ∧
      jumpKey.keySpace = true ∧
      airborne f32 sampleLevel (framesOf (f32 (2 / 5)) (jumpKey :: steerKeys))
        spawnState = true := by
    decide!
  have h0 : f32 (2 / 5) ≤ 3 / 4 ∧
      (run f32 [] (framesOf (f32 (2 / 5)) (jumpKey :: steerKeys)) spawnState).VelocityY ≤ 0 := by
    decide!
  have h2 : f32 (2 / 5) ≤ 3 / 4 ∧
      (run f32 sampleLevel (framesOf (f32 (2 / 5)) (jumpKey :: steerKeys))
        spawnState).VelocityY ≤ 0 :=
    ⟨h0.1, by
      rw [airborne_run_eq f32 sampleLevel _ spawnState h.2.2.1 h.2.2.2.2.2.2.2.2]
      exact h0.2⟩
  have t := jump_stays_below_ideal_peak f32 f32_roundsWithin sampleLevel (f32 (2 / 5)) spawnState
      jumpKey steerKeys h.1 h.2.1 h.2.2.1 h.2.2.2.1 h.2.2.2.2.1
      h.2.2.2.2.2.1 h.2.2.2.2.2.2.1 h.2.2.2.2.2.2.2.1 h.2.2.2.2.2.2.2.2
  ⟨⟨f32_roundsWithin, h⟩, t.1, h2, t.2.2 h2.1 h2.2⟩

/-- Claim C12, as stated, fails in two ways.  (1) In binary32 the two moves do not cancel
exactly: at `z = fl(0.1)` a frame of `1/64` s with both the forward and the back key ends at
`z = 3355443/33554432`, one unit in the last place below the `z` of the same frame without keys,
and `rotationX` likewise.  (2) A frame that dies and respawns resets `z`: beside the spawn
platform a forward frame of two seconds ends at `z = 0`, not at `z + 7 dt = 14`. -/
theorem opposite_keys_round_and_respawn_resets :
    ((run f32 sampleLevel tenthForward spawnState).isDead = false ∧
      (run f32 sampleLevel tenthForward spawnState).spherePos.z = 13421773 / 134217728 ∧
      (tick f32 sampleLevel upDownKeys (1 / 64)
        (run f32 sampleLevel tenthForward spawnState)).spherePos.z = 3355443 / 33554432 ∧
      (tick f32 sampleLevel noKeys (1 / 64)
        (run f32 sampleLevel tenthForward spawnState)).spherePos.z = 13421773 / 134217728 ∧
      (tick f32 sampleLevel upDownKeys (1 / 64)
        (run f32 sampleLevel tenthForward spawnState)).rotationX ≠
      (tick f32 sampleLevel noKeys (1 / 64)
        (run f32 sampleLevel tenthForward spawnState)).rotationX) ∧
    (besideSpawn.isDead = false ∧ besideSpawn.spherePos.z = 0 ∧
      (tick f32 sampleLevel upKey 2 besideSpawn).spherePos.z = 0 ∧
      fmul f32 speed 2 = 14) := by
  decide!

/-- Claim C12 (amended): opposite directional keys are both applied, one after the other.  For
every frame that begins alive: (1) with forward and back together the alive block leaves
`z = (z + speed dt) - speed dt` and `rotationX = (rotationX + speed dt / radius) - speed dt /
radius`, each operation rounded, and with left and right together the same for `x` and
`rotationZ`; (2) in real arithmetic the whole frame then ends in the same state as with neither
key; (3) a single key changes its axis by `speed dt` and its rotation by `speed dt / radius`
in the alive block (`speed = 7`, `radius = 1`); (4) the rotations at the end of the frame are
those of the alive block, and so is the position unless the frame dies and respawns at once. -/
theorem opposite_keys_superpose (rnd : ℚ → ℚ) (platforms : List Platform) (inp : Intents)
    (dt : ℚ) (s : Game) (hs : s.isDead = false) :
    ((aliveUpdate rnd platforms { inp with keyUp := true, keyDown := true } dt s).spherePos.z =
        fsub rnd (fadd rnd s.spherePos.z (fmul rnd speed dt)) (fmul rnd speed dt) ∧
      (aliveUpdate rnd platforms { inp with keyUp := true, keyDown := true } dt s).rotationX =
        fsub rnd (fadd rnd s.rotationX (fdiv rnd (fmul rnd speed dt) sphereRadius))
          (fdiv rnd (fmul rnd speed dt) sphereRadius) ∧
      (aliveUpdate rnd platforms { inp with keyLeft := true, keyRight := true } dt
          s).spherePos.x =
        fsub rnd (fadd rnd s.spherePos.x (fmul rnd speed dt)) (fmul rnd speed dt) ∧
      (aliveUpdate rnd platforms { inp with keyLeft := true, keyRight := true } dt s).rotationZ =
        fsub rnd (fadd rnd s.rotationZ (fdiv rnd (fmul rnd speed dt) sphereRadius))
          (fdiv rnd (fmul rnd speed dt) sphereRadius)) ∧
    (tick exact platforms { inp with keyUp := true, keyDown := true } dt s =
        tick exact platforms { inp with keyUp := false, keyDown := false } dt s ∧
      tick exact platforms { inp with keyLeft := true, keyRight := true } dt s =
        tick exact platforms { inp with keyLeft := false, keyRight := false } dt s) ∧
    ((inp.keyUp = true → inp.keyDown = false →
        (aliveUpdate rnd platforms inp dt s).spherePos.z =
          fadd rnd s.spherePos.z (fmul rnd speed dt) ∧
        (aliveUpdate rnd platforms inp dt s).rotationX =
          fadd rnd s.rotationX (fdiv rnd (fmul rnd speed dt) sphereRadius)) ∧
      (inp.keyUp = false → inp.keyDown = true →
        (aliveUpdate rnd platforms inp dt s).spherePos.z =
          fsub rnd s.spherePos.z (fmul rnd speed dt) ∧
        (aliveUpdate rnd platforms inp dt s).rotationX =
          fsub rnd s.rotationX (fdiv rnd (fmul rnd speed dt) sphereRadius)) ∧
      (inp.keyLeft = true → inp.keyRight = false →
        (aliveUpdate rnd platforms inp dt s).spherePos.x =
          fadd rnd s.spherePos.x (fmul rnd speed dt) ∧
        (aliveUpdate rnd platforms inp dt s).rotationZ =
          fadd rnd s.rotationZ (fdiv rnd (fmul rnd speed dt) sphereRadius)) ∧
      (inp.keyLeft = false → inp.keyRight = true →
        (aliveUpdate rnd platforms inp dt s).spherePos.x =
          fsub rnd s.spherePos.x (fmul rnd speed dt) ∧
        (aliveUpdate rnd platforms inp dt s).rotationZ =
          fsub rnd s.rotationZ (fdiv rnd (fmul rnd speed dt) sphereRadius))) ∧
    (fmul exact speed dt = 7 * dt ∧ fdiv exact (fmul exact speed dt) sphereRadius = 7 * dt / 1) ∧
    ((tick rnd platforms inp dt s).rotationX = (aliveUpdate rnd platforms inp dt s).rotationX ∧
      (tick rnd platforms inp dt s).rotationZ = (aliveUpdate rnd platforms inp dt s).rotationZ ∧
      (¬ ((aliveUpdate rnd platforms inp dt s).spherePos.y ≤ -5 ∧ fadd rnd 0 dt > 1) →
        (tick rnd platforms inp dt s).spherePos =
          (aliveUpdate rnd platforms inp dt s).spherePos)) := by
  refine ⟨⟨?_, ?_, ?_, ?_⟩, ⟨?_, ?_⟩, ⟨?_, ?_, ?_, ?_⟩, ⟨?_, ?_⟩, ⟨?_, ?_, ?_⟩⟩
  · rw [(aliveUpdate_horizontal rnd platforms _ dt s).2.1, integrate_z]; simp
  · rw [(aliveUpdate_horizontal rnd platforms _ dt s).2.2.1, integrate_rotationX]; simp
  · rw [(aliveUpdate_horizontal rnd platforms _ dt s).1, integrate_x]; simp
  · rw [(aliveUpdate_horizontal rnd platforms _ dt s).2.2.2, integrate_rotationZ]; simp
  · exact tick_congr_integrate exact platforms _ _ dt s (integrate_up_down_exact inp dt s)
  · exact tick_congr_integrate exact platforms _ _ dt s (integrate_left_right_exact inp dt s)
  · intro h1 h2
    rw [(aliveUpdate_horizontal rnd platforms inp dt s).2.1,
      (aliveUpdate_horizontal rnd platforms inp dt s).2.2.1, integrate_z, integrate_rotationX]
    simp [h1, h2]
  · intro h1 h2
    rw [(aliveUpdate_horizontal rnd platforms inp dt s).2.1,
      (aliveUpdate_horizontal rnd platforms inp dt s).2.2.1, integrate_z, integrate_rotationX]
    simp [h1, h2]
  · intro h1 h2
    rw [(aliveUpdate_horizontal rnd platforms inp dt s).1,
      (aliveUpdate_horizontal rnd platforms inp dt s).2.2.2, integrate_x, integrate_rotationZ]
    simp [h1, h2]
  · intro h1 h2
    rw [(aliveUpdate_horizontal rnd platforms inp dt s).1,
      (aliveUpdate_horizontal rnd platforms inp dt s).2.2.2, integrate_x, integrate_rotationZ]
    simp [h1, h2]
  · simp [fmul, exact, speed]
  · simp [fmul, fdiv, exact, speed, sphereRadius]
  · exact (tick_rotation rnd platforms inp dt s hs).1
  · exact (tick_rotation rnd platforms inp dt s hs).2
  · intro hr
    have hno : respawnFires rnd dt (deathStep (aliveUpdate rnd platforms inp dt s)) = false := by
      cases h : respawnFires rnd dt (deathStep (aliveUpdate rnd platforms inp dt s)) with
      | false => rfl
      | true => exact absurd ((alive_respawn_iff rnd platforms inp dt s hs).1 h) hr
    rw [tick_alive rnd platforms inp dt s hs]
    exact (no_respawn_keeps rnd platforms dt _ hno).1

/-- Instance of `opposite_keys_superpose`: at spawn on `idealLevel`, both the forward and the
back key in a frame of `1/64` s end in the same state as no key. -/
theorem opposite_keys_superpose_witness :
    (initial exact idealLevel).isDead = false ∧
    tick exact idealLevel { noKeys with keyUp := true, keyDown := true } (1 / 64)
        (initial exact idealLevel) =
      tick exact idealLevel { noKeys with keyUp := false, keyDown := false } (1 / 64)
        (initial exact idealLevel) :=
  have h : (initial exact idealLevel).isDead = false := by decide!
  ⟨h, (opposite_keys_superpose exact idealLevel noKeys (1 / 64) (initial exact idealLevel)
      h).2.1.1⟩

/-- Claim C13: for every index `i` with `1 <= i < 200` and every value `GetRandomValue(-400,
400)` can return, `platforms[i].center.x` is the drawn offset itself, `offDraw i / 100.0f`,
whatever the other draws and the previous platform, and it lies in `[-4, 4]`.  Holds for every
rounding with the properties of `IsRounding`; the two `int` arguments of the call are `-400`
and `400`. -/
theorem lateral_offset_is_the_draw (rnd : ℚ → ℚ) (hr : IsRounding rnd)
    (gapDraw offDraw : Nat → Int) (hv : ValidDraws rnd gapDraw offDraw) (i : Nat) (h1 : 1 ≤ i)
    (h2 : i < platformCount) :
    (offLo rnd = -400 ∧ offHi rnd = 400) ∧
    (platformAt (generate rnd gapDraw offDraw) i).platformCenter.x =
      fdiv rnd (offDraw i : ℚ) 100 ∧
    (-4 ≤ (platformAt (generate rnd gapDraw offDraw) i).platformCenter.x ∧
      (platformAt (generate rnd gapDraw offDraw) i).platformCenter.x ≤ 4) ∧
    (∀ gapDraw2 offDraw2 : Nat → Int, offDraw2 i = offDraw i →
      (platformAt (generate rnd gapDraw2 offDraw2) i).platformCenter.x =
        (platformAt (generate rnd gapDraw offDraw) i).platformCenter.x) := by
  have hlo : offLo rnd = -400 := by
    have e : fmul rnd (-4) 100 = ((-400 : ℤ) : ℚ) := by
      simp only [fmul]
      have := hr.int (-400) (by norm_num)
      norm_num at this ⊢
      exact this
    rw [offLo, e, toInt_intCast]
  have hhi : offHi rnd = 400 := by
    have e : fmul rnd 4 100 = ((400 : ℤ) : ℚ) := by
      simp only [fmul]
      have := hr.int 400 (by norm_num)
      norm_num at this ⊢
      exact this
    rw [offHi, e, toInt_intCast]
  have hx : ∀ g o : Nat → Int, (platformAt (generate rnd g o) i).platformCenter.x =
      fdiv rnd (o i : ℚ) 100 := by
    intro g o
    rw [generate_step rnd g o i h1 h2]
    rfl
  obtain ⟨_, ho1, ho2⟩ := hv i h2 h1
  rw [hlo] at ho1
  rw [hhi] at ho2
  have o1 : (-400 : ℚ) ≤ (offDraw i : ℚ) := by exact_mod_cast ho1
  have o2 : (offDraw i : ℚ) ≤ 400 := by exact_mod_cast ho2
  have hm4 : rnd (-4) = -4 := by
    have := hr.int (-4) (by norm_num)
    norm_num at this
    exact this
  have h4 : rnd 4 = 4 := by
    have := hr.int 4 (by norm_num)
    norm_num at this
    exact this
  refine ⟨⟨hlo, hhi⟩, hx gapDraw offDraw, ⟨?_, ?_⟩, ?_⟩
  · rw [hx gapDraw offDraw]
    have := hr.mono (show (-4 : ℚ) ≤ (offDraw i : ℚ) / 100 by linarith)
    rw [hm4] at this
    exact this
  · rw [hx gapDraw offDraw]
    have := hr.mono (show (offDraw i : ℚ) / 100 ≤ 4 by linarith)
    rw [h4] at this
    exact this
  · intro g2 o2' he
    rw [hx g2 o2', hx gapDraw offDraw, he]


/-- Instance of `lateral_offset_is_the_draw` in binary32 on the draws of `zigzagLevel`:
platform 1 lies at `x = -4`. -/
theorem lateral_offset_is_the_draw_witness :
    (IsRounding f32 ∧ ValidDraws f32 sampleGap zigzagOff ∧ 1 ≤ 1 ∧ 1 < platformCount) ∧
    ((platformAt zigzagLevel 1).platformCenter.x = fdiv f32 (zigzagOff 1 : ℚ) 100 ∧
      fdiv f32 (zigzagOff 1 : ℚ) 100 = -4) :=
  have h : ValidDraws f32 sampleGap zigzagOff ∧ 1 ≤ 1 ∧ 1 < platformCount :=
    ⟨zigzag_draws_valid, by decide, by decide⟩
  ⟨⟨f32_isRounding, h⟩,
   (lateral_offset_is_the_draw f32 f32_isRounding sampleGap zigzagOff h.1 1 h.2.1
      h.2.2).2.1,
   by decide!⟩

/-- Claim C14: on every level the generator can produce (draws within the bounds of their
calls) and for every rounding with the properties of `IsRounding`, the forward extents are
disjoint and ordered, `Front(i) < Back(j)` for all `i < j`; hence at most one platform
satisfies `ContainsXZ` for a given position, and any two platforms that pass the landing test
of the collision loop are the same platform, so the first match is the only match. -/
theorem generated_extents_are_disjoint (rnd : ℚ → ℚ) (hr : IsRounding rnd)
    (gapDraw offDraw : Nat → Int) (hv : ValidDraws rnd gapDraw offDraw) :
    (∀ i j : Nat, i < j → j < platformCount →
      (platformAt (generate rnd gapDraw offDraw) i).Front rnd <
        (platformAt (generate rnd gapDraw offDraw) j).Back rnd) ∧
    (∀ (pos : Vector3) (r : ℚ) (i j : Nat), i < platformCount → j < platformCount →
      (platformAt (generate rnd gapDraw offDraw) i).ContainsXZ rnd pos r = true →
      (platformAt (generate rnd gapDraw offDraw) j).ContainsXZ rnd pos r = true → i = j) ∧
    (∀ (s : Game) (i j : Nat), i < platformCount → j < platformCount →
      landingTest rnd s (platformAt (generate rnd gapDraw offDraw) i) = true →
      landingTest rnd s (platformAt (generate rnd gapDraw offDraw) j) = true → i = j) := by
  refine ⟨fun i j hij hj => front_lt_back hr gapDraw offDraw hv i j hij hj,
    fun pos r i j hi hj ci cj => containsXZ_unique hr gapDraw offDraw hv pos r i j hi hj ci cj,
    fun s i j hi hj li lj => ?_⟩
  exact containsXZ_unique hr gapDraw offDraw hv s.spherePos sphereRadius i j hi hj
    (landingTest_contains rnd s _ li) (landingTest_contains rnd s _ lj)

/-- Instance of `generated_extents_are_disjoint` in binary32 on the draws of `zigzagLevel`: the
front edge of platform 0 lies before the back edge of platform 1. -/
theorem generated_extents_are_disjoint_witness :
    (IsRounding f32 ∧ ValidDraws f32 sampleGap zigzagOff) ∧
    (platformAt zigzagLevel 0).Front f32 < (platformAt zigzagLevel 1).Back f32 :=
  have h : ValidDraws f32 sampleGap zigzagOff := zigzag_draws_valid
  ⟨⟨f32_isRounding, h⟩,
   (generated_extents_are_disjoint f32 f32_isRounding sampleGap zigzagOff h).1 0 1
      (by decide) (by decide)⟩

/-- Claim C15, as stated, fails in a frame that dies and respawns at once.  At rest on the spawn
platform (`VelocityY = 0`, `y = Top + radius`, inside platform 0 and no other), a frame of two
seconds without keys has `13 dt^2 = 52 > 0.4`, yet it ends with the same `y`, `VelocityY = 0`
and `onGround` true: the sphere fell to `y = -50.5`, died and was respawned at spawn height. -/
theorem long_frame_at_rest_respawns_at_rest :
    (spawnState.isDead = false ∧ spawnState.VelocityY = 0 ∧
      spawnState.spherePos.y = fadd f32 (platform0.Top f32) sphereRadius ∧
      sampleLevel.head? = some platform0 ∧
      platform0.ContainsXZ f32 spawnState.spherePos sphereRadius = true ∧
      (sampleLevel.tail.all
        (fun p => !p.ContainsXZ f32 spawnState.spherePos sphereRadius)) = true) ∧
    ((2 : ℚ) / 5 < gravity * 2 ^ 2 ∧
      (aliveUpdate f32 sampleLevel noKeys 2 spawnState).spherePos.y = -101 / 2) ∧
    ((tick f32 sampleLevel noKeys 2 spawnState).spherePos.y = spawnState.spherePos.y ∧
      (tick f32 sampleLevel noKeys 2 spawnState).VelocityY = 0 ∧
      (tick f32 sampleLevel noKeys 2 spawnState).onGround = true) := by
  decide!

/-- Claim C15 (amended): on every generated level, in the binary32 arithmetic of the program, a
sphere at rest on a platform (`VelocityY = 0`, `y = Top + radius`, `x`/`z` inside that platform
and no other), in a frame without keys whose frame time `dt >= 0` is a binary32 number and that
does not die and respawn at once, stays exactly at rest (same `y`, `VelocityY = 0`, `onGround`
true) iff `gravity dt^2 <= 0.4`, that is `13 dt^2 <= 0.4`; for every such `dt` with
`13 dt^2 > 0.4` the landing test fails for every platform, `onGround` is false at the end of the
frame and the bottom of the sphere ends below the tolerance band. -/
theorem resting_sphere_survives_iff_small_frame (gapDraw offDraw : Nat → Int) (k : Nat)
    (hk : k < (generate f32 gapDraw offDraw).length) (dt : ℚ) (s : Game)
    (hs : s.isDead = false) (hv : s.VelocityY = 0)
    (hy : s.spherePos.y = fadd f32 ((generate f32 gapDraw offDraw)[k].Top f32) sphereRadius)
    (hin : (generate f32 gapDraw offDraw)[k].ContainsXZ f32 s.spherePos sphereRadius = true)
    (hout : ∀ (j : Nat) (hj : j < (generate f32 gapDraw offDraw).length), j ≠ k →
      (generate f32 gapDraw offDraw)[j].ContainsXZ f32 s.spherePos sphereRadius = false)
    (hdt : 0 ≤ dt) (hfl : f32 dt = dt)
    (hr : ¬ ((aliveUpdate f32 (generate f32 gapDraw offDraw) noKeys dt s).spherePos.y ≤ -5 ∧
      fadd f32 0 dt > 1)) :
    (((tick f32 (generate f32 gapDraw offDraw) noKeys dt s).spherePos.y = s.spherePos.y ∧
        (tick f32 (generate f32 gapDraw offDraw) noKeys dt s).VelocityY = 0 ∧
        (tick f32 (generate f32 gapDraw offDraw) noKeys dt s).onGround = true) ↔
      gravity * dt ^ 2 ≤ 2 / 5) ∧
    gravity * dt ^ 2 = 13 * dt ^ 2 ∧
    (2 / 5 < 13 * dt ^ 2 →
      (∀ p ∈ generate f32 gapDraw offDraw,
        landingTest f32 { integrate f32 noKeys dt s with onGround := false } p = false) ∧
      (tick f32 (generate f32 gapDraw offDraw) noKeys dt s).onGround = false ∧
      fsub f32 (tick f32 (generate f32 gapDraw offDraw) noKeys dt s).spherePos.y sphereRadius <
        fsub f32 ((generate f32 gapDraw offDraw)[k].Top f32) (f32 (2 / 5))) := by
  obtain ⟨⟨n0, n1, n2⟩, ⟨a0, a1, a2, a3⟩, ⟨b0, b1, b2, b3⟩⟩ := rest_threshold_values
  have hE := no_float_between_rest dt hfl
  rcases generated_top gapDraw offDraw _ (List.getElem_mem hk) with ht | ht
  · have hy2 : s.spherePos.y = 3 / 2 := by rw [hy, ht, a0]
    exact rest_iff_of_bracket f32 f32_monotone f32_zero _ k hk dt s hs hv hy hin hout hdt hr
      restLast restNext n0 n1 n2 (by rw [ht, hy2]; exact a1) (by rw [ht, hy2]; exact a2)
      (by rw [ht, hy2]; exact a3) hE
  · have hy2 : s.spherePos.y = 5 / 2 := by rw [hy, ht, b0]
    exact rest_iff_of_bracket f32 f32_monotone f32_zero _ k hk dt s hs hv hy hin hout hdt hr
      restLast restNext n0 n1 n2 (by rw [ht, hy2]; exact b1) (by rw [ht, hy2]; exact b2)
      (by rw [ht, hy2]; exact b3) hE

/-- Instance of `resting_sphere_survives_iff_small_frame`: at spawn on `zigzagLevel`,
platform 0, a frame of `fl(1/60)` s. -/
theorem resting_sphere_survives_iff_small_frame_witness :
    ((initial f32 zigzagLevel).isDead = false ∧ (initial f32 zigzagLevel).VelocityY = 0 ∧
      (initial f32 zigzagLevel).spherePos.y =
        fadd f32 (((generate f32 sampleGap zigzagOff).get ⟨0, zigzagLevel_nonempty⟩).Top f32)
          sphereRadius ∧
      ((generate f32 sampleGap zigzagOff).get ⟨0, zigzagLevel_nonempty⟩).ContainsXZ f32
        (initial f32 zigzagLevel).spherePos sphereRadius = true ∧
      (0 : ℚ) ≤ f32 (1 / 60) ∧ f32 (f32 (1 / 60)) = f32 (1 / 60) ∧
      ¬ fadd f32 0 (f32 (1 / 60)) > 1) ∧
    (((tick f32 (generate f32 sampleGap zigzagOff) noKeys (f32 (1 / 60))
          (initial f32 zigzagLevel)).spherePos.y = (initial f32 zigzagLevel).spherePos.y ∧
      (tick f32 (generate f32 sampleGap zigzagOff) noKeys (f32 (1 / 60))
          (initial f32 zigzagLevel)).VelocityY = 0 ∧
      (tick f32 (generate f32 sampleGap zigzagOff) noKeys (f32 (1 / 60))
          (initial f32 zigzagLevel)).onGround = true) ↔
      gravity * (f32 (1 / 60)) ^ 2 ≤ 2 / 5) :=
  have h : (initial f32 zigzagLevel).isDead = false ∧ (initial f32 zigzagLevel).VelocityY = 0 ∧
      (initial f32 zigzagLevel).spherePos.y =
        fadd f32 (((generate f32 sampleGap zigzagOff).get ⟨0, zigzagLevel_nonempty⟩).Top f32)
          sphereRadius ∧
      ((generate f32 sampleGap zigzagOff).get ⟨0, zigzagLevel_nonempty⟩).ContainsXZ f32
        (initial f32 zigzagLevel).spherePos sphereRadius = true ∧
      (0 : ℚ) ≤ f32 (1 / 60) ∧ f32 (f32 (1 / 60)) = f32 (1 / 60) ∧
      ¬ fadd f32 0 (f32 (1 / 60)) > 1 := by decide!
  ⟨h, (resting_sphere_survives_iff_small_frame sampleGap zigzagOff 0 zigzagLevel_nonempty
      (f32 (1 / 60)) (initial f32 zigzagLevel) h.1 h.2.1 h.2.2.1 h.2.2.2.1
      (containsXZ_only f32_isRounding sampleGap zigzagOff zigzag_draws_valid
        (initial f32 zigzagLevel).spherePos sphereRadius 0 zigzagLevel_nonempty h.2.2.2.1)
      h.2.2.2.2.1 h.2.2.2.2.2.1 (fun hc => h.2.2.2.2.2.2 hc.2)).1⟩

/-- Claim C16: starting from the initial state on a generated level, for every sequence of keys
and frame times (non-negative or not), the run is above the death threshold whenever it is
alive at the end of a frame: `isDead = false` implies `spherePos.y > -5`.  Holds for every
rounding that keeps `1/2` and `3/2` (real arithmetic and binary32 do), which makes the spawn
height `1.5`. -/
theorem alive_run_is_above_threshold (rnd : ℚ → ℚ) (gapDraw offDraw : Nat → Int)
    (frames : List (Intents × ℚ)) (h1 : rnd (1 / 2) = 1 / 2) (h2 : rnd (3 / 2) = 3 / 2)
    (halive : (run rnd (generate rnd gapDraw offDraw) frames
      (initial rnd (generate rnd gapDraw offDraw))).isDead = false) :
    -5 < (run rnd (generate rnd gapDraw offDraw) frames
      (initial rnd (generate rnd gapDraw offDraw))).spherePos.y := by
  have htop : (spawnPlatform (generate rnd gapDraw offDraw)).Top rnd = 1 / 2 := by
    show fadd rnd (0 : ℚ) (fdiv rnd 1 2) = 1 / 2
    simp only [fadd, fdiv]
    rw [h1, zero_add, h1]
  have hsp : fadd rnd ((spawnPlatform (generate rnd gapDraw offDraw)).Top rnd) sphereRadius
      = 3 / 2 := by
    rw [htop]
    simp only [fadd, sphereRadius]
    norm_num
    exact h2
  rcases List.eq_nil_or_concat frames with hnil | ⟨init, f, hcat⟩
  · subst hnil
    show -5 < fadd rnd ((spawnPlatform (generate rnd gapDraw offDraw)).Top rnd) sphereRadius
    rw [hsp]; norm_num
  · obtain ⟨inp, dt⟩ := f
    have e : run rnd (generate rnd gapDraw offDraw) frames
        (initial rnd (generate rnd gapDraw offDraw)) =
        tick rnd (generate rnd gapDraw offDraw) inp dt
          (run rnd (generate rnd gapDraw offDraw) init
            (initial rnd (generate rnd gapDraw offDraw))) := by
      rw [hcat, List.concat_eq_append, run_append]
      rfl
    rw [e] at halive ⊢
    exact tick_alive_above rnd _ inp dt _ (by rw [hsp]; norm_num) halive

/-- Instance of `alive_run_is_above_threshold` in binary32: a jump at spawn and one more frame,
each of `1/64` s, on the sample draws. -/
theorem alive_run_is_above_threshold_witness :
    (f32 (1 / 2) = 1 / 2 ∧ f32 (3 / 2) = 3 / 2 ∧
      (run f32 (generate f32 sampleGap sampleOff) [(jumpKey, 1 / 64), (noKeys, 1 / 64)]
        (initial f32 (generate f32 sampleGap sampleOff))).isDead = false) ∧
    -5 < (run f32 (generate f32 sampleGap sampleOff) [(jumpKey, 1 / 64), (noKeys, 1 / 64)]
        (initial f32 (generate f32 sampleGap sampleOff))).spherePos.y :=
  have h : f32 (1 / 2) = 1 / 2 ∧ f32 (3 / 2) = 3 / 2 ∧
      (run f32 (generate f32 sampleGap sampleOff) [(jumpKey, 1 / 64), (noKeys, 1 / 64)]
        (initial f32 (generate f32 sampleGap sampleOff))).isDead = false := by decide!
  ⟨h, alive_run_is_above_threshold f32 sampleGap sampleOff [(jumpKey, 1 / 64), (noKeys, 1 / 64)]
      h.1 h.2.1 h.2.2⟩

end RollHighOrDie
